import Mathlib

/-!
# Verification of `geo` (geo.go)

A shallow embedding of the geographic geometry library.

* `float64` is read in two ways.  In the first it is an ordered field `K` (exact arithmetic,
  no rounding, no NaN and no infinities); concrete runs use `ℚ`, statements about
  trigonometry use `ℝ`.  This reading serves the comparisons, the control flow, the panics and
  the relations between results that hold operation by operation.  The only place where exact
  arithmetic has no value is a division by zero, which occurs in `GetPolygonArea`; there the
  float result is NaN and the model returns `none` for it.
* In the second reading it is IEEE 754 binary64 (`F64`): every operation is the exact result
  rounded to the nearest number, ties to even, with NaN, the infinities and the two zeros, and
  `math.Sin`, `math.Cos`, `math.Acos`, `math.Max`, `math.Min` are Go's portable
  implementations, operation by operation.  The functions of geo.go on this reading are in the
  namespace `Binary64`; statements whose truth depends on rounding are made there.
* Points that the code changes in place live in a `Heap`, a map from addresses to points; a
  pointer `*Point` is an address.
* On the first reading the functions of Go's `math` package that are not field operations
  (`Sin`, `Cos`, `Acos`, `Sqrt`, the constant `Pi`) are passed in as a record `MathPkg K`.
* A Go run-time panic is a value of `Panic`; a function that can panic returns `Except Panic _`.
* A pointer produced by the code (`*Rect`) is an `Option`: `none` is `nil`.  The points of a
  polyline and the arguments handed in by the caller are taken to be non-nil.
* The two `for` loops of `getLoop` have no bound in the source; they are run with an explicit
  amount of fuel and return `none` when it runs out.
-/

namespace Geo

/-! ## Data model -/

/-- Run-time panics of the Go program. -/
inductive Panic where
  | nilDereference
  | indexOutOfRange
  deriving DecidableEq, Repr

/-- Functions and constants of Go's `math` package that are not field operations. -/
structure MathPkg (K : Type) where
  Sin : K → K
  Cos : K → K
  Acos : K → K
  Sqrt : K → K
  Pi : K

/-- The record `Point` of geo.go: `Lng` first, `Lat` second. -/
structure Point (K : Type) where
  Lng : K
  Lat : K
  deriving DecidableEq, Repr

/-- The record `Rect` of geo.go. -/
structure Rect (K : Type) where
  SouthWest : Point K
  NorthEast : Point K
  deriving DecidableEq, Repr

/-- The record `Circle` of geo.go. -/
structure Circle (K : Type) where
  Center : Point K
  Radius : K
  deriving DecidableEq, Repr

/-- The record `Polyline` of geo.go. -/
structure Polyline (K : Type) where
  Points : List (Point K)
  deriving DecidableEq, Repr

/-- Memory holding the points reached through pointers `*Point`: the point stored at each
address. -/
abbrev Heap (K : Type) := Nat → Point K

section Code

variable {K : Type} [LinearOrderedField K]

/-- Constant `EARTHRADIUS = 6370996.81`. -/
def EARTHRADIUS : K := 637099681 / 100

/-- Constant `F_ZERO = 2e-10`. -/
def F_ZERO : K := 2 / 10 ^ 10

/-- Constant `math.MaxFloat64 = 2^1023 * (2 - 2^-52)`. -/
def MaxFloat64 : K := 2 ^ 1024 - 2 ^ 971

/-- Method `Point.Equals` (geo.go 17-23). -/
def Point.Equals (this p2 : Point K) : Bool :=
  if |this.Lat - p2.Lat| ≤ F_ZERO ∧ |this.Lng - p2.Lng| ≤ F_ZERO then true else false

/-- Dereference of a pointer: panics on `nil`. -/
def deref {α : Type} (ptr : Option α) : Except Panic α :=
  match ptr with
  | none => .error .nilDereference
  | some v => .ok v

/-- Assignment to a field through a pointer, `ptr.f = v`: panics on `nil`. -/
def assign {α : Type} (ptr : Option α) (set : α → α) : Except Panic (Option α) :=
  match ptr with
  | none => .error .nilDereference
  | some v => .ok (some (set v))

/-- One of the two scans of `GetBounds` (geo.go 44-49 and 53-59): starting from
`min = MaxFloat64`, `max = -MaxFloat64`, fold `math.Min` and `math.Max` of the coordinate
`f` over the points. -/
def boundsScan (f : Point K → K) (pts : List (Point K)) : K × K :=
  pts.foldl (fun s v => (min s.1 (f v), max s.2 (f v))) (MaxFloat64, -MaxFloat64)

/-- Method `Polyline.GetBounds` (geo.go 42-63).  The named result `rt *Rect` starts as `nil`
and is never assigned, so the first store through it panics. -/
def Polyline.GetBounds (this : Polyline K) : Except Panic (Option (Rect K)) := do
  let rt : Option (Rect K) := none
  let (min, max) := boundsScan Point.Lat this.Points
  let rt ← assign rt (fun r => { r with SouthWest := { r.SouthWest with Lat := min } })
  let rt ← assign rt (fun r => { r with NorthEast := { r.NorthEast with Lat := max } })
  let (min, max) := boundsScan Point.Lng this.Points
  let rt ← assign rt (fun r => { r with SouthWest := { r.SouthWest with Lng := min } })
  let rt ← assign rt (fun r => { r with NorthEast := { r.NorthEast with Lng := max } })
  return rt

/-- Function `DegreeToRad` (geo.go 92-94). -/
def DegreeToRad (m : MathPkg K) (degree : K) : K := m.Pi * degree / 180

/-- Function `RadToDegree` (geo.go 101-103). -/
def RadToDegree (m : MathPkg K) (rad : K) : K := (180 * rad) / m.Pi

/-- Function `getRange` (geo.go 108-112). -/
def getRange (v a b : K) : K :=
  let v := max v a
  let v := min v b
  v

/-- First loop of `getLoop`: `for v > b { v -= b - a }`. -/
def getLoop.down (a b : K) : Nat → K → Option K
  | 0, _ => none
  | fuel + 1, v => if v > b then getLoop.down a b fuel (v - (b - a)) else some v

/-- Second loop of `getLoop`: `for v < a { v += b - a }`. -/
def getLoop.up (a b : K) : Nat → K → Option K
  | 0, _ => none
  | fuel + 1, v => if v < a then getLoop.up a b fuel (v + (b - a)) else some v

/-- Function `getLoop` (geo.go 117-125); each loop gets `fuel` iterations. -/
def getLoop (fuel : Nat) (v a b : K) : Option K := do
  let v ← getLoop.down a b fuel v
  let v ← getLoop.up a b fuel v
  return v

/-- Function `GetDistance` (geo.go 71-85).  The two points are corrected in place; the result
is the distance together with the two points as they are left. -/
def GetDistance (m : MathPkg K) (fuel : Nat) (point1 point2 : Point K) :
    Option (K × Point K × Point K) := do
  let point1 := { point1 with Lng := ← getLoop fuel point1.Lng (-180) 180 }
  let point1 := { point1 with Lat := getRange point1.Lat (-74) 74 }
  let point2 := { point2 with Lng := ← getLoop fuel point2.Lng (-180) 180 }
  let point2 := { point2 with Lat := getRange point2.Lat (-74) 74 }
  let x1 := DegreeToRad m point1.Lng
  let y1 := DegreeToRad m point1.Lat
  let x2 := DegreeToRad m point2.Lng
  let y2 := DegreeToRad m point2.Lat
  return (EARTHRADIUS * m.Acos (m.Sin y1 * m.Sin y2 + m.Cos y1 * m.Cos y2 * m.Cos (x2 - x1)),
    point1, point2)

/-- Function `IsPointInRect` (geo.go 133-137), on a rectangle that is not `nil`. -/
def IsPointInRect (point : Point K) (rt : Rect K) : Bool :=
  let sw := rt.SouthWest
  let ne := rt.NorthEast
  decide (point.Lng ≥ sw.Lng ∧ point.Lng ≤ ne.Lng ∧ point.Lat ≥ sw.Lat ∧ point.Lat ≤ ne.Lat)

/-- Indexing `pts[i]`: panics when `i` is out of range. -/
def index (pts : List (Point K)) (i : Nat) : Except Panic (Point K) :=
  match pts[i]? with
  | none => .error .indexOutOfRange
  | some v => .ok v

/-- Loop of `IsPointOnPolyline` (geo.go 168-181) over the consecutive pairs, from the pair
that starts the list.  `len(pts)-1` iterations; none when the list has fewer than 2 points. -/
def IsPointOnPolyline.loop (point : Point K) : List (Point K) → Bool
  | curPt :: nextPt :: rest =>
    if point.Lng ≥ min curPt.Lng nextPt.Lng ∧ point.Lng ≤ max curPt.Lng nextPt.Lng ∧
        point.Lat ≥ min curPt.Lat nextPt.Lat ∧ point.Lat ≤ max curPt.Lat nextPt.Lat then
      let precision := (curPt.Lng - point.Lng) * (nextPt.Lat - point.Lat) -
        (nextPt.Lng - point.Lng) * (curPt.Lat - point.Lat)
      if precision < F_ZERO ∧ precision > -F_ZERO then true
      else IsPointOnPolyline.loop point (nextPt :: rest)
    else IsPointOnPolyline.loop point (nextPt :: rest)
  | _ => false

/-- Function `IsPointOnPolyline` (geo.go 161-183). -/
def IsPointOnPolyline (point : Point K) (polyline : Polyline K) : Except Panic Bool := do
  let lineBounds ← polyline.GetBounds
  if IsPointInRect point (← deref lineBounds) == false then
    return false
  return IsPointOnPolyline.loop point polyline.Points

/-- Loop of `IsPointInPolygon` (geo.go 211-256).  `k` is the number of iterations left
(`N + 1 - i`), `p1` the left vertex and `cnt` the value of `intersectCount` on entry; the
result is `some b` when the loop returns `b` and `none` with the final count otherwise. -/
def IsPointInPolygon.loop (p : Point K) (pts : List (Point K)) (N : Nat) :
    Nat → Nat → Point K → Nat → Except Panic (Option Bool × Nat)
  | 0, _, _, cnt => .ok (none, cnt)
  | k + 1, i, p1, cnt => do
    if p.Equals p1 then
      return (some true, cnt)
    let p2 ← index pts (i % N)
    if p.Lat < min p1.Lat p2.Lat ∨ p.Lat > max p1.Lat p2.Lat then
      IsPointInPolygon.loop p pts N k (i + 1) p2 cnt
    else if p.Lat > min p1.Lat p2.Lat ∧ p.Lat < max p1.Lat p2.Lat then
      if p.Lng ≤ max p1.Lng p2.Lng then
        if p1.Lat = p2.Lat ∧ p.Lng ≥ min p1.Lng p2.Lng then
          return (some true, cnt)
        else if p1.Lng = p2.Lng then
          if p1.Lng = p.Lng then
            return (some true, cnt)
          else
            IsPointInPolygon.loop p pts N k (i + 1) p2 (cnt + 1)
        else
          let xinters := (p.Lat - p1.Lat) * (p2.Lng - p1.Lng) / (p2.Lat - p1.Lat) + p1.Lng
          if |p.Lng - xinters| < F_ZERO then
            return (some true, cnt)
          else if p.Lng < xinters then
            IsPointInPolygon.loop p pts N k (i + 1) p2 (cnt + 1)
          else
            IsPointInPolygon.loop p pts N k (i + 1) p2 cnt
      else
        IsPointInPolygon.loop p pts N k (i + 1) p2 cnt
    else
      if p.Lat = p2.Lat ∧ p.Lng ≤ p2.Lng then
        let p3 ← index pts ((i + 1) % N)
        if p.Lat ≥ min p1.Lat p3.Lat ∧ p.Lat ≤ max p1.Lat p3.Lat then
          IsPointInPolygon.loop p pts N k (i + 1) p2 (cnt + 1)
        else
          IsPointInPolygon.loop p pts N k (i + 1) p2 (cnt + 2)
      else
        IsPointInPolygon.loop p pts N k (i + 1) p2 cnt

/-- Part of `IsPointInPolygon` after the bounding-box test (geo.go 198-264). -/
def IsPointInPolygon.rayCast (p : Point K) (pts : List (Point K)) : Except Panic Bool := do
  let N := pts.length
  let p1 ← index pts 0
  let (ret, intersectCount) ← IsPointInPolygon.loop p pts N N 1 p1 0
  match ret with
  | some b => return b
  | none => if intersectCount % 2 = 0 then return false else return true

/-- Function `IsPointInPolygon` (geo.go 191-265). -/
def IsPointInPolygon (point : Point K) (polygon : Polyline K) : Except Panic Bool := do
  let lineBounds ← polygon.GetBounds
  if IsPointInRect point (← deref lineBounds) == false then
    return false
  IsPointInPolygon.rayCast point polygon.Points

/-- Function `GetDistance` (geo.go 71-85) on two pointers into the heap, statement by
statement; the two pointers may be equal.  The result is the distance and the heap as it is
left. -/
def GetDistance.onHeap (m : MathPkg K) (fuel : Nat) (h : Heap K) (point1 point2 : Nat) :
    Option (K × Heap K) := do
  let h := Function.update h point1
    { h point1 with Lng := ← getLoop fuel (h point1).Lng (-180) 180 }
  let h := Function.update h point1 { h point1 with Lat := getRange (h point1).Lat (-74) 74 }
  let h := Function.update h point2
    { h point2 with Lng := ← getLoop fuel (h point2).Lng (-180) 180 }
  let h := Function.update h point2 { h point2 with Lat := getRange (h point2).Lat (-74) 74 }
  let x1 := DegreeToRad m (h point1).Lng
  let y1 := DegreeToRad m (h point1).Lat
  let x2 := DegreeToRad m (h point2).Lng
  let y2 := DegreeToRad m (h point2).Lat
  return (EARTHRADIUS * m.Acos (m.Sin y1 * m.Sin y2 + m.Cos y1 * m.Cos y2 * m.Cos (x2 - x1)), h)

/-- Function `IsPointInCircle` (geo.go 145-153).  `c` is a copy of the centre, so the call of
`GetDistance` corrects `point` and the copy; the result is the answer and `point` as it is
left. -/
def IsPointInCircle (m : MathPkg K) (fuel : Nat) (point : Point K) (circle : Circle K) :
    Option (Bool × Point K) := do
  let c := circle.Center
  let r := circle.Radius
  let (dis, point, _) ← GetDistance m fuel point c
  if dis ≤ r then
    return (true, point)
  return (false, point)

/-- Loop of `GetPolylineDistance` (geo.go 282-287) over the consecutive pairs of pointers,
from the pair that starts the list, with the heap and `totalDis` on entry. -/
def GetPolylineDistance.loop (m : MathPkg K) (fuel : Nat) :
    List Nat → Heap K → K → Option (K × Heap K)
  | curPt :: nextPt :: rest, h, totalDis => do
    let (dis, h) ← GetDistance.onHeap m fuel h curPt nextPt
    GetPolylineDistance.loop m fuel (nextPt :: rest) h (totalDis + dis)
  | _, h, totalDis => some (totalDis, h)

/-- Function `GetPolylineDistance` (geo.go 272-290) on the list of pointers of a polyline. -/
def GetPolylineDistance (m : MathPkg K) (fuel : Nat) (h : Heap K) (pts : List Nat) :
    Option (K × Heap K) :=
  if pts.length < 2 then some (0, h)
  else GetPolylineDistance.loop m fuel pts h 0

/-- Lines 373-392 of `GetPolygonArea` on the Cartesian coordinates of the three points:
the angle `AngleCos` (after `math.Acos`) and `OrientationValue`; `none` when a divisor is
zero.  The last divisor `CM` is zero only if `AM`, `BM` and `CM` all are, which no sine and
cosine with `sin² + cos² = 1` produce. -/
def GetPolygonArea.tangent (m : MathPkg K) (AL BL CL AM BM CM AH BH CH : K) : Option (K × K) :=
  if AM * AL + BM * BL + CM * CL = 0 ∨ AM * AH + BM * BH + CM * CH = 0 then none
  else
    let CoefficientL := (AM * AM + BM * BM + CM * CM) / (AM * AL + BM * BL + CM * CL)
    let CoefficientH := (AM * AM + BM * BM + CM * CM) / (AM * AH + BM * BH + CM * CH)
    let ALtangent := CoefficientL * AL - AM
    let BLtangent := CoefficientL * BL - BM
    let CLtangent := CoefficientL * CL - CM
    let AHtangent := CoefficientH * AH - AM
    let BHtangent := CoefficientH * BH - BM
    let CHtangent := CoefficientH * CH - CM
    if m.Sqrt (AHtangent * AHtangent + BHtangent * BHtangent + CHtangent * CHtangent) *
        m.Sqrt (ALtangent * ALtangent + BLtangent * BLtangent + CLtangent * CLtangent) = 0 then
      none
    else
      let AngleCos := (AHtangent * ALtangent + BHtangent * BLtangent + CHtangent * CLtangent) /
        (m.Sqrt (AHtangent * AHtangent + BHtangent * BHtangent + CHtangent * CHtangent) *
          m.Sqrt (ALtangent * ALtangent + BLtangent * BLtangent + CLtangent * CLtangent))
      let AngleCos := m.Acos AngleCos
      let ANormalLine := BHtangent * CLtangent - CHtangent * BLtangent
      let BNormalLine := 0 - (AHtangent * CLtangent - CHtangent * ALtangent)
      let CNormalLine := AHtangent * BLtangent - BHtangent * ALtangent
      if AM ≠ 0 then some (AngleCos, ANormalLine / AM)
      else if BM ≠ 0 then some (AngleCos, BNormalLine / BM)
      else if CM ≠ 0 then some (AngleCos, CNormalLine / CM)
      else none

/-- Lines 364-392 of `GetPolygonArea` for the vertex `Middle` with neighbours `Low` and
`High`. -/
def GetPolygonArea.vertex (m : MathPkg K) (Low Middle High : Point K) : Option (K × K) :=
  let LowX := Low.Lng * m.Pi / 180
  let LowY := Low.Lat * m.Pi / 180
  let MiddleX := Middle.Lng * m.Pi / 180
  let MiddleY := Middle.Lat * m.Pi / 180
  let HighX := High.Lng * m.Pi / 180
  let HighY := High.Lat * m.Pi / 180
  let AM := m.Cos MiddleY * m.Cos MiddleX
  let BM := m.Cos MiddleY * m.Sin MiddleX
  let CM := m.Sin MiddleY
  let AL := m.Cos LowY * m.Cos LowX
  let BL := m.Cos LowY * m.Sin LowX
  let CL := m.Sin LowY
  let AH := m.Cos HighY * m.Cos HighX
  let BH := m.Cos HighY * m.Sin HighX
  let CH := m.Sin HighY
  GetPolygonArea.tangent m AL BL CL AM BM CM AH BH CH

/-- Lines 393-399 of `GetPolygonArea`: add the angle of one vertex to `Sum1`/`Count1` or to
`Sum2`/`Count2`.  The state is `(Sum1, Count1, Sum2, Count2)`; it is `none` once a NaN has
entered a sum. -/
def GetPolygonArea.accumulate (s : Option (K × K × K × K)) (v : Option (K × K)) :
    Option (K × K × K × K) :=
  match s, v with
  | some (Sum1, Count1, Sum2, Count2), some (AngleCos, OrientationValue) =>
    if OrientationValue > 0 then some (Sum1 + AngleCos, Count1 + 1, Sum2, Count2)
    else some (Sum1, Count1, Sum2 + AngleCos, Count2 + 1)
  | _, _ => none

/-- Loop of `GetPolygonArea` (geo.go 341-400).  `k` is the number of iterations left
(`Count - i`) and `s` the sums on entry. -/
def GetPolygonArea.loop (m : MathPkg K) (pts : List (Point K)) (Count : Nat) :
    Nat → Nat → Option (K × K × K × K) → Except Panic (Option (K × K × K × K))
  | 0, _, s => .ok s
  | k + 1, i, s => do
    let (Low, Middle, High) ←
      if i = 0 then do
        pure (← index pts (Count - 1), ← index pts 0, ← index pts 1)
      else if i = Count - 1 then do
        pure (← index pts (Count - 2), ← index pts (Count - 1), ← index pts 0)
      else do
        pure (← index pts (i - 1), ← index pts i, ← index pts (i + 1))
    GetPolygonArea.loop m pts Count k (i + 1)
      (GetPolygonArea.accumulate s (GetPolygonArea.vertex m Low Middle High))

/-- Lines 401-417 of `GetPolygonArea`: the choice between the two candidate sums and the
area made of it. -/
def GetPolygonArea.select (m : MathPkg K) (Count : Nat) (s : K × K × K × K) : K :=
  let (Sum1, Count1, Sum2, Count2) := s
  let Radius : K := EARTHRADIUS
  let tempSum1 := Sum1 + (2 * m.Pi * Count2 - Sum2)
  let tempSum2 := (2 * m.Pi * Count1 - Sum1) + Sum2
  let Sum :=
    if Sum1 > Sum2 then
      if tempSum1 - ((Count - 2 : Nat) : K) * m.Pi < 1 then tempSum1 else tempSum2
    else
      if tempSum2 - ((Count - 2 : Nat) : K) * m.Pi < 1 then tempSum2 else tempSum1
  (Sum - ((Count - 2 : Nat) : K) * m.Pi) * Radius * Radius

/-- Function `GetPolygonArea` (geo.go 298-420).  The result is `none` when it is NaN. -/
def GetPolygonArea (m : MathPkg K) (polygon : Polyline K) : Except Panic (Option K) := do
  let pts := polygon.Points
  if pts.length < 3 then
    return some 0
  let Count := pts.length
  let sums ← GetPolygonArea.loop m pts Count Count 0 (some (0, 0, 0, 0))
  return sums.map (GetPolygonArea.select m Count)

/-- Modelled from the spec: "sum of `distance(points[i], points[i+1])` over consecutive
pairs", every distance taken with `GetDistance` on the two points as they are stored in the
heap `h`, which is read and never changed. -/
def polylineLengthSpec (m : MathPkg K) (fuel : Nat) (h : Heap K) : List Nat → Option K
  | curPt :: nextPt :: rest => do
    let (dis, _, _) ← GetDistance m fuel (h curPt) (h nextPt)
    let restDis ← polylineLengthSpec m fuel h (nextPt :: rest)
    return dis + restDis
  | _ => some 0

/-- Line 83 of `GetDistance` on the two points as corrected. -/
def GetDistance.formula (m : MathPkg K) (point1 point2 : Point K) : K :=
  EARTHRADIUS * m.Acos
    (m.Sin (DegreeToRad m point1.Lat) * m.Sin (DegreeToRad m point2.Lat) +
      m.Cos (DegreeToRad m point1.Lat) * m.Cos (DegreeToRad m point2.Lat) *
        m.Cos (DegreeToRad m point2.Lng - DegreeToRad m point1.Lng))

/-- The value that `getLoop v (-180) 180` returns from some amount of fuel on. -/
def Wraps (v w : K) : Prop :=
  ∃ N : Nat, ∀ fuel, N ≤ fuel → getLoop fuel v (-180) 180 = some w

/-- Two heaps whose points have, address by address, the same wrapped longitude and the same
clamped latitude. -/
def SameNormal (h0 h : Heap K) : Prop :=
  ∀ a : Nat, (∀ w, Wraps (h0 a).Lng w → Wraps (h a).Lng w) ∧
    getRange (h a).Lat (-74) 74 = getRange (h0 a).Lat (-74) 74

/-- The triples `(Low, Middle, High)` that the loop of `GetPolygonArea` visits, in the order
of the loop: every vertex with the vertex before it and the vertex after it on the ring. -/
def GetPolygonArea.triples (pts : List (Point K)) : List (Point K × Point K × Point K) :=
  List.zipWith (fun Low (MH : Point K × Point K) => (Low, MH.1, MH.2))
    (pts.rotate (pts.length - 1)) (List.zip pts (pts.rotate 1))

/-- The sums `(Sum1, Count1, Sum2, Count2)` of `GetPolygonArea` after the loop over all
vertices. -/
def GetPolygonArea.sums (m : MathPkg K) (pts : List (Point K)) : Option (K × K × K × K) :=
  ((GetPolygonArea.triples pts).map
    (fun t => GetPolygonArea.vertex m t.1 t.2.1 t.2.2)).foldl GetPolygonArea.accumulate
      (some (0, 0, 0, 0))

/-- Lines 364-372 of `GetPolygonArea`: the Cartesian coordinates `(A, B, C)` on the unit
sphere of a point given by longitude and latitude in degrees. -/
def cartesian (m : MathPkg K) (p : Point K) : K × K × K :=
  (m.Cos (p.Lat * m.Pi / 180) * m.Cos (p.Lng * m.Pi / 180),
    m.Cos (p.Lat * m.Pi / 180) * m.Sin (p.Lng * m.Pi / 180),
    m.Sin (p.Lat * m.Pi / 180))

/-- Inner product of two vectors. -/
def dot3 (u v : K × K × K) : K := u.1 * v.1 + u.2.1 * v.2.1 + u.2.2 * v.2.2

/-- Determinant of three vectors, `u · (v × w)`. -/
def det3 (u v w : K × K × K) : K :=
  u.1 * (v.2.1 * w.2.2 - v.2.2 * w.2.1) + u.2.1 * (v.2.2 * w.1 - v.1 * w.2.2) +
    u.2.2 * (v.1 * w.2.1 - v.2.1 * w.1)

/-- Modelled from the spec: the interior angle of a spherical triangle at the vertex `M`,
"the angle between the great-circle arcs meeting at" `M`, is the angle between the tangent
vectors at `M` of the arcs towards `L` and towards `H`, which are `L - (M · L) M` and
`H - (M · H) M` for unit vectors. -/
def sphericalAngle (m : MathPkg K) (M L H : K × K × K) : K :=
  let tL : K × K × K :=
    (L.1 - dot3 M L * M.1, L.2.1 - dot3 M L * M.2.1, L.2.2 - dot3 M L * M.2.2)
  let tH : K × K × K :=
    (H.1 - dot3 M H * M.1, H.2.1 - dot3 M H * M.2.1, H.2.2 - dot3 M H * M.2.2)
  m.Acos (dot3 tL tH / (m.Sqrt (dot3 tL tL) * m.Sqrt (dot3 tH tH)))

/-- Modelled from the spec: the spherical excess `a + b + c - π` of the triangle with the
vertices `u`, `v`, `w`, the sum of its three interior angles less `π`. -/
def sphericalExcess (m : MathPkg K) (u v w : K × K × K) : K :=
  sphericalAngle m u v w + sphericalAngle m v w u + sphericalAngle m w u v - m.Pi

end Code

/-! ## Inputs of the repository's tests (geo_test.go) -/

/-- Polyline of `TestGetBounds`. -/
def testPoints : Polyline ℚ :=
  ⟨[⟨22.4, 22.3⟩, ⟨42.4, 22⟩, ⟨32.4, 12.3⟩, ⟨82.4, 22.3⟩]⟩

/-- Triangle of `TestIsPointOnPolyline`. -/
def testTriangle : Polyline ℚ :=
  ⟨[⟨116.300306, 40.059295⟩, ⟨116.310906, 40.059019⟩, ⟨116.303073, 40.054242⟩]⟩

/-- Point `outpt` of `TestIsPointOnPolyline`, north of the triangle. -/
def outpt : Point ℚ := ⟨116.303154, 40.061028⟩

/-- Point `onpt` of `TestIsPointOnPolyline`, inside the triangle. -/
def onpt : Point ℚ := ⟨116.306316, 40.059137⟩

/-- A polyline of one segment, from `(0, 0)` to `(2, 2)`. -/
def diagonal : Polyline ℚ := ⟨[⟨0, 0⟩, ⟨2, 2⟩]⟩

/-- A quadrilateral with the horizontal edge from `(0, 1)` to `(1, 1)` (longitude first). -/
def quadrilateral : Polyline ℚ := ⟨[⟨0, 0⟩, ⟨0, 1⟩, ⟨1, 1⟩, ⟨3, 2⟩]⟩

/-! ## Comparing results -/

/-- Two results of a call that may panic can be compared. -/
instance Except.decEq {ε α : Type} [DecidableEq ε] [DecidableEq α] : DecidableEq (Except ε α)
  | .ok a, .ok b => if h : a = b then isTrue (congrArg Except.ok h)
    else isFalse (fun h2 => h (Except.ok.inj h2))
  | .error a, .error b => if h : a = b then isTrue (congrArg Except.error h)
    else isFalse (fun h2 => h (Except.error.inj h2))
  | .ok _, .error _ => isFalse (fun h => Except.noConfusion h)
  | .error _, .ok _ => isFalse (fun h => Except.noConfusion h)

/-! ## Binary64 arithmetic -/

/-- A binary64 value (IEEE 754 double, Go's `float64`).  A finite value is a sign and a
magnitude counted in units of `2^-1074`, the smallest positive binary64 number: `fin neg mag`
is `± mag * 2^-1074`, with `fin true 0` the negative zero.  All NaNs are one value. -/
inductive F64 where
  | fin (neg : Bool) (mag : Nat)
  | inf (neg : Bool)
  | nan
  deriving DecidableEq, Repr

namespace F64

/-- The quotient `a / b` rounded to the nearest integer, a tie to the even one. -/
def roundHalfEven (a b : Nat) : Nat :=
  if 2 * (a % b) < b then a / b
  else if b < 2 * (a % b) then a / b + 1
  else if (a / b) % 2 = 0 then a / b else a / b + 1

/-- Binary search for the position of the leading bit. -/
def ilog2.go (n : Nat) : Nat → Nat → Nat → Nat
  | 0, lo, _ => lo
  | f + 1, lo, st =>
    if 2 ^ (lo + st) ≤ n then ilog2.go n f (lo + st) (st / 2) else ilog2.go n f lo (st / 2)

/-- Position of the leading bit of `n` (the integer part of its binary logarithm), for
`1 ≤ n < 2 ^ 4096`. -/
def ilog2 (n : Nat) : Nat := ilog2.go n 13 0 2048

/-- The magnitude `p / q`, in units of `2^-1074`, rounded to the nearest magnitude with 53
significant bits (to a multiple of the unit below `2^53` units, the subnormal numbers), a tie
to the even one. -/
def grid (p q : Nat) : Nat :=
  if p / q < 2 ^ 53 then roundHalfEven p q
  else roundHalfEven p (q * 2 ^ (ilog2 (p / q) - 52)) * 2 ^ (ilog2 (p / q) - 52)

/-- Rounding of the exact value `± p / q` (in units of `2^-1074`) to binary64: round to
nearest, ties to even; a magnitude of `2^1024` or more after rounding is an infinity. -/
def round (neg : Bool) (p q : Nat) : F64 :=
  if grid p q < 2 ^ 2098 then fin neg (grid p q) else inf neg

/-- Unary minus. -/
def neg : F64 → F64
  | fin s m => fin (!s) m
  | inf s => inf (!s)
  | nan => nan

/-- Addition `x + y`. -/
def add : F64 → F64 → F64
  | nan, _ => nan
  | _, nan => nan
  | inf s, inf t => if s = t then inf s else nan
  | inf s, fin _ _ => inf s
  | fin _ _, inf t => inf t
  | fin s m, fin t n =>
    if s = t then round s (m + n) 1
    else if m = n then fin false 0
    else if n < m then round s (m - n) 1
    else round t (n - m) 1

/-- Subtraction `x - y`. -/
def sub (x y : F64) : F64 := add x (neg y)

/-- Multiplication `x * y`. -/
def mul : F64 → F64 → F64
  | nan, _ => nan
  | _, nan => nan
  | inf s, inf t => inf (xor s t)
  | inf s, fin t n => if n = 0 then nan else inf (xor s t)
  | fin s m, inf t => if m = 0 then nan else inf (xor s t)
  | fin s m, fin t n => round (xor s t) (m * n) (2 ^ 1074)

/-- Division `x / y`. -/
def div : F64 → F64 → F64
  | nan, _ => nan
  | _, nan => nan
  | inf _, inf _ => nan
  | inf s, fin t _ => inf (xor s t)
  | fin s _, inf t => fin (xor s t) 0
  | fin s m, fin t n =>
    if n = 0 then (if m = 0 then nan else inf (xor s t))
    else round (xor s t) (m * 2 ^ 1074) n

/-- Comparison `x < y`; false when an operand is NaN; the two zeros are equal. -/
def lt : F64 → F64 → Bool
  | nan, _ => false
  | _, nan => false
  | inf s, inf t => s && !t
  | inf s, fin _ _ => s
  | fin _ _, inf t => !t
  | fin s m, fin t n =>
    if s then (if t then decide (n < m) else !(m = 0 && n = 0))
    else (if t then false else decide (m < n))

/-- Comparison `x == y`; false when an operand is NaN; the two zeros are equal. -/
def eq : F64 → F64 → Bool
  | nan, _ => false
  | _, nan => false
  | inf s, inf t => s == t
  | inf _, fin _ _ => false
  | fin _ _, inf _ => false
  | fin s m, fin t n => (m == n) && ((s == t) || (m == 0))

/-- Comparison `x <= y`. -/
def le (x y : F64) : Bool := lt x y || eq x y

/-- Comparison `x > y`. -/
def gt (x y : F64) : Bool := lt y x

/-- The binary64 value of the fraction `± p / q`: what the Go compiler makes of a decimal
constant of the source. -/
def ofFrac (neg : Bool) (p q : Nat) : F64 := round neg (p * 2 ^ 1074) q

/-- The conversion `float64(n)` of a non-negative integer. -/
def ofNat (n : Nat) : F64 := round false (n * 2 ^ 1074) 1

/-- The conversion `uint64(x)` of a finite value `0 ≤ x < 2^64`: the integer part. -/
def toUint64 : F64 → Nat
  | fin false m => m / 2 ^ 1074
  | _ => 0

/-- Newton iteration for the integer square root, from a start above the root. -/
def isqrt.go (n : Nat) : Nat → Nat → Nat
  | 0, x => x
  | f + 1, x => if (x + n / x) / 2 < x then isqrt.go n f ((x + n / x) / 2) else x

/-- Integer part of the square root of `n`, for `n < 2 ^ 4096`. -/
def isqrt (n : Nat) : Nat :=
  if n = 0 then 0 else isqrt.go n 64 (2 ^ (ilog2 n / 2 + 1))

/-- Choice between the multiple `q * 2^s` and the next one, for the square root of `M`: the
one nearer to the exact root, by comparing `M` with the square of the midpoint. -/
def sqrtMag.pick (M q s : Nat) : Nat :=
  if M * 4 < ((2 * q + 1) * 2 ^ s) ^ 2 then q * 2 ^ s
  else if ((2 * q + 1) * 2 ^ s) ^ 2 < M * 4 then (q + 1) * 2 ^ s
  else if q % 2 = 0 then q * 2 ^ s else (q + 1) * 2 ^ s

/-- The square root of `m` units, in units, rounded to nearest even: with `r` the integer
square root of `m * 2^1074` and `s` the number of bits of `r` beyond 53, the result is the
multiple of `2^s` below or above the exact root, whichever is nearer. -/
def sqrtMag (m : Nat) : Nat :=
  if m = 0 then 0
  else
    let r := isqrt (m * 2 ^ 1074)
    let s := ilog2 r - 52
    sqrtMag.pick (m * 2 ^ 1074) (r / 2 ^ s) s

/-- Square root (Go's `math.Sqrt`, the correctly rounded hardware instruction). -/
def sqrt : F64 → F64
  | nan => nan
  | inf s => if s then nan else inf false
  | fin s m => if m = 0 then fin s 0 else if s then nan else fin false (sqrtMag m)

end F64

/-! ## The functions of Go's package `math` that geo.go calls

Go's standard library is not part of the repository.  The definitions below follow its
portable implementation (math/sin.go, math/asin.go, math/atan.go, math/dim.go, math/abs.go),
the one used on amd64, where the compiler does not fuse a multiplication with an addition.
The argument reduction `trigReduce` for arguments of `2^29` or more is not modelled: `Sin` and
`Cos` return `none` there. -/

namespace GoMath

open F64

/-- Constant `math.Pi`. -/
def Pi : F64 :=
  ofFrac false 314159265358979323846264338327950288419716939937510582097494459 (10 ^ 62)

/-- Function `math.Abs`. -/
def Abs : F64 → F64
  | fin _ m => fin false m
  | inf _ => inf false
  | nan => nan

/-- Function `math.Max`. -/
def Max (x y : F64) : F64 :=
  if x = inf false ∨ y = inf false then inf false
  else if x = nan ∨ y = nan then nan
  else if F64.eq x (fin false 0) && F64.eq x y then
    (match x with
      | fin true _ => y
      | _ => x)
  else if F64.gt x y then x else y

/-- Function `math.Min`. -/
def Min (x y : F64) : F64 :=
  if x = inf true ∨ y = inf true then inf true
  else if x = nan ∨ y = nan then nan
  else if F64.eq x (fin false 0) && F64.eq x y then
    (match x with
      | fin true _ => x
      | _ => y)
  else if F64.lt x y then x else y

/-- The polynomial of `math.Sin` on the reduced argument `z` (coefficients `_sin`). -/
def sinPoly (z zz : F64) : F64 :=
  add z (mul (mul z zz)
    (add (mul (add (mul (add (mul (add (mul (add (mul
      (ofFrac false 158962301576546568060 (10 ^ 30)) zz)
      (ofFrac true 250507477628578072866 (10 ^ 28))) zz)
      (ofFrac false 275573136213857245213 (10 ^ 26))) zz)
      (ofFrac true 198412698295895385996 (10 ^ 24))) zz)
      (ofFrac false 833333333332211858878 (10 ^ 23))) zz)
      (ofFrac true 166666666666666307295 (10 ^ 21))))

/-- The polynomial of `math.Cos` on the reduced argument (coefficients `_cos`). -/
def cosPoly (zz : F64) : F64 :=
  add (sub (ofNat 1) (mul (ofFrac false 1 2) zz)) (mul (mul zz zz)
    (add (mul (add (mul (add (mul (add (mul (add (mul
      (ofFrac true 113585365213876817300 (10 ^ 31)) zz)
      (ofFrac false 208757008419747316778 (10 ^ 29))) zz)
      (ofFrac true 275573141792967388112 (10 ^ 27))) zz)
      (ofFrac false 248015872888517045348 (10 ^ 25))) zz)
      (ofFrac true 138888888888730564116 (10 ^ 23))) zz)
      (ofFrac false 416666666666665929218 (10 ^ 22))))

/-- Argument reduction of `math.Sin` and `math.Cos` below `reduceThreshold`: the octant
`j = uint64(x * (4 / Pi))`, made even, and `z = ((x - y*PI4A) - y*PI4B) - y*PI4C` with
`y = float64(j)`. -/
def reduce (x : F64) : Nat × F64 :=
  let j := toUint64 (mul x
    (ofFrac false (4 * 10 ^ 62) 314159265358979323846264338327950288419716939937510582097494459))
  let j := if j % 2 = 1 then j + 1 else j
  let y := ofNat j
  (j % 8,
    sub (sub (sub x (mul y (ofFrac false 785398125648498535156 (10 ^ 21))))
      (mul y (ofFrac false 377489470793079817668 (10 ^ 28))))
      (mul y (ofFrac false 269515142907905952645 (10 ^ 35))))

/-- Function `math.Sin`. -/
def Sin (x : F64) : Option F64 :=
  match x with
  | nan => some nan
  | inf _ => some nan
  | fin s m =>
    if m = 0 then some x
    else if F64.le (ofNat (2 ^ 29)) (fin false m) then none
    else
      let jz := reduce (fin false m)
      let sign := if jz.1 > 3 then !s else s
      let j := if jz.1 > 3 then jz.1 - 4 else jz.1
      let zz := mul jz.2 jz.2
      let y := if j = 1 ∨ j = 2 then cosPoly zz else sinPoly jz.2 zz
      some (if sign then neg y else y)

/-- Function `math.Cos`. -/
def Cos (x : F64) : Option F64 :=
  match x with
  | nan => some nan
  | inf _ => some nan
  | fin _ m =>
    if F64.le (ofNat (2 ^ 29)) (fin false m) then none
    else
      let jz := reduce (fin false m)
      let sign := if jz.1 > 3 then true else false
      let j := if jz.1 > 3 then jz.1 - 4 else jz.1
      let sign := if j > 1 then !sign else sign
      let zz := mul jz.2 jz.2
      let y := if j = 1 ∨ j = 2 then sinPoly jz.2 zz else cosPoly zz
      some (if sign then neg y else y)

/-- Function `xatan` of math/atan.go: a rational approximation on `[0, 0.66]`. -/
def xatan (x : F64) : F64 :=
  let z := mul x x
  let z := div
    (mul z (add (mul (add (mul (add (mul (add (mul
      (ofFrac true 8750608600031904122785 (10 ^ 22)) z)
      (ofFrac true 1615753718733365076637 (10 ^ 20))) z)
      (ofFrac true 7500855792314704667340 (10 ^ 20))) z)
      (ofFrac true 1228866684490136173410 (10 ^ 19))) z)
      (ofFrac true 6485021904942025371773 (10 ^ 20))))
    (add (mul (add (mul (add (mul (add (mul (add z
      (ofFrac false 2485846490142306297962 (10 ^ 20))) z)
      (ofFrac false 1650270098316988542046 (10 ^ 19))) z)
      (ofFrac false 4328810604912902668951 (10 ^ 19))) z)
      (ofFrac false 4853903996359136964868 (10 ^ 19))) z)
      (ofFrac false 1945506571482613964425 (10 ^ 19)))
  add (mul x z) x

/-- Function `satan` of math/atan.go, for a positive argument. -/
def satan (x : F64) : F64 :=
  if F64.le x (ofFrac false 66 100) then xatan x
  else if F64.gt x (ofFrac false 241421356237309504880 (10 ^ 20)) then
    add (sub (ofFrac false 314159265358979323846264338327950288419716939937510582097494459
        (2 * 10 ^ 62)) (xatan (div (ofNat 1) x)))
      (ofFrac false 6123233995736765886130 (10 ^ 38))
  else
    add (add (ofFrac false 314159265358979323846264338327950288419716939937510582097494459
        (4 * 10 ^ 62)) (xatan (div (sub x (ofNat 1)) (add x (ofNat 1)))))
      (ofFrac false 6123233995736765886130 (2 * 10 ^ 38))

/-- Function `math.Asin`. -/
def Asin (x : F64) : F64 :=
  if F64.eq x (fin false 0) then x
  else
    let sign := F64.lt x (fin false 0)
    let x := if sign then neg x else x
    if F64.gt x (ofNat 1) then nan
    else
      let temp := F64.sqrt (sub (ofNat 1) (mul x x))
      let temp :=
        if F64.gt x (ofFrac false 7 10) then
          sub (ofFrac false 314159265358979323846264338327950288419716939937510582097494459
            (2 * 10 ^ 62)) (satan (div temp x))
        else satan (div x temp)
      if sign then neg temp else temp

/-- Function `math.Acos`. -/
def Acos (x : F64) : F64 :=
  sub (ofFrac false 314159265358979323846264338327950288419716939937510582097494459
    (2 * 10 ^ 62)) (Asin x)

end GoMath
/-! ## geo.go on binary64 -/

namespace Binary64

open F64

/-- Constant `EARTHRADIUS = 6370996.81` as a binary64 value. -/
def EARTHRADIUS : F64 := ofFrac false 637099681 100

/-- Function `DegreeToRad` (geo.go 92-94) on binary64. -/
def DegreeToRad (degree : F64) : F64 := div (mul GoMath.Pi degree) (ofNat 180)

/-- Function `getRange` (geo.go 108-112) on binary64. -/
def getRange (v a b : F64) : F64 :=
  let v := GoMath.Max v a
  let v := GoMath.Min v b
  v

/-- First loop of `getLoop` on binary64: `for v > b { v -= b - a }`. -/
def getLoop.down (a b : F64) : Nat → F64 → Option F64
  | 0, _ => none
  | fuel + 1, v => if F64.gt v b then getLoop.down a b fuel (sub v (sub b a)) else some v

/-- Second loop of `getLoop` on binary64: `for v < a { v += b - a }`. -/
def getLoop.up (a b : F64) : Nat → F64 → Option F64
  | 0, _ => none
  | fuel + 1, v => if F64.lt v a then getLoop.up a b fuel (add v (sub b a)) else some v

/-- Function `getLoop` (geo.go 117-125) on binary64; each loop gets `fuel` iterations. -/
def getLoop (fuel : Nat) (v a b : F64) : Option F64 := do
  let v ← getLoop.down a b fuel v
  let v ← getLoop.up a b fuel v
  return v

/-- Function `GetDistance` (geo.go 71-85) on binary64.  The result is the distance together
with the two points as they are left; `none` when a loop of `getLoop` runs out of fuel (or a
sine or cosine is outside the modelled range, which the corrected coordinates never are). -/
def GetDistance (fuel : Nat) (point1 point2 : Point F64) :
    Option (F64 × Point F64 × Point F64) := do
  let point1 := { point1 with Lng := ← getLoop fuel point1.Lng (ofFrac true 180 1) (ofNat 180) }
  let point1 := { point1 with Lat := getRange point1.Lat (ofFrac true 74 1) (ofNat 74) }
  let point2 := { point2 with Lng := ← getLoop fuel point2.Lng (ofFrac true 180 1) (ofNat 180) }
  let point2 := { point2 with Lat := getRange point2.Lat (ofFrac true 74 1) (ofNat 74) }
  let x1 := DegreeToRad point1.Lng
  let y1 := DegreeToRad point1.Lat
  let x2 := DegreeToRad point2.Lng
  let y2 := DegreeToRad point2.Lat
  return (mul EARTHRADIUS (GoMath.Acos (add (mul (← GoMath.Sin y1) (← GoMath.Sin y2))
      (mul (mul (← GoMath.Cos y1) (← GoMath.Cos y2)) (← GoMath.Cos (sub x2 x1))))),
    point1, point2)

/-- Function `IsPointInCircle` (geo.go 145-153) on binary64. -/
def IsPointInCircle (fuel : Nat) (point : Point F64) (circle : Circle F64) :
    Option (Bool × Point F64) := do
  let c := circle.Center
  let r := circle.Radius
  let (dis, point, _) ← GetDistance fuel point c
  if F64.le dis r then
    return (true, point)
  return (false, point)

/-- Lines 373-392 of `GetPolygonArea` on binary64: the angle `AngleCos` (after `math.Acos`)
and `OrientationValue`, from the Cartesian coordinates of the three points. -/
def GetPolygonArea.tangent (AL BL CL AM BM CM AH BH CH : F64) : F64 × F64 :=
  let CoefficientL := div (add (add (mul AM AM) (mul BM BM)) (mul CM CM))
    (add (add (mul AM AL) (mul BM BL)) (mul CM CL))
  let CoefficientH := div (add (add (mul AM AM) (mul BM BM)) (mul CM CM))
    (add (add (mul AM AH) (mul BM BH)) (mul CM CH))
  let ALtangent := sub (mul CoefficientL AL) AM
  let BLtangent := sub (mul CoefficientL BL) BM
  let CLtangent := sub (mul CoefficientL CL) CM
  let AHtangent := sub (mul CoefficientH AH) AM
  let BHtangent := sub (mul CoefficientH BH) BM
  let CHtangent := sub (mul CoefficientH CH) CM
  let AngleCos := div
    (add (add (mul AHtangent ALtangent) (mul BHtangent BLtangent)) (mul CHtangent CLtangent))
    (mul (F64.sqrt (add (add (mul AHtangent AHtangent) (mul BHtangent BHtangent))
        (mul CHtangent CHtangent)))
      (F64.sqrt (add (add (mul ALtangent ALtangent) (mul BLtangent BLtangent))
        (mul CLtangent CLtangent))))
  let AngleCos := GoMath.Acos AngleCos
  let ANormalLine := sub (mul BHtangent CLtangent) (mul CHtangent BLtangent)
  let BNormalLine := sub (ofNat 0) (sub (mul AHtangent CLtangent) (mul CHtangent ALtangent))
  let CNormalLine := sub (mul AHtangent BLtangent) (mul BHtangent ALtangent)
  let OrientationValue :=
    if !F64.eq AM (ofNat 0) then div ANormalLine AM
    else if !F64.eq BM (ofNat 0) then div BNormalLine BM
    else div CNormalLine CM
  (AngleCos, OrientationValue)

/-- Lines 364-372 of `GetPolygonArea` on binary64: the Cartesian coordinates `(A, B, C)` of a
point given by longitude and latitude in degrees. -/
def GetPolygonArea.cartesian (p : Point F64) : Option (F64 × F64 × F64) := do
  let X := div (mul p.Lng GoMath.Pi) (ofNat 180)
  let Y := div (mul p.Lat GoMath.Pi) (ofNat 180)
  let cosY ← GoMath.Cos Y
  let cosX ← GoMath.Cos X
  let sinX ← GoMath.Sin X
  let sinY ← GoMath.Sin Y
  return (mul cosY cosX, mul cosY sinX, sinY)

/-- Lines 364-392 of `GetPolygonArea` on binary64 for the vertex `Middle` with neighbours `Low`
and `High`. -/
def GetPolygonArea.vertex (Low Middle High : Point F64) : Option (F64 × F64) := do
  let M ← GetPolygonArea.cartesian Middle
  let L ← GetPolygonArea.cartesian Low
  let H ← GetPolygonArea.cartesian High
  return GetPolygonArea.tangent L.1 L.2.1 L.2.2 M.1 M.2.1 M.2.2 H.1 H.2.1 H.2.2

/-- Lines 393-399 of `GetPolygonArea` on binary64: the state is
`(Sum1, Count1, Sum2, Count2)`. -/
def GetPolygonArea.accumulate (s : F64 × F64 × F64 × F64) (v : F64 × F64) :
    F64 × F64 × F64 × F64 :=
  if F64.gt v.2 (ofNat 0) then (add s.1 v.1, add s.2.1 (ofNat 1), s.2.2.1, s.2.2.2)
  else (s.1, s.2.1, add s.2.2.1 v.1, add s.2.2.2 (ofNat 1))

/-- Lines 401-417 of `GetPolygonArea` on binary64. -/
def GetPolygonArea.select (Count : Nat) (s : F64 × F64 × F64 × F64) : F64 :=
  let Radius := EARTHRADIUS
  let tempSum1 := add s.1 (sub (mul (mul (ofNat 2) GoMath.Pi) s.2.2.2) s.2.2.1)
  let tempSum2 := add (sub (mul (mul (ofNat 2) GoMath.Pi) s.2.1) s.1) s.2.2.1
  let Sum :=
    if F64.gt s.1 s.2.2.1 then
      if F64.lt (sub tempSum1 (mul (ofNat (Count - 2)) GoMath.Pi)) (ofNat 1) then tempSum1
      else tempSum2
    else
      if F64.lt (sub tempSum2 (mul (ofNat (Count - 2)) GoMath.Pi)) (ofNat 1) then tempSum2
      else tempSum1
  mul (mul (sub Sum (mul (ofNat (Count - 2)) GoMath.Pi)) Radius) Radius

/-- Loop of `GetPolygonArea` (geo.go 341-400) on binary64.  `k` is the number of iterations
left (`Count - i`) and `s` the sums on entry; the result is `none` when a sine or cosine is
outside the modelled range. -/
def GetPolygonArea.loop (pts : List (Point F64)) (Count : Nat) :
    Nat → Nat → F64 × F64 × F64 × F64 → Except Panic (Option (F64 × F64 × F64 × F64))
  | 0, _, s => .ok (some s)
  | k + 1, i, s => do
    let (Low, Middle, High) ←
      if i = 0 then do
        pure (← index pts (Count - 1), ← index pts 0, ← index pts 1)
      else if i = Count - 1 then do
        pure (← index pts (Count - 2), ← index pts (Count - 1), ← index pts 0)
      else do
        pure (← index pts (i - 1), ← index pts i, ← index pts (i + 1))
    match GetPolygonArea.vertex Low Middle High with
    | none => .ok none
    | some v => GetPolygonArea.loop pts Count k (i + 1) (GetPolygonArea.accumulate s v)

/-- Function `GetPolygonArea` (geo.go 298-420) on binary64. -/
def GetPolygonArea (polygon : Polyline F64) : Except Panic (Option F64) := do
  let pts := polygon.Points
  if pts.length < 3 then
    return some (ofNat 0)
  let Count := pts.length
  let sums ← GetPolygonArea.loop pts Count Count 0 (ofNat 0, ofNat 0, ofNat 0, ofNat 0)
  return sums.map (GetPolygonArea.select Count)

end Binary64

/-! ## Values and inputs on binary64 -/

namespace F64

/-- The rational value of a finite binary64 number (`0` for an infinity and for NaN). -/
def toRat : F64 → ℚ
  | fin s m => if s then -((m : ℚ) / 2 ^ 1074) else (m : ℚ) / 2 ^ 1074
  | _ => 0

/-- A finite binary64 number: a magnitude below `2^1024` that rounding leaves unchanged (at
most 53 significant bits, a multiple of `2^-1074`). -/
def isFinite : F64 → Bool
  | fin _ m => decide (grid m 1 = m ∧ m < 2 ^ 2098)
  | _ => false

end F64

namespace Binary64

open F64

/-- The loop of `GetPolygonArea` (geo.go 341-400) on binary64 over a list of triples
`(Low, Middle, High)`, from the sums `s`. -/
def GetPolygonArea.sums :
    List (Point F64 × Point F64 × Point F64) → F64 × F64 × F64 × F64 →
      Option (F64 × F64 × F64 × F64)
  | [], s => some s
  | t :: ts, s =>
    match GetPolygonArea.vertex t.1 t.2.1 t.2.2 with
    | none => none
    | some v => GetPolygonArea.sums ts (GetPolygonArea.accumulate s v)

/-- Polygon of `TestGetPolygonArea` (geo_test.go 177-184), longitude first. -/
def testPolygon : List (Point F64) :=
  [⟨ofFrac false 116395 1000, ofFrac false 39910 1000⟩,
    ⟨ofFrac false 116394 1000, ofFrac false 39918 1000⟩,
    ⟨ofFrac false 116396 1000, ofFrac false 39919 1000⟩,
    ⟨ofFrac false 116404 1000, ofFrac false 39920 1000⟩,
    ⟨ofFrac false 116406 1000, ofFrac false 39913 1000⟩]

/-- A triangle with a vertex on the meridian of 90 degrees: `(60, 0)`, `(90, 0)`, `(90, 30)`
(longitude first). -/
def meridianTriangle : List (Point F64) :=
  [⟨ofNat 60, ofNat 0⟩, ⟨ofNat 90, ofNat 0⟩, ⟨ofNat 90, ofNat 30⟩]

/-- A triangle with legs of about 8.5 m and 11 m at the first vertex of the test polygon:
`(116.395, 39.91)`, `(116.3951, 39.91)`, `(116.395, 39.9101)` (longitude first). -/
def smallTriangle : List (Point F64) :=
  [⟨ofFrac false 116395 1000, ofFrac false 3991 100⟩,
    ⟨ofFrac false 1163951 10000, ofFrac false 3991 100⟩,
    ⟨ofFrac false 116395 1000, ofFrac false 399101 10000⟩]

end Binary64

/-! ## Bounding box -/

section Bounds

variable {K : Type} [LinearOrderedField K]

theorem foldl_bounds_mono (f : Point K → K) (pts : List (Point K)) (s : K × K) :
    (pts.foldl (fun s v => (min s.1 (f v), max s.2 (f v))) s).1 ≤ s.1 ∧
      s.2 ≤ (pts.foldl (fun s v => (min s.1 (f v), max s.2 (f v))) s).2 := by
  induction pts generalizing s with
  | nil => simp
  | cons v rest ih =>
    have h := ih (min s.1 (f v), max s.2 (f v))
    simp only [List.foldl_cons]
    exact ⟨h.1.trans (min_le_left _ _), (le_max_left _ _).trans h.2⟩

theorem foldl_bounds_le (f : Point K → K) (pts : List (Point K)) (s : K × K) (v : Point K)
    (hv : v ∈ pts) :
    (pts.foldl (fun s v => (min s.1 (f v), max s.2 (f v))) s).1 ≤ f v ∧
      f v ≤ (pts.foldl (fun s v => (min s.1 (f v), max s.2 (f v))) s).2 := by
  induction pts generalizing s with
  | nil => simp at hv
  | cons w rest ih =>
    simp only [List.foldl_cons]
    rcases List.mem_cons.mp hv with h | h
    · subst h
      have hm := foldl_bounds_mono f rest (min s.1 (f v), max s.2 (f v))
      exact ⟨hm.1.trans (min_le_right _ _), (le_max_right _ _).trans hm.2⟩
    · exact ih _ h

theorem foldl_bounds_attained (f : Point K → K) (pts : List (Point K)) (s : K × K) :
    ((pts.foldl (fun s v => (min s.1 (f v), max s.2 (f v))) s).1 = s.1 ∨
        ∃ v ∈ pts, (pts.foldl (fun s v => (min s.1 (f v), max s.2 (f v))) s).1 = f v) ∧
      ((pts.foldl (fun s v => (min s.1 (f v), max s.2 (f v))) s).2 = s.2 ∨
        ∃ v ∈ pts, (pts.foldl (fun s v => (min s.1 (f v), max s.2 (f v))) s).2 = f v) := by
  induction pts generalizing s with
  | nil => simp
  | cons w rest ih =>
    simp only [List.foldl_cons]
    obtain ⟨h1, h2⟩ := ih (min s.1 (f w), max s.2 (f w))
    constructor
    · rcases h1 with h | ⟨v, hv, h⟩
      · rcases min_choice s.1 (f w) with hc | hc
        · left; rw [h]; exact hc
        · right; exact ⟨w, List.mem_cons_self _ _, by rw [h]; exact hc⟩
      · right; exact ⟨v, List.mem_cons_of_mem _ hv, h⟩
    · rcases h2 with h | ⟨v, hv, h⟩
      · rcases max_choice s.2 (f w) with hc | hc
        · left; rw [h]; exact hc
        · right; exact ⟨w, List.mem_cons_self _ _, by rw [h]; exact hc⟩
      · right; exact ⟨v, List.mem_cons_of_mem _ hv, h⟩

/-- The first component of a scan is a lower bound and the second an upper bound of the
scanned coordinate. -/
theorem boundsScan_le (f : Point K → K) (pts : List (Point K)) (v : Point K) (hv : v ∈ pts) :
    (boundsScan f pts).1 ≤ f v ∧ f v ≤ (boundsScan f pts).2 :=
  foldl_bounds_le f pts _ v hv

/-- On a non-empty list whose coordinates lie in the `float64` range, the scan returns the
least and the greatest coordinate. -/
theorem boundsScan_attained (f : Point K → K) (pts : List (Point K)) (hne : pts ≠ [])
    (hr : ∀ v ∈ pts, -MaxFloat64 ≤ f v ∧ f v ≤ MaxFloat64) :
    (∃ v ∈ pts, (boundsScan f pts).1 = f v) ∧ ∃ v ∈ pts, (boundsScan f pts).2 = f v := by
  obtain ⟨w, hw⟩ := List.exists_mem_of_ne_nil pts hne
  have hb := boundsScan_le f pts w hw
  obtain ⟨h1, h2⟩ := foldl_bounds_attained f pts (MaxFloat64, -MaxFloat64)
  constructor
  · rcases h1 with h | h
    · refine ⟨w, hw, le_antisymm hb.1 ?_⟩
      have : (boundsScan f pts).1 = MaxFloat64 := h
      rw [this]; exact (hr w hw).2
    · exact h
  · rcases h2 with h | h
    · refine ⟨w, hw, le_antisymm ?_ hb.2⟩
      have : (boundsScan f pts).2 = -MaxFloat64 := h
      rw [this]; exact (hr w hw).1
    · exact h

/-- The rectangle made of the two scans contains every scanned point. -/
theorem IsPointInRect_boundsScan (pts : List (Point K)) (p : Point K) (hp : p ∈ pts) :
    IsPointInRect p
      ⟨⟨(boundsScan Point.Lng pts).1, (boundsScan Point.Lat pts).1⟩,
        ⟨(boundsScan Point.Lng pts).2, (boundsScan Point.Lat pts).2⟩⟩ = true := by
  have h1 := boundsScan_le Point.Lng pts p hp
  have h2 := boundsScan_le Point.Lat pts p hp
  simp [IsPointInRect, h1.1, h1.2, h2.1, h2.2]

/-- `GetBounds` panics on every polyline: the result pointer is `nil` at the first store. -/
theorem GetBounds_panics (pl : Polyline K) :
    pl.GetBounds = .error .nilDereference := rfl

end Bounds

/-- C1: on the four points of `TestGetBounds` the two scans of `GetBounds` find latitudes
12.3 and 22.3 and longitudes 22.4 and 82.4, and `GetBounds` then panics with a nil
dereference instead of returning the rectangle built from them. -/
theorem GetBounds_testPoints :
    boundsScan Point.Lat testPoints.Points = (12.3, 22.3) ∧
      boundsScan Point.Lng testPoints.Points = (22.4, 82.4) ∧
      testPoints.GetBounds = .error .nilDereference := by
  refine ⟨?_, ?_, rfl⟩
  · simp only [boundsScan, testPoints, MaxFloat64, List.foldl_cons, List.foldl_nil]
    norm_num
  · simp only [boundsScan, testPoints, MaxFloat64, List.foldl_cons, List.foldl_nil]
    norm_num

/-- C2: for each of the four points of `TestGetBounds`, the test
`IsPointInRect(p, GetBounds(points))` panics in `GetBounds` and returns no answer. -/
theorem IsPointInRect_GetBounds_testPoints :
    testPoints.Points.map
        (fun p => (testPoints.GetBounds >>= deref).map (IsPointInRect p)) =
      List.replicate 4 (.error .nilDereference) := rfl

/-- C3: on every polyline, the empty one included, `GetBounds` panics with a nil
dereference, and so do `IsPointOnPolyline` and `IsPointInPolygon` for every point. -/
theorem operations_panic (K : Type) [LinearOrderedField K] (p : Point K) (pl : Polyline K) :
    pl.GetBounds = .error .nilDereference ∧
      IsPointOnPolyline p pl = .error .nilDereference ∧
      IsPointInPolygon p pl = .error .nilDereference :=
  ⟨rfl, rfl, rfl⟩

/-! ## Point in polygon -/

theorem index_of_lt {K : Type} (pts : List (Point K)) (i : Nat) (h : i < pts.length) :
    index pts i = .ok (pts.get ⟨i, h⟩) := by
  simp [index, List.getElem?_eq_getElem h]

section RayCast

variable {K : Type} [LinearOrderedField K]

/-- Loop of `IsPointInPolygon`: when the test point `Equals` a vertex that is still to be
visited as left vertex, the loop returns `true`. -/
theorem IsPointInPolygon.loop_vertex (p : Point K) (pts : List (Point K)) (k : Nat) :
    ∀ (i : Nat) (p1 : Point K) (cnt : Nat), i + k = pts.length + 1 → 1 ≤ i →
      pts[i - 1]? = some p1 →
      (∃ j v, i - 1 ≤ j ∧ pts[j]? = some v ∧ p.Equals v = true) →
      ∃ c, IsPointInPolygon.loop p pts pts.length k i p1 cnt = .ok (some true, c) := by
  induction k with
  | zero =>
    intro i p1 cnt hik hi hp1 ⟨j, v, hj, hv, _⟩
    have hlt : j < pts.length := by
      by_contra hcon
      rw [List.getElem?_eq_none (not_lt.mp hcon)] at hv
      exact Option.noConfusion hv
    omega
  | succ k ih =>
    intro i p1 cnt hik hi hp1 ⟨j, v, hj, hv, he⟩
    by_cases hE : p.Equals p1 = true
    · exact ⟨cnt, by rw [IsPointInPolygon.loop]; simp only [hE, if_true]; rfl⟩
    · have hlt : j < pts.length := by
        by_contra hcon
        rw [List.getElem?_eq_none (not_lt.mp hcon)] at hv
        exact Option.noConfusion hv
      have hji : i ≤ j := by
        by_contra hcon
        have : j = i - 1 := by omega
        rw [this, hp1] at hv
        exact hE (by rw [Option.some.inj hv]; exact he)
      have hiN : i < pts.length := by omega
      obtain ⟨p2, hp2, hidx⟩ : ∃ p2, pts[i]? = some p2 ∧
          index pts (i % pts.length) = .ok p2 := by
        refine ⟨pts.get ⟨i, hiN⟩, by simp [List.getElem?_eq_getElem hiN], ?_⟩
        rw [Nat.mod_eq_of_lt hiN]; exact index_of_lt pts i hiN
      obtain ⟨p3, hidx3⟩ : ∃ p3, index pts ((i + 1) % pts.length) = .ok p3 :=
        ⟨_, index_of_lt pts ((i + 1) % pts.length) (Nat.mod_lt _ (by omega))⟩
      have hnext : ∀ c, ∃ c2, IsPointInPolygon.loop p pts pts.length k (i + 1) p2 c =
          .ok (some true, c2) := fun c =>
        ih (i + 1) p2 c (by omega) (by omega) (by simpa using hp2) ⟨j, v, by omega, hv, he⟩
      rw [IsPointInPolygon.loop]
      simp only [hE, bind, Except.bind, pure, Except.pure]
      rw [hidx]
      simp only [hidx3]
      simp only [Bool.false_eq_true, if_false]
      repeat' split
      all_goals first | exact ⟨_, rfl⟩ | exact hnext _

/-- The part of `IsPointInPolygon` after the bounding-box test returns `true` for every point
that `Equals` a vertex of the polygon. -/
theorem IsPointInPolygon.rayCast_vertex (p : Point K) (pts : List (Point K)) (v : Point K)
    (hv : v ∈ pts) (he : p.Equals v = true) :
    IsPointInPolygon.rayCast p pts = .ok true := by
  obtain ⟨j, hj, hjv⟩ := List.getElem_of_mem hv
  have hpos : 0 < pts.length := by omega
  have h0 := index_of_lt pts 0 hpos
  obtain ⟨c, hc⟩ := IsPointInPolygon.loop_vertex p pts pts.length 1 (pts.get ⟨0, hpos⟩) 0
    (by omega) (le_refl 1) (by simp [List.getElem?_eq_getElem hpos])
    ⟨j, v, by omega, by rw [List.getElem?_eq_getElem hj, hjv], he⟩
  unfold IsPointInPolygon.rayCast
  simp only [bind, Except.bind, pure, Except.pure]
  rw [h0]
  simp only [hc]

/-- The bounding-box test fails for a point with a coordinate outside the scanned range. -/
theorem IsPointInRect_boundsScan_outside (pts : List (Point K)) (p : Point K)
    (h : p.Lng < (boundsScan Point.Lng pts).1 ∨ (boundsScan Point.Lng pts).2 < p.Lng ∨
      p.Lat < (boundsScan Point.Lat pts).1 ∨ (boundsScan Point.Lat pts).2 < p.Lat) :
    IsPointInRect p
      ⟨⟨(boundsScan Point.Lng pts).1, (boundsScan Point.Lat pts).1⟩,
        ⟨(boundsScan Point.Lng pts).2, (boundsScan Point.Lat pts).2⟩⟩ = false := by
  simp only [IsPointInRect, decide_eq_false_iff_not, ge_iff_le, not_and, not_le]
  intro h1 h2 h3
  rcases h with h | h | h | h
  · exact absurd h1 (not_le.mpr h)
  · exact absurd h2 (not_le.mpr h)
  · exact absurd h3 (not_le.mpr h)
  · exact h

end RayCast

/-- C4: the point `(lng 1/2, lat 1)` lies on the horizontal edge from `(0, 1)` to `(1, 1)` of
the quadrilateral `(0,0), (0,1), (1,1), (3,2)`.  `IsPointInPolygon` panics in `GetBounds`;
the ray casting that would follow counts two crossings and answers `false`. -/
theorem IsPointInPolygon_horizontal_edge :
    IsPointInPolygon (⟨1 / 2, 1⟩ : Point ℚ) quadrilateral = .error .nilDereference ∧
      IsPointInPolygon.rayCast (⟨1 / 2, 1⟩ : Point ℚ) quadrilateral.Points = .ok false := by
  refine ⟨rfl, ?_⟩
  unfold IsPointInPolygon.rayCast
  simp only [IsPointInPolygon.loop, index, Point.Equals, F_ZERO, quadrilateral, bind,
    Except.bind, pure, Except.pure, abs_le, abs_lt]
  norm_num

/-- C5: for the interior point `onpt` of the triangle of `TestIsPointOnPolyline`,
`IsPointInPolygon` panics in `GetBounds`; the ray casting that would follow answers `true`. -/
theorem IsPointInPolygon_onpt :
    IsPointInPolygon onpt testTriangle = .error .nilDereference ∧
      IsPointInPolygon.rayCast onpt testTriangle.Points = .ok true := by
  refine ⟨rfl, ?_⟩
  unfold IsPointInPolygon.rayCast
  simp only [IsPointInPolygon.loop, index, Point.Equals, F_ZERO, testTriangle, onpt, bind,
    Except.bind, pure, Except.pure, abs_le, abs_lt]
  norm_num

/-- C6: for each of the three vertices of the triangle of `TestIsPointOnPolyline`,
`IsPointInPolygon` panics in `GetBounds`. -/
theorem IsPointInPolygon_vertices :
    testTriangle.Points.map (fun v => IsPointInPolygon v testTriangle) =
      List.replicate 3 (.error .nilDereference) := rfl

/-- C7: the point `outpt` of `TestIsPointOnPolyline` has a latitude above every latitude of
the triangle, and both `IsPointInPolygon` and `IsPointOnPolyline` panic in `GetBounds`
instead of answering `false`. -/
theorem outpt_panics :
    (boundsScan Point.Lat testTriangle.Points).2 < outpt.Lat ∧
      IsPointInPolygon outpt testTriangle = .error .nilDereference ∧
      IsPointOnPolyline outpt testTriangle = .error .nilDereference := by
  refine ⟨?_, rfl, rfl⟩
  simp only [boundsScan, testTriangle, outpt, MaxFloat64, List.foldl_cons, List.foldl_nil]
  norm_num

/-! ## Longitude wrap and distance -/

section Distance

variable {K : Type} [LinearOrderedField K]

theorem getLoop.down_succ (a b : K) (fuel : Nat) (v : K) :
    getLoop.down a b (fuel + 1) v =
      if v > b then getLoop.down a b fuel (v - (b - a)) else some v := rfl

theorem getLoop.up_succ (a b : K) (fuel : Nat) (v : K) :
    getLoop.up a b (fuel + 1) v =
      if v < a then getLoop.up a b fuel (v + (b - a)) else some v := rfl

/-- The first loop of `getLoop` ends within `n + 1` tests of its condition when
`v ≤ b + n * (b - a)`; it subtracts a multiple of `b - a`. -/
theorem getLoop.down_spec (a b : K) (n : Nat) :
    ∀ v : K, v ≤ b + n * (b - a) →
      ∃ (w : K) (k : Nat), (∀ fuel, n < fuel → getLoop.down a b fuel v = some w) ∧
        w = v - k * (b - a) ∧ w ≤ b ∧ (v ≤ b → w = v) ∧ (b < v → a < w) := by
  induction n with
  | zero =>
    intro v hv
    have hvb : v ≤ b := by simpa using hv
    refine ⟨v, 0, ?_, by simp, hvb, fun _ => rfl, fun h => absurd h (not_lt.mpr hvb)⟩
    intro fuel hf
    obtain ⟨f, rfl⟩ := Nat.exists_eq_succ_of_ne_zero (Nat.not_eq_zero_of_lt hf)
    rw [getLoop.down_succ, if_neg (not_lt.mpr hvb)]
  | succ n ih =>
    intro v hv
    by_cases h : b < v
    · have hv2 : v - (b - a) ≤ b + n * (b - a) := by
        push_cast at hv
        linarith
      obtain ⟨w, k, hw, hk, hwb, hle, hgt⟩ := ih (v - (b - a)) hv2
      refine ⟨w, k + 1, ?_, ?_, hwb, fun h2 => absurd h (not_lt.mpr h2), fun _ => ?_⟩
      · intro fuel hf
        obtain ⟨f, rfl⟩ := Nat.exists_eq_succ_of_ne_zero (Nat.not_eq_zero_of_lt hf)
        rw [getLoop.down_succ, if_pos h]
        exact hw f (by omega)
      · rw [hk]; push_cast; ring
      · by_cases h3 : v - (b - a) ≤ b
        · rw [hle h3]; linarith
        · exact hgt (not_le.mp h3)
    · have hvb : v ≤ b := not_lt.mp h
      refine ⟨v, 0, ?_, by simp, hvb, fun _ => rfl, fun h2 => absurd h2 h⟩
      intro fuel hf
      obtain ⟨f, rfl⟩ := Nat.exists_eq_succ_of_ne_zero (Nat.not_eq_zero_of_lt hf)
      rw [getLoop.down_succ, if_neg h]

/-- The second loop of `getLoop` ends within `n + 1` tests of its condition when
`a - n * (b - a) ≤ v`; it adds a multiple of `b - a`. -/
theorem getLoop.up_spec (a b : K) (n : Nat) :
    ∀ v : K, a - n * (b - a) ≤ v →
      ∃ (w : K) (k : Nat), (∀ fuel, n < fuel → getLoop.up a b fuel v = some w) ∧
        w = v + k * (b - a) ∧ a ≤ w ∧ (a ≤ v → w = v) ∧ (v < a → w < b) := by
  induction n with
  | zero =>
    intro v hv
    have hva : a ≤ v := by simpa using hv
    refine ⟨v, 0, ?_, by simp, hva, fun _ => rfl, fun h => absurd h (not_lt.mpr hva)⟩
    intro fuel hf
    obtain ⟨f, rfl⟩ := Nat.exists_eq_succ_of_ne_zero (Nat.not_eq_zero_of_lt hf)
    rw [getLoop.up_succ, if_neg (not_lt.mpr hva)]
  | succ n ih =>
    intro v hv
    by_cases h : v < a
    · have hv2 : a - n * (b - a) ≤ v + (b - a) := by
        push_cast at hv
        linarith
      obtain ⟨w, k, hw, hk, hwa, hle, hlt⟩ := ih (v + (b - a)) hv2
      refine ⟨w, k + 1, ?_, ?_, hwa, fun h2 => absurd h (not_lt.mpr h2), fun _ => ?_⟩
      · intro fuel hf
        obtain ⟨f, rfl⟩ := Nat.exists_eq_succ_of_ne_zero (Nat.not_eq_zero_of_lt hf)
        rw [getLoop.up_succ, if_pos h]
        exact hw f (by omega)
      · rw [hk]; push_cast; ring
      · by_cases h3 : a ≤ v + (b - a)
        · rw [hle h3]; linarith
        · exact hlt (not_le.mp h3)
    · have hva : a ≤ v := not_lt.mp h
      refine ⟨v, 0, ?_, by simp, hva, fun _ => rfl, fun h2 => absurd h2 h⟩
      intro fuel hf
      obtain ⟨f, rfl⟩ := Nat.exists_eq_succ_of_ne_zero (Nat.not_eq_zero_of_lt hf)
      rw [getLoop.up_succ, if_neg h]

/-- In an archimedean field `getLoop v a b` with `a < b` returns, from some amount of fuel
on, one value `w`: it lies in `[a, b]`, differs from `v` by an integer multiple of `b - a`,
and is `v` itself when `v` is already in `[a, b]`. -/
theorem getLoop_spec [Archimedean K] (a b : K) (hab : a < b) (v : K) :
    ∃ (N : Nat) (w : K), (∀ fuel, N ≤ fuel → getLoop fuel v a b = some w) ∧
      a ≤ w ∧ w ≤ b ∧ (∃ z : Int, w = v + z * (b - a)) ∧ (a ≤ v → v ≤ b → w = v) := by
  have hpos : 0 < b - a := sub_pos.mpr hab
  obtain ⟨n1, hn1⟩ := Archimedean.arch (v - b) hpos
  have h1 : v ≤ b + n1 * (b - a) := by
    rw [nsmul_eq_mul] at hn1
    linarith
  obtain ⟨w1, k1, hw1, hk1, hw1b, hle1, hgt1⟩ := getLoop.down_spec a b n1 v h1
  obtain ⟨n2, hn2⟩ := Archimedean.arch (a - w1) hpos
  have h2 : a - n2 * (b - a) ≤ w1 := by
    rw [nsmul_eq_mul] at hn2
    linarith
  obtain ⟨w2, k2, hw2, hk2, hw2a, hle2, hlt2⟩ := getLoop.up_spec a b n2 w1 h2
  refine ⟨max n1 n2 + 1, w2, ?_, hw2a, ?_, ⟨(k2 : Int) - k1, ?_⟩, ?_⟩
  · intro fuel hf
    have hf1 : n1 < fuel := lt_of_le_of_lt (le_max_left n1 n2) (Nat.lt_of_succ_le hf)
    have hf2 : n2 < fuel := lt_of_le_of_lt (le_max_right n1 n2) (Nat.lt_of_succ_le hf)
    simp [getLoop, hw1 fuel hf1, hw2 fuel hf2]
  · by_cases h : a ≤ w1
    · rw [hle2 h]; exact hw1b
    · exact (hlt2 (not_le.mp h)).le
  · rw [hk2, hk1]; push_cast; ring
  · intro hav hvb
    rw [hle2 (by rw [hle1 hvb]; exact hav), hle1 hvb]

/-- The result of `GetDistance` once the two longitude wraps have returned. -/
theorem GetDistance_eq (m : MathPkg K) (fuel : Nat) (a b : Point K) (wa wb : K)
    (ha : getLoop fuel a.Lng (-180) 180 = some wa)
    (hb : getLoop fuel b.Lng (-180) 180 = some wb) :
    GetDistance m fuel a b =
      some (EARTHRADIUS * m.Acos
          (m.Sin (DegreeToRad m (getRange a.Lat (-74) 74)) *
              m.Sin (DegreeToRad m (getRange b.Lat (-74) 74)) +
            m.Cos (DegreeToRad m (getRange a.Lat (-74) 74)) *
              m.Cos (DegreeToRad m (getRange b.Lat (-74) 74)) *
              m.Cos (DegreeToRad m wb - DegreeToRad m wa)),
        ⟨wa, getRange a.Lat (-74) 74⟩, ⟨wb, getRange b.Lat (-74) 74⟩) := by
  simp only [GetDistance, ha, hb, Option.pure_def, Option.bind_eq_bind, Option.some_bind]

/-- Function `getRange` returns a value of `[a, b]` when `a ≤ b`. -/
theorem getRange_mem (v a b : K) (hab : a ≤ b) :
    a ≤ getRange v a b ∧ getRange v a b ≤ b :=
  ⟨le_min (le_max_right v a) hab, min_le_right _ _⟩

/-- Function `getRange` leaves a value of `[a, b]` unchanged. -/
theorem getRange_of_mem (v a b : K) (hav : a ≤ v) (hvb : v ≤ b) : getRange v a b = v := by
  show min (max v a) b = v
  rw [max_eq_left hav, min_eq_left hvb]

/-- Symmetry of `GetDistance` for a cosine that is even: from some amount of fuel on, the
calls on `(a, b)` and on `(b, a)` return the same distance and leave the same corrected
points, and so does a call on the corrected points in the other order. -/
theorem GetDistance_comm [Archimedean K] (m : MathPkg K) (hcos : ∀ x, m.Cos (-x) = m.Cos x)
    (a b : Point K) :
    ∃ N : Nat, ∀ fuel, N ≤ fuel → ∃ (d : K) (a1 b1 : Point K),
      GetDistance m fuel a b = some (d, a1, b1) ∧ GetDistance m fuel b a = some (d, b1, a1) ∧
        GetDistance m fuel b1 a1 = some (d, b1, a1) := by
  obtain ⟨Na, wa, hwa, ha1, ha2, -, -⟩ := getLoop_spec (-180 : K) 180 (by norm_num) a.Lng
  obtain ⟨Nb, wb, hwb, hb1, hb2, -, -⟩ := getLoop_spec (-180 : K) 180 (by norm_num) b.Lng
  obtain ⟨Na2, wa2, hwa2, -, -, -, hfa⟩ := getLoop_spec (-180 : K) 180 (by norm_num) wa
  obtain ⟨Nb2, wb2, hwb2, -, -, -, hfb⟩ := getLoop_spec (-180 : K) 180 (by norm_num) wb
  rw [hfa ha1 ha2] at hwa2
  rw [hfb hb1 hb2] at hwb2
  refine ⟨max (max Na Nb) (max Na2 Nb2), fun fuel hf => ?_⟩
  have ha := hwa fuel (by omega)
  have hb := hwb fuel (by omega)
  have ha3 := hwa2 fuel (by omega)
  have hb3 := hwb2 fuel (by omega)
  have hx : DegreeToRad m wa - DegreeToRad m wb = -(DegreeToRad m wb - DegreeToRad m wa) := by
    ring
  have hra := getRange_mem a.Lat (-74 : K) 74 (by norm_num)
  have hrb := getRange_mem b.Lat (-74 : K) 74 (by norm_num)
  refine ⟨_, _, _, GetDistance_eq m fuel a b wa wb ha hb, ?_, ?_⟩
  · rw [GetDistance_eq m fuel b a wb wa hb ha, hx, hcos]
    ring_nf
  · rw [GetDistance_eq m fuel ⟨wb, getRange b.Lat (-74) 74⟩ ⟨wa, getRange a.Lat (-74) 74⟩
      wb wa hb3 ha3]
    simp only [getRange_of_mem _ _ _ hra.1 hra.2, getRange_of_mem _ _ _ hrb.1 hrb.2]
    rw [hx, hcos]
    ring_nf

end Distance

/-- Function `getRange` with the bounds of a latitude is the clamp into `[-74, 74]`. -/
theorem getRange_eq_clamp {K : Type} [LinearOrderedField K] (v : K) :
    getRange v (-74) 74 = max (-74) (min 74 v) := by
  show min (max v (-74)) 74 = max (-74) (min 74 v)
  rcases le_total v (-74) with h | h
  · have h74 : v ≤ 74 := h.trans (by norm_num)
    rw [max_eq_right h, min_eq_left (by norm_num), min_eq_right h74, max_eq_left h]
  · rcases le_total v 74 with h2 | h2
    · rw [max_eq_left h, min_eq_left h2, min_eq_right h2, max_eq_right h]
    · rw [max_eq_left h, min_eq_right h2, min_eq_left h2, max_eq_right (by norm_num)]

/-- The value `GetDistance` computes over the reals for two points whose wrapped longitudes
agree: the earth radius times the difference of the clamped latitudes in radians. -/
theorem GetDistance_value_same_wrap (la lb : ℝ) :
    EARTHRADIUS * Real.arccos
        (Real.sin (DegreeToRad ⟨Real.sin, Real.cos, Real.arccos, Real.sqrt, Real.pi⟩
              (getRange la (-74) 74)) *
            Real.sin (DegreeToRad ⟨Real.sin, Real.cos, Real.arccos, Real.sqrt, Real.pi⟩
              (getRange lb (-74) 74)) +
          Real.cos (DegreeToRad ⟨Real.sin, Real.cos, Real.arccos, Real.sqrt, Real.pi⟩
              (getRange la (-74) 74)) *
            Real.cos (DegreeToRad ⟨Real.sin, Real.cos, Real.arccos, Real.sqrt, Real.pi⟩
              (getRange lb (-74) 74)) * Real.cos 0) =
      EARTHRADIUS * (Real.pi / 180) *
        |max (-74) (min 74 la) - max (-74) (min 74 lb)| := by
  have hca : getRange la (-74) 74 = max (-74) (min 74 la) := getRange_eq_clamp la
  have hcb : getRange lb (-74) 74 = max (-74) (min 74 lb) := getRange_eq_clamp lb
  rw [hca, hcb]
  set ca := max (-74 : ℝ) (min 74 la) with hca2
  set cb := max (-74 : ℝ) (min 74 lb) with hcb2
  have ha1 : -74 ≤ ca := le_max_left _ _
  have ha2 : ca ≤ 74 := max_le (by norm_num) (min_le_left _ _)
  have hb1 : -74 ≤ cb := le_max_left _ _
  have hb2 : cb ≤ 74 := max_le (by norm_num) (min_le_left _ _)
  have hpi : 0 < Real.pi := Real.pi_pos
  simp only [DegreeToRad, Real.cos_zero, mul_one]
  have hcos : Real.sin (Real.pi * ca / 180) * Real.sin (Real.pi * cb / 180) +
      Real.cos (Real.pi * ca / 180) * Real.cos (Real.pi * cb / 180) =
      Real.cos |Real.pi * ca / 180 - Real.pi * cb / 180| := by
    rw [Real.cos_abs, Real.cos_sub]; ring
  have habs : |Real.pi * ca / 180 - Real.pi * cb / 180| = Real.pi / 180 * |ca - cb| := by
    have : Real.pi * ca / 180 - Real.pi * cb / 180 = Real.pi / 180 * (ca - cb) := by ring
    rw [this, abs_mul, abs_of_pos (by positivity)]
  have hle : |ca - cb| ≤ 148 := by
    rw [abs_le]; constructor <;> linarith
  rw [hcos, habs, Real.arccos_cos (by positivity)
    (by nlinarith [abs_nonneg (ca - cb)])]
  ring

/-- In exact real arithmetic the distance from a point to a copy of it is `0`: the two
wrapped longitudes agree and the clamped latitudes agree. -/
theorem GetDistance_self_exact (p : Point ℝ) :
    ∃ N : Nat, ∀ fuel, N ≤ fuel →
      (GetDistance ⟨Real.sin, Real.cos, Real.arccos, Real.sqrt, Real.pi⟩ fuel p p).map
        Prod.fst = some 0 := by
  obtain ⟨N, w, hw, -⟩ := getLoop_spec (-180 : ℝ) 180 (by norm_num) p.Lng
  refine ⟨N, fun fuel hf => ?_⟩
  rw [GetDistance_eq _ fuel p p w w (hw fuel hf) (hw fuel hf)]
  simp only [Option.map_some', sub_self]
  rw [GetDistance_value_same_wrap p.Lat p.Lat]
  simp

/-- C8: over the reals, with the real sine, cosine and arc cosine, `GetDistance a b` and
`GetDistance b a` both return, and return the same distance `d` (leaving the same two
corrected points), for all points `a` and `b`; calling `GetDistance` on the two corrected
points in the other order returns `d` too. -/
theorem GetDistance_symmetric (a b : Point ℝ) :
    ∃ N : Nat, ∀ fuel, N ≤ fuel → ∃ (d : ℝ) (a1 b1 : Point ℝ),
      GetDistance ⟨Real.sin, Real.cos, Real.arccos, Real.sqrt, Real.pi⟩ fuel a b =
          some (d, a1, b1) ∧
        GetDistance ⟨Real.sin, Real.cos, Real.arccos, Real.sqrt, Real.pi⟩ fuel b a =
          some (d, b1, a1) ∧
        GetDistance ⟨Real.sin, Real.cos, Real.arccos, Real.sqrt, Real.pi⟩ fuel b1 a1 =
          some (d, b1, a1) :=
  GetDistance_comm ⟨Real.sin, Real.cos, Real.arccos, Real.sqrt, Real.pi⟩ Real.cos_neg a b

/-- In exact real arithmetic, for two points of one longitude `GetDistance` returns
`EARTHRADIUS * (π / 180) * |c lat1 - c lat2|` with `c` the clamp into `[-74, 74]`; for
`(lat 102, lng 82)` and `(lat 22, lng 82)` this is `EARTHRADIUS * (52 * π / 180)`, a value
between 5782133.290364891 (the threshold of `TestGetDistance`) and 5782133.290364892. -/
theorem GetDistance_same_longitude :
    (∀ lng lat1 lat2 : ℝ, ∃ N : Nat, ∀ fuel, N ≤ fuel →
      (GetDistance ⟨Real.sin, Real.cos, Real.arccos, Real.sqrt, Real.pi⟩ fuel
          ⟨lng, lat1⟩ ⟨lng, lat2⟩).map Prod.fst =
        some (EARTHRADIUS * (Real.pi / 180) *
          |max (-74) (min 74 lat1) - max (-74) (min 74 lat2)|)) ∧
    (∃ N : Nat, ∀ fuel, N ≤ fuel →
      (GetDistance ⟨Real.sin, Real.cos, Real.arccos, Real.sqrt, Real.pi⟩ fuel
          ⟨82, 102⟩ ⟨82, 22⟩).map Prod.fst =
        some (EARTHRADIUS * (52 * Real.pi / 180))) ∧
    (5782133.290364891 : ℝ) < EARTHRADIUS * (52 * Real.pi / 180) ∧
    (EARTHRADIUS : ℝ) * (52 * Real.pi / 180) < 5782133.290364892 := by
  have key : ∀ lng lat1 lat2 : ℝ, ∃ N : Nat, ∀ fuel, N ≤ fuel →
      (GetDistance ⟨Real.sin, Real.cos, Real.arccos, Real.sqrt, Real.pi⟩ fuel
          ⟨lng, lat1⟩ ⟨lng, lat2⟩).map Prod.fst =
        some (EARTHRADIUS * (Real.pi / 180) *
          |max (-74) (min 74 lat1) - max (-74) (min 74 lat2)|) := by
    intro lng lat1 lat2
    obtain ⟨N, w, hw, -⟩ := getLoop_spec (-180 : ℝ) 180 (by norm_num) lng
    refine ⟨N, fun fuel hf => ?_⟩
    rw [GetDistance_eq _ fuel ⟨lng, lat1⟩ ⟨lng, lat2⟩ w w (hw fuel hf) (hw fuel hf)]
    simp only [Option.map_some', sub_self]
    rw [GetDistance_value_same_wrap lat1 lat2]
  refine ⟨key, ?_, ?_, ?_⟩
  · obtain ⟨N, hN⟩ := key 82 102 22
    refine ⟨N, fun fuel hf => ?_⟩
    rw [hN fuel hf]
    have h1 : max (-74 : ℝ) (min 74 102) = 74 := by norm_num
    have h2 : max (-74 : ℝ) (min 74 22) = 22 := by norm_num
    rw [h1, h2]
    norm_num
    ring
  · have := Real.pi_gt_d20
    unfold EARTHRADIUS
    norm_num at this ⊢
    linarith
  · have := Real.pi_lt_d20
    unfold EARTHRADIUS
    norm_num at this ⊢
    linarith

/-! ## Point in rectangle -/

/-- C19: `IsPointInRect p rt` is `true` exactly when `SouthWest.Lng ≤ p.Lng ≤ NorthEast.Lng`
and `SouthWest.Lat ≤ p.Lat ≤ NorthEast.Lat`, on the coordinates as they are; a rectangle
whose `SouthWest` exceeds its `NorthEast` on an axis contains no point; `(lat 22, lng 82)` is
not in the rectangle `SouthWest (lng 84, lat 22)`, `NorthEast (lng 82, lat 25)` and is in
`SouthWest (lng 80, lat 22)`, `NorthEast (lng 84, lat 25)`. -/
theorem IsPointInRect_iff :
    (∀ (K : Type) [LinearOrderedField K] (p : Point K) (rt : Rect K),
      IsPointInRect p rt = true ↔
        (rt.SouthWest.Lng ≤ p.Lng ∧ p.Lng ≤ rt.NorthEast.Lng) ∧
          (rt.SouthWest.Lat ≤ p.Lat ∧ p.Lat ≤ rt.NorthEast.Lat)) ∧
    (∀ (K : Type) [LinearOrderedField K] (p : Point K) (rt : Rect K),
      (rt.NorthEast.Lng < rt.SouthWest.Lng ∨ rt.NorthEast.Lat < rt.SouthWest.Lat) →
        IsPointInRect p rt = false) ∧
    IsPointInRect (⟨82, 22⟩ : Point ℚ) ⟨⟨84, 22⟩, ⟨82, 25⟩⟩ = false ∧
    IsPointInRect (⟨82, 22⟩ : Point ℚ) ⟨⟨80, 22⟩, ⟨84, 25⟩⟩ = true := by
  refine ⟨?_, ?_, ?_, ?_⟩
  · intro K _ p rt
    simp only [IsPointInRect, decide_eq_true_eq, ge_iff_le]
    tauto
  · intro K _ p rt h
    simp only [IsPointInRect, decide_eq_false_iff_not, ge_iff_le, not_and, not_le]
    intro h1 h2 h3
    rcases h with h | h
    · exact absurd (h1.trans h2) (not_le.mpr h)
    · exact lt_of_lt_of_le h h3
  · simp only [IsPointInRect, decide_eq_false_iff_not]
    norm_num
  · simp only [IsPointInRect, decide_eq_true_eq]
    norm_num

/-! ## Longitude wrap -/

/-- In exact real arithmetic `getLoop v (-180) 180` returns, from some amount of fuel on, one
value `w` with `-180 ≤ w ≤ 180` and `w - v` an integer multiple of 360; a `v` of
`[-180, 180]` is returned unchanged. -/
theorem getLoop_wraps (v : ℝ) :
    ∃ (N : Nat) (w : ℝ), (∀ fuel, N ≤ fuel → getLoop fuel v (-180) 180 = some w) ∧
      -180 ≤ w ∧ w ≤ 180 ∧ (∃ z : Int, w - v = z * 360) ∧ (-180 ≤ v → v ≤ 180 → w = v) := by
  obtain ⟨N, w, hw, h1, h2, ⟨z, hz⟩, h3⟩ := getLoop_spec (-180 : ℝ) 180 (by norm_num) v
  refine ⟨N, w, hw, h1, h2, ⟨z, ?_⟩, h3⟩
  rw [hz]
  ring

/-! ## Point in circle -/

/-- In exact real arithmetic, for every circle with a radius `≥ 0`, whatever its centre,
`IsPointInCircle` called on the centre returns `true`. -/
theorem IsPointInCircle_center (circle : Circle ℝ) (hr : 0 ≤ circle.Radius) :
    ∃ N : Nat, ∀ fuel, N ≤ fuel →
      (IsPointInCircle ⟨Real.sin, Real.cos, Real.arccos, Real.sqrt, Real.pi⟩ fuel
        circle.Center circle).map Prod.fst = some true := by
  obtain ⟨N, w, hw, -⟩ := getLoop_spec (-180 : ℝ) 180 (by norm_num) circle.Center.Lng
  refine ⟨N, fun fuel hf => ?_⟩
  have hd := GetDistance_eq ⟨Real.sin, Real.cos, Real.arccos, Real.sqrt, Real.pi⟩ fuel
    circle.Center circle.Center w w (hw fuel hf) (hw fuel hf)
  have hv := GetDistance_value_same_wrap circle.Center.Lat circle.Center.Lat
  simp only [sub_self, abs_zero, mul_zero] at hv hd
  simp only [IsPointInCircle, hd, hv, Option.pure_def, Option.bind_eq_bind, Option.some_bind,
    if_pos hr, Option.map_some']

/-- In exact real arithmetic: the circle of `TestIsPointInCircle`, centre `(lat 22, lng 80)`
and radius 100. -/
theorem IsPointInCircle_center_witness :
    ∃ N : Nat, ∀ fuel, N ≤ fuel →
      (IsPointInCircle ⟨Real.sin, Real.cos, Real.arccos, Real.sqrt, Real.pi⟩ fuel
        (⟨⟨80, 22⟩, 100⟩ : Circle ℝ).Center ⟨⟨80, 22⟩, 100⟩).map Prod.fst = some true :=
  IsPointInCircle_center ⟨⟨80, 22⟩, 100⟩ (by norm_num)

/-! ## Point on polyline -/

section OnPolyline

variable {K : Type} [LinearOrderedField K]

/-- The test that `IsPointOnPolyline` makes on one segment (geo.go 172-177): the point is in
the bounding box of the segment and the cross product is strictly between `-F_ZERO` and
`F_ZERO`. -/
theorem IsPointOnPolyline.loop_cons (point curPt nextPt : Point K) (rest : List (Point K)) :
    IsPointOnPolyline.loop point (curPt :: nextPt :: rest) = true ↔
      (((min curPt.Lng nextPt.Lng ≤ point.Lng ∧ point.Lng ≤ max curPt.Lng nextPt.Lng ∧
          min curPt.Lat nextPt.Lat ≤ point.Lat ∧ point.Lat ≤ max curPt.Lat nextPt.Lat) ∧
        (curPt.Lng - point.Lng) * (nextPt.Lat - point.Lat) -
            (nextPt.Lng - point.Lng) * (curPt.Lat - point.Lat) < F_ZERO ∧
          -F_ZERO < (curPt.Lng - point.Lng) * (nextPt.Lat - point.Lat) -
            (nextPt.Lng - point.Lng) * (curPt.Lat - point.Lat)) ∨
        IsPointOnPolyline.loop point (nextPt :: rest) = true) := by
  rw [IsPointOnPolyline.loop]
  by_cases hbox : point.Lng ≥ min curPt.Lng nextPt.Lng ∧ point.Lng ≤ max curPt.Lng nextPt.Lng ∧
      point.Lat ≥ min curPt.Lat nextPt.Lat ∧ point.Lat ≤ max curPt.Lat nextPt.Lat
  · rw [if_pos hbox]
    by_cases hc : (curPt.Lng - point.Lng) * (nextPt.Lat - point.Lat) -
        (nextPt.Lng - point.Lng) * (curPt.Lat - point.Lat) < F_ZERO ∧
        (curPt.Lng - point.Lng) * (nextPt.Lat - point.Lat) -
        (nextPt.Lng - point.Lng) * (curPt.Lat - point.Lat) > -F_ZERO
    · dsimp only
      rw [if_pos hc]
      exact ⟨fun _ => Or.inl ⟨hbox, hc.1, hc.2⟩, fun _ => rfl⟩
    · dsimp only
      rw [if_neg hc]
      constructor
      · exact fun h => Or.inr h
      · rintro (⟨-, h1, h2⟩ | h)
        · exact absurd ⟨h1, h2⟩ hc
        · exact h
  · rw [if_neg hbox]
    constructor
    · exact fun h => Or.inr h
    · rintro (⟨h, -⟩ | h)
      · exact absurd h hbox
      · exact h

/-- The loop of `IsPointOnPolyline` answers `true` exactly when some consecutive pair
`(cur, next)` of the polyline has the point in its bounding box and a cross product strictly
between `-F_ZERO` and `F_ZERO`. -/
theorem IsPointOnPolyline.loop_iff (point : Point K) (pts : List (Point K)) :
    IsPointOnPolyline.loop point pts = true ↔
      ∃ s ∈ pts.zip pts.tail,
        (min s.1.Lng s.2.Lng ≤ point.Lng ∧ point.Lng ≤ max s.1.Lng s.2.Lng ∧
          min s.1.Lat s.2.Lat ≤ point.Lat ∧ point.Lat ≤ max s.1.Lat s.2.Lat) ∧
        (s.1.Lng - point.Lng) * (s.2.Lat - point.Lat) -
            (s.2.Lng - point.Lng) * (s.1.Lat - point.Lat) < F_ZERO ∧
          -F_ZERO < (s.1.Lng - point.Lng) * (s.2.Lat - point.Lat) -
            (s.2.Lng - point.Lng) * (s.1.Lat - point.Lat) := by
  induction pts with
  | nil => simp [IsPointOnPolyline.loop]
  | cons a t ih =>
    cases t with
    | nil => simp [IsPointOnPolyline.loop]
    | cons b rest =>
      rw [IsPointOnPolyline.loop_cons, ih]
      simp only [List.tail_cons, List.zip_cons_cons, List.mem_cons, exists_eq_or_imp]

/-- A point that the loop of `IsPointOnPolyline` accepts lies in the rectangle made of the
two scans of `GetBounds`: the bounding-box test of geo.go 163 would not reject it. -/
theorem IsPointOnPolyline.loop_inRect (point : Point K) (pts : List (Point K))
    (h : IsPointOnPolyline.loop point pts = true) :
    IsPointInRect point
      ⟨⟨(boundsScan Point.Lng pts).1, (boundsScan Point.Lat pts).1⟩,
        ⟨(boundsScan Point.Lng pts).2, (boundsScan Point.Lat pts).2⟩⟩ = true := by
  obtain ⟨s, hs, ⟨h1, h2, h3, h4⟩, -⟩ := (IsPointOnPolyline.loop_iff point pts).mp h
  have hm1 : s.1 ∈ pts := (List.of_mem_zip hs).1
  have hm2 : s.2 ∈ pts := List.mem_of_mem_tail (List.of_mem_zip hs).2
  have a1 := boundsScan_le Point.Lng pts s.1 hm1
  have a2 := boundsScan_le Point.Lng pts s.2 hm2
  have b1 := boundsScan_le Point.Lat pts s.1 hm1
  have b2 := boundsScan_le Point.Lat pts s.2 hm2
  simp only [IsPointInRect, decide_eq_true_eq, ge_iff_le]
  exact ⟨(le_min a1.1 a2.1).trans h1, h2.trans (max_le a1.2 a2.2),
    (le_min b1.1 b2.1).trans h3, h4.trans (max_le b1.2 b2.2)⟩

end OnPolyline

/-- C18: the point `(1, 1)` is the midpoint of the only segment of the polyline
`(0, 0), (2, 2)`: it is in the bounding box of the segment and the cross product is 0.  The
loop of `IsPointOnPolyline` accepts it, but `IsPointOnPolyline` panics in `GetBounds` and
returns no answer. -/
theorem IsPointOnPolyline_midpoint :
    IsPointOnPolyline.loop (⟨1, 1⟩ : Point ℚ) diagonal.Points = true ∧
      IsPointOnPolyline (⟨1, 1⟩ : Point ℚ) diagonal = .error .nilDereference := by
  refine ⟨?_, rfl⟩
  simp only [diagonal, IsPointOnPolyline.loop, F_ZERO]
  norm_num

/-! ## In-place correction of points -/

section InPlace

variable {K : Type} [LinearOrderedField K]

theorem Wraps.unique {v w1 w2 : K} (h1 : Wraps v w1) (h2 : Wraps v w2) : w1 = w2 := by
  obtain ⟨N1, hN1⟩ := h1
  obtain ⟨N2, hN2⟩ := h2
  have e1 := hN1 (max N1 N2) (le_max_left _ _)
  have e2 := hN2 (max N1 N2) (le_max_right _ _)
  rw [e1] at e2
  exact Option.some.inj e2

theorem Wraps.exists [Archimedean K] (v : K) :
    ∃ w : K, Wraps v w ∧ -180 ≤ w ∧ w ≤ 180 ∧ (∃ z : Int, w - v = z * 360) ∧
      (-180 ≤ v → v ≤ 180 → w = v) := by
  obtain ⟨N, w, hw, h1, h2, ⟨z, hz⟩, h3⟩ := getLoop_spec (-180 : K) 180 (by norm_num) v
  refine ⟨w, ⟨N, hw⟩, h1, h2, ⟨z, ?_⟩, h3⟩
  rw [hz]
  ring

theorem Wraps.idem [Archimedean K] {v w : K} (h : Wraps v w) : Wraps w w := by
  obtain ⟨w1, hw1, h1, h2, -, -⟩ := Wraps.exists v
  have e : w = w1 := Wraps.unique h hw1
  subst e
  obtain ⟨w2, hw2, -, -, -, h3⟩ := Wraps.exists w
  rw [h3 h1 h2] at hw2
  exact hw2

/-- The result of `GetDistance.onHeap` once the two longitude wraps have returned. -/
theorem GetDistance.onHeap_eq (m : MathPkg K) (fuel : Nat) (h : Heap K) (a b : Nat)
    (wa wb : K) (ha : getLoop fuel (h a).Lng (-180) 180 = some wa)
    (hb : getLoop fuel
      ((Function.update h a ⟨wa, getRange (h a).Lat (-74) 74⟩) b).Lng (-180) 180 = some wb) :
    GetDistance.onHeap m fuel h a b =
      some (EARTHRADIUS * m.Acos
          (m.Sin (DegreeToRad m ((Function.update (Function.update h a
                ⟨wa, getRange (h a).Lat (-74) 74⟩) b
                ⟨wb, getRange ((Function.update h a
                  ⟨wa, getRange (h a).Lat (-74) 74⟩) b).Lat (-74) 74⟩) a).Lat) *
              m.Sin (DegreeToRad m ((Function.update (Function.update h a
                ⟨wa, getRange (h a).Lat (-74) 74⟩) b
                ⟨wb, getRange ((Function.update h a
                  ⟨wa, getRange (h a).Lat (-74) 74⟩) b).Lat (-74) 74⟩) b).Lat) +
            m.Cos (DegreeToRad m ((Function.update (Function.update h a
                ⟨wa, getRange (h a).Lat (-74) 74⟩) b
                ⟨wb, getRange ((Function.update h a
                  ⟨wa, getRange (h a).Lat (-74) 74⟩) b).Lat (-74) 74⟩) a).Lat) *
              m.Cos (DegreeToRad m ((Function.update (Function.update h a
                ⟨wa, getRange (h a).Lat (-74) 74⟩) b
                ⟨wb, getRange ((Function.update h a
                  ⟨wa, getRange (h a).Lat (-74) 74⟩) b).Lat (-74) 74⟩) b).Lat) *
              m.Cos (DegreeToRad m ((Function.update (Function.update h a
                ⟨wa, getRange (h a).Lat (-74) 74⟩) b
                ⟨wb, getRange ((Function.update h a
                  ⟨wa, getRange (h a).Lat (-74) 74⟩) b).Lat (-74) 74⟩) b).Lng -
                DegreeToRad m ((Function.update (Function.update h a
                ⟨wa, getRange (h a).Lat (-74) 74⟩) b
                ⟨wb, getRange ((Function.update h a
                  ⟨wa, getRange (h a).Lat (-74) 74⟩) b).Lat (-74) 74⟩) a).Lng)),
        Function.update (Function.update h a ⟨wa, getRange (h a).Lat (-74) 74⟩) b
          ⟨wb, getRange ((Function.update h a
            ⟨wa, getRange (h a).Lat (-74) 74⟩) b).Lat (-74) 74⟩) := by
  have e1 : Function.update (Function.update h a { h a with Lng := wa }) a
      { (Function.update h a { h a with Lng := wa }) a with
        Lat := getRange ((Function.update h a { h a with Lng := wa }) a).Lat (-74) 74 } =
      Function.update h a ⟨wa, getRange (h a).Lat (-74) 74⟩ := by
    rw [Function.update_idem, Function.update_same]
  simp only [GetDistance.onHeap, ha, Option.pure_def, Option.bind_eq_bind, Option.some_bind]
  rw [e1]
  simp only [hb, Option.some_bind]
  have e2 : ∀ g : Heap K, Function.update (Function.update g b { g b with Lng := wb }) b
      { (Function.update g b { g b with Lng := wb }) b with
        Lat := getRange ((Function.update g b { g b with Lng := wb }) b).Lat (-74) 74 } =
      Function.update g b ⟨wb, getRange (g b).Lat (-74) 74⟩ := by
    intro g
    rw [Function.update_idem, Function.update_same]
  rw [e2]

theorem getRange_idem (v : K) : getRange (getRange v (-74) 74) (-74) 74 = getRange v (-74) 74 :=
  getRange_of_mem _ _ _ (getRange_mem v (-74) 74 (by norm_num)).1
    (getRange_mem v (-74) 74 (by norm_num)).2

theorem SameNormal.refl (h : Heap K) : SameNormal h h := fun _ => ⟨fun _ hw => hw, rfl⟩

/-- Correcting the point at one address keeps the wrapped longitudes and clamped latitudes. -/
theorem SameNormal.update [Archimedean K] {h0 h : Heap K} (hs : SameNormal h0 h) (a : Nat)
    {wa : K} (hwa : Wraps (h0 a).Lng wa) :
    SameNormal h0 (Function.update h a ⟨wa, getRange (h0 a).Lat (-74) 74⟩) := by
  intro c
  by_cases hc : c = a
  · subst hc
    rw [Function.update_same]
    refine ⟨fun w hw => ?_, getRange_idem _⟩
    have e : w = wa := Wraps.unique hw hwa
    subst e
    exact Wraps.idem hw
  · rw [Function.update_noteq hc]
    exact hs c

/-- On a heap with the wrapped longitudes and clamped latitudes of `h0`, a call of
`GetDistance` on the addresses `a` and `b` (equal or not) returns, from some amount of fuel
on, the value of line 83 on the corrected points of `h0`, and stores these two points. -/
theorem GetDistance.onHeap_spec [Archimedean K] (m : MathPkg K) {h0 h : Heap K}
    (hs : SameNormal h0 h) (a b : Nat) {wa wb : K} (hwa : Wraps (h0 a).Lng wa)
    (hwb : Wraps (h0 b).Lng wb) :
    ∃ N : Nat, ∀ fuel, N ≤ fuel →
      GetDistance.onHeap m fuel h a b =
        some (GetDistance.formula m ⟨wa, getRange (h0 a).Lat (-74) 74⟩
            ⟨wb, getRange (h0 b).Lat (-74) 74⟩,
          Function.update (Function.update h a ⟨wa, getRange (h0 a).Lat (-74) 74⟩) b
            ⟨wb, getRange (h0 b).Lat (-74) 74⟩) := by
  have hs1 := SameNormal.update hs a hwa
  obtain ⟨N1, hN1⟩ := (hs a).1 wa hwa
  obtain ⟨N2, hN2⟩ := (hs1 b).1 wb hwb
  refine ⟨max N1 N2, fun fuel hf => ?_⟩
  have ea : getRange (h a).Lat (-74) 74 = getRange (h0 a).Lat (-74) 74 := (hs a).2
  have e1 := hN1 fuel (le_trans (le_max_left _ _) hf)
  have e2 := hN2 fuel (le_trans (le_max_right _ _) hf)
  have eb := (hs1 b).2
  rw [← ea] at e2 eb
  rw [GetDistance.onHeap_eq m fuel h a b wa wb e1 e2, eb, ea]
  have hb2 : (Function.update (Function.update h a ⟨wa, getRange (h0 a).Lat (-74) 74⟩) b
      ⟨wb, getRange (h0 b).Lat (-74) 74⟩) b = ⟨wb, getRange (h0 b).Lat (-74) 74⟩ :=
    Function.update_same _ _ _
  have ha2 : (Function.update (Function.update h a ⟨wa, getRange (h0 a).Lat (-74) 74⟩) b
      ⟨wb, getRange (h0 b).Lat (-74) 74⟩) a = ⟨wa, getRange (h0 a).Lat (-74) 74⟩ := by
    by_cases hab : a = b
    · subst hab
      rw [Function.update_same, Wraps.unique hwa hwb]
    · rw [Function.update_noteq hab, Function.update_same]
  rw [ha2, hb2]
  rfl

/-- The value-level `GetDistance` in terms of `GetDistance.formula`. -/
theorem GetDistance_eq_formula (m : MathPkg K) (p q : Point K) {wp wq : K}
    (hp : Wraps p.Lng wp) (hq : Wraps q.Lng wq) :
    ∃ N : Nat, ∀ fuel, N ≤ fuel →
      GetDistance m fuel p q =
        some (GetDistance.formula m ⟨wp, getRange p.Lat (-74) 74⟩ ⟨wq, getRange q.Lat (-74) 74⟩,
          ⟨wp, getRange p.Lat (-74) 74⟩, ⟨wq, getRange q.Lat (-74) 74⟩) := by
  obtain ⟨N1, hN1⟩ := hp
  obtain ⟨N2, hN2⟩ := hq
  refine ⟨max N1 N2, fun fuel hf => ?_⟩
  rw [GetDistance_eq m fuel p q wp wq (hN1 fuel (le_trans (le_max_left _ _) hf))
    (hN2 fuel (le_trans (le_max_right _ _) hf))]
  rfl

/-- Loop of `GetPolylineDistance`: started on a heap with the wrapped longitudes and clamped
latitudes of `h0`, it adds to `totalDis` the sum of the pair distances taken on `h0`. -/
theorem GetPolylineDistance.loop_spec [Archimedean K] (m : MathPkg K) (h0 : Heap K)
    (pts : List Nat) :
    ∀ (h : Heap K) (acc : K), SameNormal h0 h →
      ∃ (N : Nat) (s : K) (h1 : Heap K), SameNormal h0 h1 ∧ ∀ fuel, N ≤ fuel →
        GetPolylineDistance.loop m fuel pts h acc = some (acc + s, h1) ∧
          polylineLengthSpec m fuel h0 pts = some s := by
  induction pts with
  | nil =>
    intro h acc hs
    exact ⟨0, 0, h, hs, fun fuel _ => by simp [GetPolylineDistance.loop, polylineLengthSpec]⟩
  | cons a t ih =>
    cases t with
    | nil =>
      intro h acc hs
      exact ⟨0, 0, h, hs, fun fuel _ => by simp [GetPolylineDistance.loop, polylineLengthSpec]⟩
    | cons b rest =>
      intro h acc hs
      obtain ⟨wa, hwa, -⟩ := Wraps.exists (h0 a).Lng
      obtain ⟨wb, hwb, -⟩ := Wraps.exists (h0 b).Lng
      obtain ⟨N1, hN1⟩ := GetDistance.onHeap_spec m hs a b hwa hwb
      obtain ⟨N2, hN2⟩ := GetDistance_eq_formula m (h0 a) (h0 b) hwa hwb
      have hs2 := SameNormal.update (SameNormal.update hs a hwa) b hwb
      obtain ⟨N3, s, h1, hs3, hN3⟩ := ih _
        (acc + GetDistance.formula m ⟨wa, getRange (h0 a).Lat (-74) 74⟩
          ⟨wb, getRange (h0 b).Lat (-74) 74⟩) hs2
      refine ⟨max N1 (max N2 N3), GetDistance.formula m ⟨wa, getRange (h0 a).Lat (-74) 74⟩
          ⟨wb, getRange (h0 b).Lat (-74) 74⟩ + s, h1, hs3, fun fuel hf => ?_⟩
      have f1 : N1 ≤ fuel := le_trans (le_max_left _ _) hf
      have f2 : N2 ≤ fuel := le_trans (le_trans (le_max_left _ _) (le_max_right _ _)) hf
      have f3 : N3 ≤ fuel := le_trans (le_trans (le_max_right _ _) (le_max_right _ _)) hf
      obtain ⟨e3, e4⟩ := hN3 fuel f3
      constructor
      · rw [GetPolylineDistance.loop]
        simp only [hN1 fuel f1, Option.bind_eq_bind, Option.some_bind]
        rw [e3, add_assoc]
      · rw [polylineLengthSpec]
        simp only [hN2 fuel f2, e4, Option.pure_def, Option.bind_eq_bind, Option.some_bind]

end InPlace

/-- C11: `GetDistance` on two pointers `a` and `b` (equal or not) returns, from some amount
of fuel on, a distance `d` and a heap `h1` such that: every other address keeps its point;
the points at `a` and `b` have a longitude in `[-180, 180]` that differs from the original
one by an integer multiple of 360, and the original latitude clamped into `[-74, 74]`; a
point that was inside both ranges is unchanged; a second call on `h1` returns `d` and leaves
`h1` as it is. -/
theorem GetDistance_inPlace (K : Type) [LinearOrderedField K] [Archimedean K] (m : MathPkg K)
    (h : Heap K) (a b : Nat) :
    ∃ (N : Nat) (d : K) (h1 : Heap K),
      (∀ fuel, N ≤ fuel → GetDistance.onHeap m fuel h a b = some (d, h1) ∧
        GetDistance.onHeap m fuel h1 a b = some (d, h1)) ∧
      (∀ c, c ≠ a → c ≠ b → h1 c = h c) ∧
      (∀ c, c = a ∨ c = b →
        (-180 ≤ (h1 c).Lng ∧ (h1 c).Lng ≤ 180 ∧ (∃ z : Int, (h1 c).Lng - (h c).Lng = z * 360) ∧
          (h1 c).Lat = max (-74) (min 74 (h c).Lat)) ∧
        (-180 ≤ (h c).Lng ∧ (h c).Lng ≤ 180 ∧ -74 ≤ (h c).Lat ∧ (h c).Lat ≤ 74 →
          h1 c = h c)) := by
  obtain ⟨wa, hwa, ha1, ha2, haz, ha3⟩ := Wraps.exists (h a).Lng
  obtain ⟨wb, hwb, hb1, hb2, hbz, hb3⟩ := Wraps.exists (h b).Lng
  have hs := SameNormal.refl h
  have hs2 := SameNormal.update (SameNormal.update hs a hwa) b hwb
  obtain ⟨N1, hN1⟩ := GetDistance.onHeap_spec m hs a b hwa hwb
  obtain ⟨N2, hN2⟩ := GetDistance.onHeap_spec m hs2 a b hwa hwb
  have hb' : (Function.update (Function.update h a ⟨wa, getRange (h a).Lat (-74) 74⟩) b
      ⟨wb, getRange (h b).Lat (-74) 74⟩) b = ⟨wb, getRange (h b).Lat (-74) 74⟩ :=
    Function.update_same _ _ _
  have ha' : (Function.update (Function.update h a ⟨wa, getRange (h a).Lat (-74) 74⟩) b
      ⟨wb, getRange (h b).Lat (-74) 74⟩) a = ⟨wa, getRange (h a).Lat (-74) 74⟩ := by
    by_cases hab : a = b
    · subst hab
      rw [Function.update_same, Wraps.unique hwa hwb]
    · rw [Function.update_noteq hab, Function.update_same]
  have hfix : Function.update (Function.update
      (Function.update (Function.update h a ⟨wa, getRange (h a).Lat (-74) 74⟩) b
        ⟨wb, getRange (h b).Lat (-74) 74⟩) a ⟨wa, getRange (h a).Lat (-74) 74⟩) b
        ⟨wb, getRange (h b).Lat (-74) 74⟩ =
      Function.update (Function.update h a ⟨wa, getRange (h a).Lat (-74) 74⟩) b
        ⟨wb, getRange (h b).Lat (-74) 74⟩ := by
    funext c
    by_cases hcb : c = b
    · subst hcb
      rw [Function.update_same, hb']
    · rw [Function.update_noteq hcb]
      by_cases hca : c = a
      · subst hca
        rw [Function.update_same, ha']
      · rw [Function.update_noteq hca]
  refine ⟨max N1 N2, _, _, fun fuel hf => ⟨hN1 fuel (le_trans (le_max_left _ _) hf), ?_⟩,
    ?_, ?_⟩
  · rw [hN2 fuel (le_trans (le_max_right _ _) hf), hfix]
  · intro c hca hcb
    rw [Function.update_noteq hcb, Function.update_noteq hca]
  · rintro c (rfl | rfl)
    · rw [ha']
      refine ⟨⟨ha1, ha2, haz, getRange_eq_clamp _⟩, fun hr => ?_⟩
      rw [ha3 hr.1 hr.2.1, getRange_of_mem _ _ _ hr.2.2.1 hr.2.2.2]
    · rw [hb']
      refine ⟨⟨hb1, hb2, hbz, getRange_eq_clamp _⟩, fun hr => ?_⟩
      rw [hb3 hr.1 hr.2.1, getRange_of_mem _ _ _ hr.2.2.1 hr.2.2.2]

/-- Witness for C11: over the reals, the addresses 0 and 1 of a heap that holds at every address
the point (lng 200, lat 80), which is outside both ranges. -/
theorem GetDistance_inPlace_witness :
    ∃ (N : Nat) (d : ℝ) (h1 : Heap ℝ),
      (∀ fuel, N ≤ fuel →
        GetDistance.onHeap ⟨Real.sin, Real.cos, Real.arccos, Real.sqrt, Real.pi⟩ fuel
          (fun _ => ⟨200, 80⟩) 0 1 = some (d, h1) ∧
        GetDistance.onHeap ⟨Real.sin, Real.cos, Real.arccos, Real.sqrt, Real.pi⟩ fuel h1 0 1 =
          some (d, h1)) ∧
      (∀ c, c ≠ 0 → c ≠ 1 → h1 c = ⟨200, 80⟩) ∧
      (∀ c, c = 0 ∨ c = 1 →
        (-180 ≤ (h1 c).Lng ∧ (h1 c).Lng ≤ 180 ∧ (∃ z : Int, (h1 c).Lng - 200 = z * 360) ∧
          (h1 c).Lat = max (-74) (min 74 80)) ∧
        (-180 ≤ (200 : ℝ) ∧ (200 : ℝ) ≤ 180 ∧ -74 ≤ (80 : ℝ) ∧ (80 : ℝ) ≤ 74 →
          h1 c = ⟨200, 80⟩)) :=
  GetDistance_inPlace ℝ ⟨Real.sin, Real.cos, Real.arccos, Real.sqrt, Real.pi⟩
    (fun _ => ⟨200, 80⟩) 0 1

/-- C13: `GetPolylineDistance` returns exactly 0, whatever the fuel, on fewer than 2 points;
on every list of pointers it returns, from some amount of fuel on, the sum over the
consecutive pairs of `GetDistance` taken on the points as they were stored before the call
(`polylineLengthSpec` on the initial heap), although every call corrects its two points in
place. -/
theorem GetPolylineDistance_sum (K : Type) [LinearOrderedField K] [Archimedean K]
    (m : MathPkg K) (h : Heap K) (pts : List Nat) :
    (pts.length < 2 → ∀ fuel, GetPolylineDistance m fuel h pts = some (0, h)) ∧
      ∃ (N : Nat) (total : K) (h1 : Heap K), ∀ fuel, N ≤ fuel →
        GetPolylineDistance m fuel h pts = some (total, h1) ∧
          polylineLengthSpec m fuel h pts = some total := by
  constructor
  · intro hlt fuel
    rw [GetPolylineDistance, if_pos hlt]
  · obtain ⟨N, s, h1, -, hN⟩ := GetPolylineDistance.loop_spec m h pts h 0 (SameNormal.refl h)
    by_cases hlt : pts.length < 2
    · refine ⟨N, 0, h, fun fuel hf => ⟨by rw [GetPolylineDistance, if_pos hlt], ?_⟩⟩
      match pts, hlt with
      | [], _ => rfl
      | [_], _ => rfl
    · refine ⟨N, s, h1, fun fuel hf => ?_⟩
      obtain ⟨e1, e2⟩ := hN fuel hf
      rw [GetPolylineDistance, if_neg hlt, e1, zero_add]
      exact ⟨rfl, e2⟩

/-- Witness for C13: over the reals, the addresses 0, 1, 2 of a heap that holds at the address
`c` the point (lng 100 c, lat 80). -/
theorem GetPolylineDistance_sum_witness :
    (([0, 1, 2] : List Nat).length < 2 → ∀ fuel,
        GetPolylineDistance ⟨Real.sin, Real.cos, Real.arccos, Real.sqrt, Real.pi⟩ fuel
          (fun c => ⟨(c : ℝ) * 100, 80⟩) [0, 1, 2] = some (0, fun c => ⟨(c : ℝ) * 100, 80⟩)) ∧
      ∃ (N : Nat) (total : ℝ) (h1 : Heap ℝ), ∀ fuel, N ≤ fuel →
        GetPolylineDistance ⟨Real.sin, Real.cos, Real.arccos, Real.sqrt, Real.pi⟩ fuel
          (fun c => ⟨(c : ℝ) * 100, 80⟩) [0, 1, 2] = some (total, h1) ∧
          polylineLengthSpec ⟨Real.sin, Real.cos, Real.arccos, Real.sqrt, Real.pi⟩ fuel
            (fun c => ⟨(c : ℝ) * 100, 80⟩) [0, 1, 2] = some total :=
  GetPolylineDistance_sum ℝ ⟨Real.sin, Real.cos, Real.arccos, Real.sqrt, Real.pi⟩
    (fun c => ⟨(c : ℝ) * 100, 80⟩) [0, 1, 2]

/-! ## Polygon area: the loop as a sum over the ring -/

section Area
variable {K : Type} [LinearOrderedField K]

theorem index_of_getElem? {K : Type} (pts : List (Point K)) (i : Nat) (p : Point K)
    (h : pts[i]? = some p) : index pts i = .ok p := by
  simp [index, h]

omit [LinearOrderedField K] in
theorem GetPolygonArea.length_triples (pts : List (Point K)) :
    (GetPolygonArea.triples pts).length = pts.length := by
  simp [GetPolygonArea.triples, List.length_zipWith, List.length_zip, List.length_rotate]

omit [LinearOrderedField K] in
/-- The triple of index `i`. -/
theorem GetPolygonArea.triples_getElem? (pts : List (Point K)) (i : Nat) (Low Middle High : Point K)
    (hi : i < pts.length)
    (hL : pts[(i + (pts.length - 1)) % pts.length]? = some Low) (hM : pts[i]? = some Middle)
    (hH : pts[(i + 1) % pts.length]? = some High) :
    (GetPolygonArea.triples pts)[i]? = some (Low, Middle, High) := by
  rw [GetPolygonArea.triples, List.getElem?_zipWith_eq_some]
  refine ⟨Low, (Middle, High), ?_, ?_, rfl⟩
  · rw [List.getElem?_rotate hi, hL]
  · rw [List.getElem?_zip_eq_some]
    exact ⟨hM, by rw [List.getElem?_rotate hi, hH]⟩

theorem GetPolygonArea.loop_eq (m : MathPkg K) (pts : List (Point K)) (hN : 2 ≤ pts.length)
    (k : Nat) :
    ∀ (i : Nat) (s : Option (K × K × K × K)), i + k = pts.length →
      GetPolygonArea.loop m pts pts.length k i s =
        .ok ((((GetPolygonArea.triples pts).drop i).map
          (fun t => GetPolygonArea.vertex m t.1 t.2.1 t.2.2)).foldl
            GetPolygonArea.accumulate s) := by
  induction k with
  | zero =>
    intro i s hik
    have : (GetPolygonArea.triples pts).drop i = [] := by
      apply List.drop_of_length_le
      rw [GetPolygonArea.length_triples]; omega
    rw [this]
    rfl
  | succ k ih =>
    intro i s hik
    have hi : i < pts.length := by omega
    obtain ⟨Middle, hM⟩ : ∃ p, pts[i]? = some p := ⟨pts[i], List.getElem?_eq_getElem hi⟩
    obtain ⟨Low, hL⟩ : ∃ p, pts[(i + (pts.length - 1)) % pts.length]? = some p :=
      ⟨_, List.getElem?_eq_getElem (Nat.mod_lt _ (by omega))⟩
    obtain ⟨High, hH⟩ : ∃ p, pts[(i + 1) % pts.length]? = some p :=
      ⟨_, List.getElem?_eq_getElem (Nat.mod_lt _ (by omega))⟩
    have ht := GetPolygonArea.triples_getElem? pts i Low Middle High hi hL hM hH
    have hd : (GetPolygonArea.triples pts).drop i =
        (Low, Middle, High) :: (GetPolygonArea.triples pts).drop (i + 1) := by
      have hi2 : i < (GetPolygonArea.triples pts).length := by
        rw [GetPolygonArea.length_triples]; exact hi
      rw [List.drop_eq_getElem_cons hi2]
      congr 1
      rw [List.getElem?_eq_getElem hi2] at ht
      exact Option.some.inj ht
    rw [hd, List.map_cons, List.foldl_cons, ← ih (i + 1) _ (by omega), GetPolygonArea.loop]
    by_cases h0 : i = 0
    · subst h0
      have e1 : (0 + (pts.length - 1)) % pts.length = pts.length - 1 := by
        rw [Nat.zero_add]; exact Nat.mod_eq_of_lt (by omega)
      have e2 : (0 + 1) % pts.length = 1 := Nat.mod_eq_of_lt (by omega)
      rw [e1] at hL
      rw [e2] at hH
      simp only [if_true, bind, Except.bind, pure, Except.pure,
        index_of_getElem? pts _ _ hL, index_of_getElem? pts _ _ hM, index_of_getElem? pts _ _ hH]
    · by_cases h1 : i = pts.length - 1
      · have e1 : (i + (pts.length - 1)) % pts.length = pts.length - 2 := by
          rw [h1]
          have : pts.length - 1 + (pts.length - 1) = pts.length - 2 + pts.length := by omega
          rw [this, Nat.add_mod_right]
          exact Nat.mod_eq_of_lt (by omega)
        have e2 : (i + 1) % pts.length = 0 := by
          rw [h1]
          have : pts.length - 1 + 1 = pts.length := by omega
          rw [this, Nat.mod_self]
        rw [e1] at hL
        rw [e2] at hH
        rw [h1] at hM
        have h0' : ¬ (pts.length - 1 = 0) := by omega
        simp only [h0', h1, if_true, if_false, bind, Except.bind, pure, Except.pure,
          index_of_getElem? pts _ _ hL, index_of_getElem? pts _ _ hM,
          index_of_getElem? pts _ _ hH]
      · have e1 : (i + (pts.length - 1)) % pts.length = i - 1 := by
          have : i + (pts.length - 1) = i - 1 + pts.length := by omega
          rw [this, Nat.add_mod_right]
          exact Nat.mod_eq_of_lt (by omega)
        have e2 : (i + 1) % pts.length = i + 1 := Nat.mod_eq_of_lt (by omega)
        rw [e1] at hL
        rw [e2] at hH
        simp only [h0, h1, if_false, bind, Except.bind, pure, Except.pure,
          index_of_getElem? pts _ _ hL, index_of_getElem? pts _ _ hM,
          index_of_getElem? pts _ _ hH]

/-- `GetPolygonArea` in terms of the sums over the triples of the ring. -/
theorem GetPolygonArea_eq (m : MathPkg K) (pts : List (Point K)) (hN : 3 ≤ pts.length) :
    GetPolygonArea m ⟨pts⟩ =
      .ok ((GetPolygonArea.sums m pts).map (GetPolygonArea.select m pts.length)) := by
  have hlt : ¬ pts.length < 3 := by omega
  simp only [GetPolygonArea, hlt, if_false, bind, Except.bind, pure, Except.pure,
    GetPolygonArea.loop_eq m pts (by omega) pts.length 0 _ (Nat.zero_add _), List.drop_zero]
  rfl

theorem GetPolygonArea_short (m : MathPkg K) (pts : List (Point K)) (hN : pts.length < 3) :
    GetPolygonArea m ⟨pts⟩ = .ok (some 0) := by
  simp only [GetPolygonArea, hN, if_true, bind, Except.bind, pure, Except.pure]

omit [LinearOrderedField K] in
theorem GetPolygonArea.triples_rotate (pts : List (Point K)) (k : Nat) :
    GetPolygonArea.triples (pts.rotate k) = (GetPolygonArea.triples pts).rotate k := by
  have hz : (List.zip pts (pts.rotate 1)).rotate k =
      List.zip (pts.rotate k) ((pts.rotate 1).rotate k) :=
    List.zipWith_rotate_distrib Prod.mk pts (pts.rotate 1) k (by rw [List.length_rotate])
  unfold GetPolygonArea.triples
  rw [List.zipWith_rotate_distrib _ _ _ _ (by simp [List.length_zip, List.length_rotate]), hz,
    List.length_rotate, List.rotate_rotate, List.rotate_rotate, List.rotate_rotate,
    List.rotate_rotate, Nat.add_comm k, Nat.add_comm k]

theorem GetPolygonArea.accumulate_none (s : Option (K × K × K × K)) :
    GetPolygonArea.accumulate s none = none := by
  cases s <;> rfl

theorem GetPolygonArea.accumulate_comm (s : Option (K × K × K × K)) (x y : Option (K × K)) :
    GetPolygonArea.accumulate (GetPolygonArea.accumulate s x) y =
      GetPolygonArea.accumulate (GetPolygonArea.accumulate s y) x := by
  rcases s with _ | ⟨S1, C1, S2, C2⟩
  · rfl
  rcases x with _ | ⟨ax, ox⟩
  · rw [GetPolygonArea.accumulate_none, GetPolygonArea.accumulate_none]
    rfl
  rcases y with _ | ⟨ay, oy⟩
  · rw [GetPolygonArea.accumulate_none, GetPolygonArea.accumulate_none]
    rfl
  simp only [GetPolygonArea.accumulate]
  by_cases hx : ox > 0 <;> by_cases hy : oy > 0 <;>
    simp only [hx, hy, if_true, if_false, add_right_comm]

theorem GetPolygonArea.sums_rotate (m : MathPkg K) (pts : List (Point K)) (k : Nat) :
    GetPolygonArea.sums m (pts.rotate k) = GetPolygonArea.sums m pts := by
  unfold GetPolygonArea.sums
  rw [GetPolygonArea.triples_rotate]
  exact List.Perm.foldl_eq' ((List.rotate_perm _ k).map _)
    (fun x _ y _ z => GetPolygonArea.accumulate_comm z x y) _

end Area

/-- In exact arithmetic, where the sums do not depend on the order of their terms,
`GetPolygonArea` of a point list rotated by `k` positions is `GetPolygonArea` of the list,
for every list and every `k`; on fewer than 3 points both are exactly 0. -/
theorem GetPolygonArea_rotate (K : Type) [LinearOrderedField K] (m : MathPkg K)
    (pts : List (Point K)) (k : Nat) :
    GetPolygonArea m ⟨pts.rotate k⟩ = GetPolygonArea m ⟨pts⟩ ∧
      (pts.length < 3 → GetPolygonArea m ⟨pts.rotate k⟩ = .ok (some 0) ∧
        GetPolygonArea m ⟨pts⟩ = .ok (some 0)) := by
  by_cases hN : pts.length < 3
  · have h1 := GetPolygonArea_short m (pts.rotate k) (by rw [List.length_rotate]; exact hN)
    have h2 := GetPolygonArea_short m pts hN
    exact ⟨h1.trans h2.symm, fun _ => ⟨h1, h2⟩⟩
  · refine ⟨?_, fun h => absurd h hN⟩
    rw [GetPolygonArea_eq m _ (by rw [List.length_rotate]; omega),
      GetPolygonArea_eq m pts (by omega), GetPolygonArea.sums_rotate, List.length_rotate]

/-! ## Polygon area: reversing the ring -/

section Reverse
variable {K : Type} [LinearOrderedField K]

/-- Exchanging `Low` and `High` keeps the angle and negates `OrientationValue`. -/
theorem GetPolygonArea.tangent_swap (m : MathPkg K) (AL BL CL AM BM CM AH BH CH : K) :
    GetPolygonArea.tangent m AH BH CH AM BM CM AL BL CL =
      (GetPolygonArea.tangent m AL BL CL AM BM CM AH BH CH).map (fun v => (v.1, -v.2)) := by
  unfold GetPolygonArea.tangent
  by_cases h1 : AM * AL + BM * BL + CM * CL = 0 ∨ AM * AH + BM * BH + CM * CH = 0
  · rw [if_pos h1, if_pos (Or.symm h1)]
    rfl
  · rw [if_neg h1, if_neg (fun h => h1 (Or.symm h))]
    dsimp only
    rw [mul_comm (m.Sqrt _) (m.Sqrt _)]
    split_ifs
    all_goals first
      | rfl
      | (simp only [Option.map_some', Option.some.injEq, Prod.mk.injEq]
         constructor
         · congr 2; ring
         · ring)

theorem GetPolygonArea.vertex_swap (m : MathPkg K) (Low Middle High : Point K) :
    GetPolygonArea.vertex m High Middle Low =
      (GetPolygonArea.vertex m Low Middle High).map (fun v => (v.1, -v.2)) :=
  GetPolygonArea.tangent_swap m _ _ _ _ _ _ _ _ _


omit [LinearOrderedField K] in
theorem zipWith_triple_swap (A B C : List (Point K)) :
    (List.zipWith (fun Low (MH : Point K × Point K) => (Low, MH.1, MH.2)) A (List.zip B C)).map
        (fun t => (t.2.2, t.2.1, t.1)) =
      List.zipWith (fun Low (MH : Point K × Point K) => (Low, MH.1, MH.2)) C (List.zip B A) := by
  induction A generalizing B C with
  | nil => cases B <;> cases C <;> simp
  | cons a A ih =>
    cases B with
    | nil => cases C <;> simp
    | cons b B =>
      cases C with
      | nil => simp
      | cons c C => simp [ih]

omit [LinearOrderedField K] in
/-- The triples of the reversed ring are the triples of the ring with `Low` and `High`
exchanged, in reverse order. -/
theorem GetPolygonArea.triples_reverse (pts : List (Point K)) (hN : 2 ≤ pts.length) :
    GetPolygonArea.triples pts.reverse =
      ((GetPolygonArea.triples pts).map (fun t => (t.2.2, t.2.1, t.1))).reverse := by
  have h1 : pts.reverse.rotate 1 = (pts.rotate (pts.length - 1)).reverse := by
    rw [List.rotate_reverse, Nat.mod_eq_of_lt (by omega)]
  have h2 : pts.reverse.rotate (pts.length - 1) = (pts.rotate 1).reverse := by
    rw [List.rotate_reverse, Nat.mod_eq_of_lt (by omega)]
    congr 2
    omega
  have hz : List.zip pts.reverse (pts.rotate (pts.length - 1)).reverse =
      (List.zip pts (pts.rotate (pts.length - 1))).reverse :=
    (List.reverse_zipWith (by rw [List.length_rotate])).symm
  unfold GetPolygonArea.triples
  rw [List.length_reverse, h1, h2, hz, ← List.reverse_zipWith
    (by simp [List.length_zip, List.length_rotate]), zipWith_triple_swap]

/-- The sums with `Sum1`/`Count1` and `Sum2`/`Count2` exchanged. -/
theorem GetPolygonArea.accumulate_neg (s : K × K × K × K) (a o : K) (ho : o ≠ 0) :
    GetPolygonArea.accumulate (some s) (some (a, -o)) =
      (GetPolygonArea.accumulate (some (s.2.2.1, s.2.2.2, s.1, s.2.1)) (some (a, o))).map
        (fun r => (r.2.2.1, r.2.2.2, r.1, r.2.1)) := by
  obtain ⟨S1, C1, S2, C2⟩ := s
  simp only [GetPolygonArea.accumulate]
  rcases lt_or_gt_of_ne ho with h | h
  · have h1 : -o > 0 := neg_pos.mpr h
    have h2 : ¬ o > 0 := not_lt.mpr h.le
    simp only [h1, h2, if_true, if_false, Option.map_some']
  · have h1 : ¬ -o > 0 := not_lt.mpr (neg_nonpos.mpr h.le)
    simp only [h1, h, if_true, if_false, Option.map_some']

theorem GetPolygonArea.foldl_neg (vs : List (Option (K × K)))
    (ho : ∀ v ∈ vs, ∀ a o, v = some (a, o) → o ≠ 0) :
    ∀ s : Option (K × K × K × K),
      (vs.map (Option.map (fun v => (v.1, -v.2)))).foldl GetPolygonArea.accumulate s =
        (vs.foldl GetPolygonArea.accumulate
          (s.map (fun r => (r.2.2.1, r.2.2.2, r.1, r.2.1)))).map
          (fun r => (r.2.2.1, r.2.2.2, r.1, r.2.1)) := by
  induction vs with
  | nil =>
    intro s
    cases s <;> rfl
  | cons v vs ih =>
    intro s
    rw [List.map_cons, List.foldl_cons, List.foldl_cons,
      ih (fun w hw => ho w (List.mem_cons_of_mem _ hw))]
    congr 2
    rcases s with _ | s
    · rfl
    rcases v with _ | ⟨a, o⟩
    · rfl
    · rw [Option.map_some', GetPolygonArea.accumulate_neg s a o
        (ho _ (List.mem_cons_self _ _) a o rfl), Option.map_map, Option.map_some']
      simp only [Function.comp_def, Option.map_id']

/-- The choice of `GetPolygonArea` does not change when the two sums and the two counts are
exchanged, as long as the sums differ. -/
theorem GetPolygonArea.select_swap (m : MathPkg K) (Count : Nat) (S1 C1 S2 C2 : K)
    (hne : S1 ≠ S2) :
    GetPolygonArea.select m Count (S2, C2, S1, C1) =
      GetPolygonArea.select m Count (S1, C1, S2, C2) := by
  simp only [GetPolygonArea.select]
  have e1 : S2 + (2 * m.Pi * C1 - S1) = 2 * m.Pi * C1 - S1 + S2 := by ring
  have e2 : 2 * m.Pi * C2 - S2 + S1 = S1 + (2 * m.Pi * C2 - S2) := by ring
  rw [e1, e2]
  rcases lt_or_gt_of_ne hne with h | h
  · rw [if_pos h, if_neg (not_lt.mpr h.le)]
  · rw [if_neg (not_lt.mpr h.le), if_pos h]

end Reverse

/-! ## Polygon area on unit vectors -/

/-- Lines 373-392 of `GetPolygonArea` on three unit vectors with `M · L > 0`, `M · H > 0` and
neither `L` nor `H` equal to `M`: the angle is the arc cosine of
`(L · H - (M · H)(M · L)) / (√(1 - (M · H)²) √(1 - (M · L)²))` and `OrientationValue` is
`M · (H × L) / ((M · H)(M · L))`. -/
theorem GetPolygonArea.tangent_unit (AL BL CL AM BM CM AH BH CH zl zh : ℝ)
    (uM : AM * AM + BM * BM + CM * CM = 1) (uL : AL * AL + BL * BL + CL * CL = 1)
    (uH : AH * AH + BH * BH + CH * CH = 1)
    (hzl : AM * AL + BM * BL + CM * CL = zl) (hzh : AM * AH + BM * BH + CM * CH = zh)
    (zlpos : 0 < zl) (zhpos : 0 < zh) (pl : zl ^ 2 < 1) (ph : zh ^ 2 < 1) :
    GetPolygonArea.tangent ⟨Real.sin, Real.cos, Real.arccos, Real.sqrt, Real.pi⟩
        AL BL CL AM BM CM AH BH CH =
      some (Real.arccos ((AH * AL + BH * BL + CH * CL - zh * zl) /
          (Real.sqrt (1 - zh ^ 2) * Real.sqrt (1 - zl ^ 2))),
        (AM * (BH * CL - CH * BL) + BM * (CH * AL - AH * CL) + CM * (AH * BL - BH * AL)) /
          (zh * zl)) := by
  have hl0 : zl ≠ 0 := ne_of_gt zlpos
  have hh0 : zh ≠ 0 := ne_of_gt zhpos
  have sl : 0 < Real.sqrt (1 - zl ^ 2) := Real.sqrt_pos.mpr (by linarith)
  have sh : 0 < Real.sqrt (1 - zh ^ 2) := Real.sqrt_pos.mpr (by linarith)
  have kLL : (AL - zl * AM) ^ 2 + (BL - zl * BM) ^ 2 + (CL - zl * CM) ^ 2 = 1 - zl ^ 2 := by
    linear_combination uL - 2 * zl * hzl + zl ^ 2 * uM
  have kHH : (AH - zh * AM) ^ 2 + (BH - zh * BM) ^ 2 + (CH - zh * CM) ^ 2 = 1 - zh ^ 2 := by
    linear_combination uH - 2 * zh * hzh + zh ^ 2 * uM
  have kHL : (AH - zh * AM) * (AL - zl * AM) + (BH - zh * BM) * (BL - zl * BM) +
      (CH - zh * CM) * (CL - zl * CM) = AH * AL + BH * BL + CH * CL - zh * zl := by
    linear_combination (-zh) * hzl - zl * hzh + zh * zl * uM
  have eLL : (1 / zl * AL - AM) * (1 / zl * AL - AM) + (1 / zl * BL - BM) * (1 / zl * BL - BM) +
      (1 / zl * CL - CM) * (1 / zl * CL - CM) = (1 - zl ^ 2) / zl ^ 2 := by
    rw [eq_div_iff (pow_ne_zero 2 hl0), ← kLL]
    field_simp
    ring
  have eHH : (1 / zh * AH - AM) * (1 / zh * AH - AM) + (1 / zh * BH - BM) * (1 / zh * BH - BM) +
      (1 / zh * CH - CM) * (1 / zh * CH - CM) = (1 - zh ^ 2) / zh ^ 2 := by
    rw [eq_div_iff (pow_ne_zero 2 hh0), ← kHH]
    field_simp
    ring
  have eHL : (1 / zh * AH - AM) * (1 / zl * AL - AM) + (1 / zh * BH - BM) * (1 / zl * BL - BM) +
      (1 / zh * CH - CM) * (1 / zl * CL - CM) =
      (AH * AL + BH * BL + CH * CL - zh * zl) / (zh * zl) := by
    rw [eq_div_iff (mul_ne_zero hh0 hl0), ← kHL]
    field_simp
  have sLL : Real.sqrt ((1 - zl ^ 2) / zl ^ 2) = Real.sqrt (1 - zl ^ 2) / zl := by
    rw [Real.sqrt_div (by linarith), Real.sqrt_sq zlpos.le]
  have sHH : Real.sqrt ((1 - zh ^ 2) / zh ^ 2) = Real.sqrt (1 - zh ^ 2) / zh := by
    rw [Real.sqrt_div (by linarith), Real.sqrt_sq zhpos.le]
  have kA : (BH - zh * BM) * (CL - zl * CM) - (CH - zh * CM) * (BL - zl * BM) =
      (AM * (BH * CL - CH * BL) + BM * (CH * AL - AH * CL) + CM * (AH * BL - BH * AL)) * AM := by
    linear_combination (-(BH * CL - CH * BL)) * uM + (BH * CM - CH * BM) * hzl +
      (BM * CL - CM * BL) * hzh
  have kB : 0 - ((AH - zh * AM) * (CL - zl * CM) - (CH - zh * CM) * (AL - zl * AM)) =
      (AM * (BH * CL - CH * BL) + BM * (CH * AL - AH * CL) + CM * (AH * BL - BH * AL)) * BM := by
    linear_combination (-(CH * AL - AH * CL)) * uM + (CH * AM - AH * CM) * hzl +
      (CM * AL - AM * CL) * hzh
  have kC : (AH - zh * AM) * (BL - zl * BM) - (BH - zh * BM) * (AL - zl * AM) =
      (AM * (BH * CL - CH * BL) + BM * (CH * AL - AH * CL) + CM * (AH * BL - BH * AL)) * CM := by
    linear_combination (-(AH * BL - BH * AL)) * uM + (AH * BM - BH * AM) * hzl +
      (AM * BL - BM * AL) * hzh
  have eA : (1 / zh * BH - BM) * (1 / zl * CL - CM) - (1 / zh * CH - CM) * (1 / zl * BL - BM) =
      (AM * (BH * CL - CH * BL) + BM * (CH * AL - AH * CL) + CM * (AH * BL - BH * AL)) * AM /
          (zh * zl) := by
    rw [eq_div_iff (mul_ne_zero hh0 hl0), ← kA]
    field_simp
  have eB : 0 - ((1 / zh * AH - AM) * (1 / zl * CL - CM) -
      (1 / zh * CH - CM) * (1 / zl * AL - AM)) =
      (AM * (BH * CL - CH * BL) + BM * (CH * AL - AH * CL) + CM * (AH * BL - BH * AL)) * BM /
          (zh * zl) := by
    rw [eq_div_iff (mul_ne_zero hh0 hl0), ← kB]
    field_simp
  have eC : (1 / zh * AH - AM) * (1 / zl * BL - BM) - (1 / zh * BH - BM) * (1 / zl * AL - AM) =
      (AM * (BH * CL - CH * BL) + BM * (CH * AL - AH * CL) + CM * (AH * BL - BH * AL)) * CM /
          (zh * zl) := by
    rw [eq_div_iff (mul_ne_zero hh0 hl0), ← kC]
    field_simp
  have hden : Real.sqrt (1 - zh ^ 2) / zh * (Real.sqrt (1 - zl ^ 2) / zl) ≠ 0 :=
    mul_ne_zero (div_ne_zero sh.ne' hh0) (div_ne_zero sl.ne' hl0)
  have hcos : (AH * AL + BH * BL + CH * CL - zh * zl) / (zh * zl) /
      (Real.sqrt (1 - zh ^ 2) / zh * (Real.sqrt (1 - zl ^ 2) / zl)) =
      (AH * AL + BH * BL + CH * CL - zh * zl) /
        (Real.sqrt (1 - zh ^ 2) * Real.sqrt (1 - zl ^ 2)) := by
    field_simp
  unfold GetPolygonArea.tangent
  rw [hzl, hzh, uM, if_neg (not_or.mpr ⟨hl0, hh0⟩)]
  dsimp only
  rw [eLL, eHH, eHL, sLL, sHH, if_neg hden, hcos, eA, eB, eC]
  have fin : ∀ d c : ℝ, c ≠ 0 → d * c / (zh * zl) / c = d / (zh * zl) := by
    intro d c hc
    field_simp
    ring
  by_cases hA : AM = 0
  · by_cases hB : BM = 0
    · have hC : CM ≠ 0 := by
        intro hC
        rw [hA, hB, hC] at uM
        norm_num at uM
      rw [if_neg (not_not.mpr hA), if_neg (not_not.mpr hB), if_pos hC, fin _ _ hC]
    · rw [if_neg (not_not.mpr hA), if_pos hB, fin _ _ hB]
  · rw [if_pos hA, fin _ _ hA]

/-! ## Polygon area: the vertex computation as a spherical angle -/


/-- The vertex computation is the tangent computation on the Cartesian coordinates. -/
theorem vertex_eq_tangent {K : Type} [LinearOrderedField K] (m : MathPkg K)
    (Low Middle High : Point K) :
    GetPolygonArea.vertex m Low Middle High =
      GetPolygonArea.tangent m (cartesian m Low).1 (cartesian m Low).2.1 (cartesian m Low).2.2
        (cartesian m Middle).1 (cartesian m Middle).2.1 (cartesian m Middle).2.2
        (cartesian m High).1 (cartesian m High).2.1 (cartesian m High).2.2 := rfl

/-- The Cartesian coordinates computed with the real sine and cosine are a unit vector. -/
theorem cartesian_unit (p : Point ℝ) :
    dot3 (cartesian ⟨Real.sin, Real.cos, Real.arccos, Real.sqrt, Real.pi⟩ p)
      (cartesian ⟨Real.sin, Real.cos, Real.arccos, Real.sqrt, Real.pi⟩ p) = 1 := by
  simp only [dot3, cartesian]
  have h1 := Real.sin_sq_add_cos_sq (p.Lat * Real.pi / 180)
  have h2 := Real.sin_sq_add_cos_sq (p.Lng * Real.pi / 180)
  linear_combination h1 + (Real.cos (p.Lat * Real.pi / 180)) ^ 2 * h2

/-- Gram determinant of three unit vectors. -/
theorem det3_sq (u v w : ℝ × ℝ × ℝ) (hu : dot3 u u = 1) (hv : dot3 v v = 1)
    (hw : dot3 w w = 1) :
    det3 u v w ^ 2 = 1 + 2 * dot3 u v * dot3 v w * dot3 u w - dot3 u v ^ 2 - dot3 v w ^ 2 -
      dot3 u w ^ 2 := by
  have key : det3 u v w ^ 2 = dot3 u u * dot3 v v * dot3 w w +
      2 * dot3 u v * dot3 v w * dot3 u w - dot3 u u * dot3 v w ^ 2 - dot3 v v * dot3 u w ^ 2 -
      dot3 w w * dot3 u v ^ 2 := by
    simp only [det3, dot3]
    ring
  rw [key, hu, hv, hw]
  ring

/-- The inner product is symmetric. -/
theorem dot3_comm {K : Type} [LinearOrderedField K] (u v : K × K × K) :
    dot3 u v = dot3 v u := by
  simp only [dot3]
  ring

/-- Two unit vectors have an inner product of square at most 1. -/
theorem dot3_sq_le (u v : ℝ × ℝ × ℝ) (hu : dot3 u u = 1) (hv : dot3 v v = 1) :
    dot3 u v ^ 2 ≤ 1 := by
  have key : dot3 u u * dot3 v v - dot3 u v ^ 2 =
      (u.1 * v.2.1 - u.2.1 * v.1) ^ 2 + (u.1 * v.2.2 - u.2.2 * v.1) ^ 2 +
        (u.2.1 * v.2.2 - u.2.2 * v.2.1) ^ 2 := by
    simp only [dot3]
    ring
  rw [hu, hv] at key
  nlinarith [sq_nonneg (u.1 * v.2.1 - u.2.1 * v.1), sq_nonneg (u.1 * v.2.2 - u.2.2 * v.1),
    sq_nonneg (u.2.1 * v.2.2 - u.2.2 * v.2.1)]

/-- Three unit vectors that are not on one great circle are pairwise different: every inner
product has a square below 1. -/
theorem dot3_sq_lt (u v w : ℝ × ℝ × ℝ) (hu : dot3 u u = 1) (hv : dot3 v v = 1)
    (hw : dot3 w w = 1) (hdet : det3 u v w ≠ 0) : dot3 u v ^ 2 < 1 := by
  have hG := det3_sq u v w hu hv hw
  have hpos : 0 < det3 u v w ^ 2 := by positivity
  have h1 := dot3_sq_le u v hu hv
  have h2 := dot3_sq_le u w hu hw
  rcases lt_or_eq_of_le h1 with h | h
  · exact h
  · exfalso
    have e : (1 - dot3 u v ^ 2) * (1 - dot3 u w ^ 2) =
        det3 u v w ^ 2 + (dot3 v w - dot3 u v * dot3 u w) ^ 2 := by
      rw [hG]; ring
    rw [h] at e
    nlinarith [sq_nonneg (dot3 v w - dot3 u v * dot3 u w)]

/-- The spherical angle on unit vectors, in terms of the three inner products. -/
theorem sphericalAngle_unit (M L H : ℝ × ℝ × ℝ) (hM : dot3 M M = 1) (hL : dot3 L L = 1)
    (hH : dot3 H H = 1) :
    sphericalAngle ⟨Real.sin, Real.cos, Real.arccos, Real.sqrt, Real.pi⟩ M L H =
      Real.arccos ((dot3 L H - dot3 M H * dot3 M L) /
        (Real.sqrt (1 - dot3 M H ^ 2) * Real.sqrt (1 - dot3 M L ^ 2))) := by
  have e1 : dot3 (L.1 - dot3 M L * M.1, L.2.1 - dot3 M L * M.2.1, L.2.2 - dot3 M L * M.2.2)
      (H.1 - dot3 M H * M.1, H.2.1 - dot3 M H * M.2.1, H.2.2 - dot3 M H * M.2.2) =
      dot3 L H - dot3 M H * dot3 M L := by
    have : dot3 (L.1 - dot3 M L * M.1, L.2.1 - dot3 M L * M.2.1, L.2.2 - dot3 M L * M.2.2)
      (H.1 - dot3 M H * M.1, H.2.1 - dot3 M H * M.2.1, H.2.2 - dot3 M H * M.2.2) =
      dot3 L H - 2 * dot3 M H * dot3 M L + dot3 M H * dot3 M L * dot3 M M := by
      simp only [dot3]
      ring
    rw [this, hM]; ring
  have e2 : ∀ X : ℝ × ℝ × ℝ, dot3 X X = 1 →
      dot3 (X.1 - dot3 M X * M.1, X.2.1 - dot3 M X * M.2.1, X.2.2 - dot3 M X * M.2.2)
      (X.1 - dot3 M X * M.1, X.2.1 - dot3 M X * M.2.1, X.2.2 - dot3 M X * M.2.2) =
      1 - dot3 M X ^ 2 := by
    intro X hX
    have : dot3 (X.1 - dot3 M X * M.1, X.2.1 - dot3 M X * M.2.1, X.2.2 - dot3 M X * M.2.2)
      (X.1 - dot3 M X * M.1, X.2.1 - dot3 M X * M.2.1, X.2.2 - dot3 M X * M.2.2) =
      dot3 X X - 2 * dot3 M X ^ 2 + dot3 M X ^ 2 * dot3 M M := by
      simp only [dot3]
      ring
    rw [this, hM, hX]; ring
  simp only [sphericalAngle]
  rw [e1, e2 L hL, e2 H hH, mul_comm (Real.sqrt (1 - dot3 M L ^ 2))]

/-- The vertex computation of `GetPolygonArea` with the real functions, for a vertex less
than 90 degrees away from both neighbours and different from them: the angle is the spherical
angle and `OrientationValue` is `M · (H × L) / ((M · H)(M · L))`. -/
theorem GetPolygonArea.vertex_unit (Low Middle High : Point ℝ)
    (zl : 0 < dot3 (cartesian ⟨Real.sin, Real.cos, Real.arccos, Real.sqrt, Real.pi⟩ Middle)
      (cartesian ⟨Real.sin, Real.cos, Real.arccos, Real.sqrt, Real.pi⟩ Low))
    (zh : 0 < dot3 (cartesian ⟨Real.sin, Real.cos, Real.arccos, Real.sqrt, Real.pi⟩ Middle)
      (cartesian ⟨Real.sin, Real.cos, Real.arccos, Real.sqrt, Real.pi⟩ High))
    (pl : dot3 (cartesian ⟨Real.sin, Real.cos, Real.arccos, Real.sqrt, Real.pi⟩ Middle)
      (cartesian ⟨Real.sin, Real.cos, Real.arccos, Real.sqrt, Real.pi⟩ Low) ^ 2 < 1)
    (ph : dot3 (cartesian ⟨Real.sin, Real.cos, Real.arccos, Real.sqrt, Real.pi⟩ Middle)
      (cartesian ⟨Real.sin, Real.cos, Real.arccos, Real.sqrt, Real.pi⟩ High) ^ 2 < 1) :
    GetPolygonArea.vertex ⟨Real.sin, Real.cos, Real.arccos, Real.sqrt, Real.pi⟩
        Low Middle High =
      some (sphericalAngle ⟨Real.sin, Real.cos, Real.arccos, Real.sqrt, Real.pi⟩
          (cartesian ⟨Real.sin, Real.cos, Real.arccos, Real.sqrt, Real.pi⟩ Middle)
          (cartesian ⟨Real.sin, Real.cos, Real.arccos, Real.sqrt, Real.pi⟩ Low)
          (cartesian ⟨Real.sin, Real.cos, Real.arccos, Real.sqrt, Real.pi⟩ High),
        det3 (cartesian ⟨Real.sin, Real.cos, Real.arccos, Real.sqrt, Real.pi⟩ Middle)
            (cartesian ⟨Real.sin, Real.cos, Real.arccos, Real.sqrt, Real.pi⟩ High)
            (cartesian ⟨Real.sin, Real.cos, Real.arccos, Real.sqrt, Real.pi⟩ Low) /
          (dot3 (cartesian ⟨Real.sin, Real.cos, Real.arccos, Real.sqrt, Real.pi⟩ Middle)
              (cartesian ⟨Real.sin, Real.cos, Real.arccos, Real.sqrt, Real.pi⟩ High) *
            dot3 (cartesian ⟨Real.sin, Real.cos, Real.arccos, Real.sqrt, Real.pi⟩ Middle)
              (cartesian ⟨Real.sin, Real.cos, Real.arccos, Real.sqrt, Real.pi⟩ Low))) := by
  have uM := cartesian_unit Middle
  have uL := cartesian_unit Low
  have uH := cartesian_unit High
  rw [vertex_eq_tangent, sphericalAngle_unit _ _ _ uM uL uH]
  rw [GetPolygonArea.tangent_unit _ _ _ _ _ _ _ _ _ _ _ uM uL uH rfl rfl zl zh pl ph]
  simp only [dot3, det3]
  congr 3
  ring

/-- The spherical angle does not depend on the order of the two arcs. -/
theorem sphericalAngle_comm {K : Type} [LinearOrderedField K] (m : MathPkg K)
    (M L H : K × K × K) : sphericalAngle m M L H = sphericalAngle m M H L := by
  simp only [sphericalAngle]
  rw [dot3_comm, mul_comm (m.Sqrt _)]

/-- A spherical angle computed with the real arc cosine is not negative. -/
theorem sphericalAngle_nonneg (M L H : ℝ × ℝ × ℝ) :
    0 ≤ sphericalAngle ⟨Real.sin, Real.cos, Real.arccos, Real.sqrt, Real.pi⟩ M L H :=
  Real.arccos_nonneg _

/-- The triple product is invariant under a cyclic shift of its arguments. -/
theorem det3_rotate {K : Type} [LinearOrderedField K] (u v w : K × K × K) :
    det3 v w u = det3 u v w := by
  simp only [det3]
  ring

/-- The triple product changes sign when the outer arguments are exchanged. -/
theorem det3_swap {K : Type} [LinearOrderedField K] (u v w : K × K × K) :
    det3 w v u = -det3 u v w := by
  simp only [det3]
  ring

/-- The choice of `GetPolygonArea` for a triangle whose three angles all went to the same
sum: the area is the angle sum less `π`, times the square of the radius, when that excess is
below 1. -/
theorem GetPolygonArea.select_triangle (S : ℝ) (hS : 0 ≤ S) (hex : S - Real.pi < 1) :
    GetPolygonArea.select ⟨Real.sin, Real.cos, Real.arccos, Real.sqrt, Real.pi⟩ 3
        (S, 3, 0, 0) = (S - Real.pi) * EARTHRADIUS * EARTHRADIUS ∧
      GetPolygonArea.select ⟨Real.sin, Real.cos, Real.arccos, Real.sqrt, Real.pi⟩ 3
        (0, 0, S, 3) = (S - Real.pi) * EARTHRADIUS * EARTHRADIUS := by
  have hpi := Real.pi_gt_three
  have c1 : ((3 - 2 : ℕ) : ℝ) = 1 := by norm_num
  constructor
  · simp only [GetPolygonArea.select, c1, one_mul, mul_zero, sub_zero, zero_sub, add_zero]
    by_cases h : S > 0
    · rw [if_pos h, if_pos hex]
    · have hS0 : S = 0 := le_antisymm (not_lt.mp h) hS
      have h2 : ¬ (2 * Real.pi * 3 - S + 0 - Real.pi < 1) := by
        rw [hS0]; intro hc; linarith
      rw [if_neg h]
      simp only [add_zero] at h2 ⊢
      rw [if_neg h2]
  · simp only [GetPolygonArea.select, c1, one_mul, mul_zero, sub_zero, zero_sub, zero_add,
      add_zero]
    have h : ¬ (0 > S) := not_lt.mpr hS
    rw [if_neg h]
    have h2 : -0 + S - Real.pi < 1 := by linarith
    simp only [neg_zero, zero_add] at h2 ⊢
    rw [if_pos h2]

/-- The three (Low, Middle, High) triples the loop visits on a triangle. -/
theorem GetPolygonArea.triples_three {K : Type} [LinearOrderedField K] (A B C : Point K) :
    GetPolygonArea.triples [A, B, C] = [(C, A, B), (A, B, C), (B, C, A)] := by
  simp [GetPolygonArea.triples, List.rotate, List.splitAt, List.splitAt.go]

/-- The four (Low, Middle, High) triples the loop visits on a quadrilateral. -/
theorem GetPolygonArea.triples_four {K : Type} [LinearOrderedField K] (A B C D : Point K) :
    GetPolygonArea.triples [A, B, C, D] =
      [(D, A, B), (A, B, C), (B, C, D), (C, D, A)] := by
  simp [GetPolygonArea.triples, List.rotate, List.splitAt, List.splitAt.go]

/-- Reversing the vertex list exchanges the two angle sums of `GetPolygonArea`, when no
vertex has `OrientationValue` 0. -/
theorem GetPolygonArea.sums_reverse {K : Type} [LinearOrderedField K] (m : MathPkg K)
    (pts : List (Point K)) (hN : 2 ≤ pts.length)
    (ho : ∀ t ∈ GetPolygonArea.triples pts, ∀ a o,
      GetPolygonArea.vertex m t.1 t.2.1 t.2.2 = some (a, o) → o ≠ 0) :
    GetPolygonArea.sums m pts.reverse =
      (GetPolygonArea.sums m pts).map (fun r => (r.2.2.1, r.2.2.2, r.1, r.2.1)) := by
  unfold GetPolygonArea.sums
  rw [GetPolygonArea.triples_reverse pts hN, List.map_reverse]
  rw [List.Perm.foldl_eq' (List.reverse_perm _)
    (fun x _ y _ z => GetPolygonArea.accumulate_comm z x y), List.map_map]
  have hmap : (fun t : Point K × Point K × Point K => GetPolygonArea.vertex m t.1 t.2.1 t.2.2) ∘
      (fun t : Point K × Point K × Point K => (t.2.2, t.2.1, t.1)) =
      (Option.map (fun v : K × K => (v.1, -v.2))) ∘
        (fun t : Point K × Point K × Point K => GetPolygonArea.vertex m t.1 t.2.1 t.2.2) := by
    funext t
    exact GetPolygonArea.vertex_swap m t.1 t.2.1 t.2.2
  have hf : (fun (z : Option (K × K × K × K)) (x : Option (K × K)) =>
      GetPolygonArea.accumulate z x) = GetPolygonArea.accumulate := rfl
  rw [hf, hmap, ← List.map_map, GetPolygonArea.foldl_neg]
  · rfl
  · intro v hv a o hvo
    obtain ⟨t, ht, rfl⟩ := List.mem_map.mp hv
    exact ho t ht a o hvo

/-! ## Polygon area of a triangle: spherical excess -/

/-- The sums of `GetPolygonArea` on a triangle whose three vertices have a positive
`OrientationValue`. -/
theorem GetPolygonArea.sums_three_pos {K : Type} [LinearOrderedField K] (m : MathPkg K)
    (A B C : Point K) (a1 o1 a2 o2 a3 o3 : K)
    (v1 : GetPolygonArea.vertex m C A B = some (a1, o1))
    (v2 : GetPolygonArea.vertex m A B C = some (a2, o2))
    (v3 : GetPolygonArea.vertex m B C A = some (a3, o3))
    (h1 : o1 > 0) (h2 : o2 > 0) (h3 : o3 > 0) :
    GetPolygonArea.sums m [A, B, C] = some (a1 + a2 + a3, 3, 0, 0) := by
  have c3 : (1 : K) + 1 + 1 = 3 := by norm_num
  simp only [GetPolygonArea.sums, GetPolygonArea.triples_three, List.map_cons, List.map_nil,
    List.foldl_cons, List.foldl_nil, v1, v2, v3, GetPolygonArea.accumulate, h1, h2, h3,
    if_true, c3, zero_add]

/-- The sums of `GetPolygonArea` on a triangle none of whose vertices has a positive
`OrientationValue`. -/
theorem GetPolygonArea.sums_three_neg {K : Type} [LinearOrderedField K] (m : MathPkg K)
    (A B C : Point K) (a1 o1 a2 o2 a3 o3 : K)
    (v1 : GetPolygonArea.vertex m C A B = some (a1, o1))
    (v2 : GetPolygonArea.vertex m A B C = some (a2, o2))
    (v3 : GetPolygonArea.vertex m B C A = some (a3, o3))
    (h1 : ¬ o1 > 0) (h2 : ¬ o2 > 0) (h3 : ¬ o3 > 0) :
    GetPolygonArea.sums m [A, B, C] = some (0, 0, a1 + a2 + a3, 3) := by
  have c3 : (1 : K) + 1 + 1 = 3 := by norm_num
  simp only [GetPolygonArea.sums, GetPolygonArea.triples_three, List.map_cons, List.map_nil,
    List.foldl_cons, List.foldl_nil, v1, v2, v3, GetPolygonArea.accumulate, h1, h2, h3,
    if_false, c3, zero_add]

/-- Girard on the code: for a triangle whose vertices are pairwise less than 90 degrees
apart and not on one great circle, with a spherical excess below 1, `GetPolygonArea` returns
the excess times the square of the radius. -/
theorem GetPolygonArea.triangle (A B C : Point ℝ)
    (hab : 0 < dot3 (cartesian ⟨Real.sin, Real.cos, Real.arccos, Real.sqrt, Real.pi⟩ A)
      (cartesian ⟨Real.sin, Real.cos, Real.arccos, Real.sqrt, Real.pi⟩ B))
    (hbc : 0 < dot3 (cartesian ⟨Real.sin, Real.cos, Real.arccos, Real.sqrt, Real.pi⟩ B)
      (cartesian ⟨Real.sin, Real.cos, Real.arccos, Real.sqrt, Real.pi⟩ C))
    (hca : 0 < dot3 (cartesian ⟨Real.sin, Real.cos, Real.arccos, Real.sqrt, Real.pi⟩ C)
      (cartesian ⟨Real.sin, Real.cos, Real.arccos, Real.sqrt, Real.pi⟩ A))
    (hdet : det3 (cartesian ⟨Real.sin, Real.cos, Real.arccos, Real.sqrt, Real.pi⟩ A)
      (cartesian ⟨Real.sin, Real.cos, Real.arccos, Real.sqrt, Real.pi⟩ B)
      (cartesian ⟨Real.sin, Real.cos, Real.arccos, Real.sqrt, Real.pi⟩ C) ≠ 0)
    (hex : sphericalExcess ⟨Real.sin, Real.cos, Real.arccos, Real.sqrt, Real.pi⟩
      (cartesian ⟨Real.sin, Real.cos, Real.arccos, Real.sqrt, Real.pi⟩ A)
      (cartesian ⟨Real.sin, Real.cos, Real.arccos, Real.sqrt, Real.pi⟩ B)
      (cartesian ⟨Real.sin, Real.cos, Real.arccos, Real.sqrt, Real.pi⟩ C) < 1) :
    GetPolygonArea ⟨Real.sin, Real.cos, Real.arccos, Real.sqrt, Real.pi⟩ ⟨[A, B, C]⟩ =
      .ok (some (sphericalExcess ⟨Real.sin, Real.cos, Real.arccos, Real.sqrt, Real.pi⟩
        (cartesian ⟨Real.sin, Real.cos, Real.arccos, Real.sqrt, Real.pi⟩ A)
        (cartesian ⟨Real.sin, Real.cos, Real.arccos, Real.sqrt, Real.pi⟩ B)
        (cartesian ⟨Real.sin, Real.cos, Real.arccos, Real.sqrt, Real.pi⟩ C) *
        EARTHRADIUS * EARTHRADIUS)) := by
  have uA := cartesian_unit A
  have uB := cartesian_unit B
  have uC := cartesian_unit C
  set a := cartesian ⟨Real.sin, Real.cos, Real.arccos, Real.sqrt, Real.pi⟩ A with ha
  set b := cartesian ⟨Real.sin, Real.cos, Real.arccos, Real.sqrt, Real.pi⟩ B with hb
  set c := cartesian ⟨Real.sin, Real.cos, Real.arccos, Real.sqrt, Real.pi⟩ C with hc
  have hba : 0 < dot3 b a := by rw [dot3_comm]; exact hab
  have hcb : 0 < dot3 c b := by rw [dot3_comm]; exact hbc
  have hac : 0 < dot3 a c := by rw [dot3_comm]; exact hca
  have pab : dot3 a b ^ 2 < 1 := dot3_sq_lt a b c uA uB uC hdet
  have pbc : dot3 b c ^ 2 < 1 :=
    dot3_sq_lt b c a uB uC uA (by rw [det3_rotate a b c]; exact hdet)
  have pca : dot3 c a ^ 2 < 1 :=
    dot3_sq_lt c a b uC uA uB (by rw [det3_rotate b c a, det3_rotate a b c]; exact hdet)
  have pba : dot3 b a ^ 2 < 1 := by rw [dot3_comm]; exact pab
  have pcb : dot3 c b ^ 2 < 1 := by rw [dot3_comm]; exact pbc
  have pac : dot3 a c ^ 2 < 1 := by rw [dot3_comm]; exact pca
  have v1 := GetPolygonArea.vertex_unit C A B hac hab pac pab
  have v2 := GetPolygonArea.vertex_unit A B C hba hbc pba pbc
  have v3 := GetPolygonArea.vertex_unit B C A hcb hca pcb pca
  rw [← ha, ← hb, ← hc] at v1 v2 v3
  rw [det3_rotate b c a, det3_rotate a b c] at v3
  rw [det3_rotate a b c] at v2
  rw [GetPolygonArea_eq _ _ (by simp)]
  have hS : sphericalAngle ⟨Real.sin, Real.cos, Real.arccos, Real.sqrt, Real.pi⟩ a c b +
      sphericalAngle ⟨Real.sin, Real.cos, Real.arccos, Real.sqrt, Real.pi⟩ b a c +
      sphericalAngle ⟨Real.sin, Real.cos, Real.arccos, Real.sqrt, Real.pi⟩ c b a - Real.pi =
      sphericalExcess ⟨Real.sin, Real.cos, Real.arccos, Real.sqrt, Real.pi⟩ a b c := by
    simp only [sphericalExcess]
    rw [sphericalAngle_comm _ a c b, sphericalAngle_comm _ b a c, sphericalAngle_comm _ c b a]
  have hnn : 0 ≤ sphericalAngle ⟨Real.sin, Real.cos, Real.arccos, Real.sqrt, Real.pi⟩ a c b +
      sphericalAngle ⟨Real.sin, Real.cos, Real.arccos, Real.sqrt, Real.pi⟩ b a c +
      sphericalAngle ⟨Real.sin, Real.cos, Real.arccos, Real.sqrt, Real.pi⟩ c b a :=
    add_nonneg (add_nonneg (sphericalAngle_nonneg _ _ _) (sphericalAngle_nonneg _ _ _))
      (sphericalAngle_nonneg _ _ _)
  obtain ⟨s1, s2⟩ := GetPolygonArea.select_triangle _ hnn (by rw [hS]; exact hex)
  rw [hS] at s1 s2
  have hlen : [A, B, C].length = 3 := rfl
  rcases lt_or_gt_of_ne hdet with hneg | hpos
  · have o1 : ¬ det3 a b c / (dot3 a b * dot3 a c) > 0 :=
      not_lt.mpr (div_nonpos_of_nonpos_of_nonneg hneg.le (mul_pos hab hac).le)
    have o2 : ¬ det3 a b c / (dot3 b c * dot3 b a) > 0 :=
      not_lt.mpr (div_nonpos_of_nonpos_of_nonneg hneg.le (mul_pos hbc hba).le)
    have o3 : ¬ det3 a b c / (dot3 c a * dot3 c b) > 0 :=
      not_lt.mpr (div_nonpos_of_nonpos_of_nonneg hneg.le (mul_pos hca hcb).le)
    rw [GetPolygonArea.sums_three_neg _ A B C _ _ _ _ _ _ v1 v2 v3 o1 o2 o3, Option.map_some',
      hlen, s2]
  · have o1 : det3 a b c / (dot3 a b * dot3 a c) > 0 := div_pos hpos (mul_pos hab hac)
    have o2 : det3 a b c / (dot3 b c * dot3 b a) > 0 := div_pos hpos (mul_pos hbc hba)
    have o3 : det3 a b c / (dot3 c a * dot3 c b) > 0 := div_pos hpos (mul_pos hca hcb)
    rw [GetPolygonArea.sums_three_pos _ A B C _ _ _ _ _ _ v1 v2 v3 o1 o2 o3, Option.map_some',
      hlen, s1]

/-! ## Bounds on the arc cosine and the coordinates of five points -/

/-- The arc cosine is at most `π / 3` from `1 / 2` on. -/
theorem arccos_le_pi_div_three {x : ℝ} (hx : 1 / 2 ≤ x) : Real.arccos x ≤ Real.pi / 3 := by
  have hpi := Real.pi_pos
  by_cases h1 : 1 ≤ x
  · rw [Real.arccos_of_one_le h1]
    positivity
  · have h := Real.strictAntiOn_arccos.antitoneOn
      (⟨by norm_num, by norm_num⟩ : (1 / 2 : ℝ) ∈ Set.Icc (-1 : ℝ) 1)
      (⟨by linarith, le_of_lt (not_le.mp h1)⟩ : x ∈ Set.Icc (-1 : ℝ) 1) hx
    rwa [← Real.cos_pi_div_three, Real.arccos_cos (by positivity) (by linarith)] at h

/-- The arc cosine of a quotient `n / (√P * √Q)` is at most `π / 3` when
`P * Q ≤ 4 * n ^ 2`. -/
theorem arccos_ratio_le (n P Q : ℝ) (hn : 0 ≤ n) (hP : 0 < P) (hQ : 0 < Q)
    (h : P * Q ≤ 4 * n ^ 2) : Real.arccos (n / (Real.sqrt P * Real.sqrt Q)) ≤ Real.pi / 3 := by
  have hden : 0 < Real.sqrt P * Real.sqrt Q :=
    mul_pos (Real.sqrt_pos.2 hP) (Real.sqrt_pos.2 hQ)
  have h1 : Real.sqrt P * Real.sqrt Q ≤ 2 * n := by
    rw [← Real.sqrt_mul hP.le]
    calc Real.sqrt (P * Q) ≤ Real.sqrt ((2 * n) ^ 2) := Real.sqrt_le_sqrt (by nlinarith)
      _ = 2 * n := Real.sqrt_sq (by linarith)
  apply arccos_le_pi_div_three
  rw [le_div_iff₀ hden]
  linarith

/-- The arc cosine of a quotient `n / (√P * √Q)` is above `π / 4` when
`2 * n ^ 2 < P * Q`. -/
theorem arccos_ratio_gt (n P Q : ℝ) (hP : 0 < P) (hQ : 0 < Q)
    (h : 2 * n ^ 2 < P * Q) : Real.pi / 4 < Real.arccos (n / (Real.sqrt P * Real.sqrt Q)) := by
  have hden : 0 < Real.sqrt P * Real.sqrt Q :=
    mul_pos (Real.sqrt_pos.2 hP) (Real.sqrt_pos.2 hQ)
  have hd2 : (Real.sqrt P * Real.sqrt Q) ^ 2 = P * Q := by
    rw [mul_pow, Real.sq_sqrt hP.le, Real.sq_sqrt hQ.le]
  rw [← not_le, Real.arccos_le_pi_div_four, not_le, div_lt_div_iff₀ hden (by norm_num)]
  have h2 : 0 < Real.sqrt 2 := Real.sqrt_pos.2 (by norm_num)
  have h22 : Real.sqrt 2 ^ 2 = 2 := Real.sq_sqrt (by norm_num)
  have key : (n * 2) ^ 2 < (Real.sqrt 2 * (Real.sqrt P * Real.sqrt Q)) ^ 2 := by
    rw [mul_pow (Real.sqrt 2), h22, hd2]
    nlinarith
  exact lt_of_pow_lt_pow_left₀ 2 (by positivity) key

/-- The point at longitude 0 and latitude 0. -/
theorem cartesian_origin :
    cartesian ⟨Real.sin, Real.cos, Real.arccos, Real.sqrt, Real.pi⟩ (⟨0, 0⟩ : Point ℝ) =
      (1, 0, 0) := by
  simp [cartesian]

/-- The point at longitude 30 and latitude 0. -/
theorem cartesian_east :
    cartesian ⟨Real.sin, Real.cos, Real.arccos, Real.sqrt, Real.pi⟩ (⟨30, 0⟩ : Point ℝ) =
      (Real.sqrt 3 / 2, 1 / 2, 0) := by
  have h : (30 : ℝ) * Real.pi / 180 = Real.pi / 6 := by ring
  simp [cartesian, h]

/-- The point at longitude 0 and latitude 30. -/
theorem cartesian_north :
    cartesian ⟨Real.sin, Real.cos, Real.arccos, Real.sqrt, Real.pi⟩ (⟨0, 30⟩ : Point ℝ) =
      (Real.sqrt 3 / 2, 0, 1 / 2) := by
  have h : (30 : ℝ) * Real.pi / 180 = Real.pi / 6 := by ring
  simp [cartesian, h]

/-- The point at longitude 0 and latitude -30. -/
theorem cartesian_south :
    cartesian ⟨Real.sin, Real.cos, Real.arccos, Real.sqrt, Real.pi⟩ (⟨0, -30⟩ : Point ℝ) =
      (Real.sqrt 3 / 2, 0, -(1 / 2)) := by
  have h : -((30 : ℝ) * Real.pi) / 180 = -(Real.pi / 6) := by ring
  simp [cartesian, h]

/-- The spherical excess does not depend on the direction in which the vertices are
listed. -/
theorem sphericalExcess_swap {K : Type} [LinearOrderedField K] (m : MathPkg K)
    (u v w : K × K × K) : sphericalExcess m w v u = sphericalExcess m u v w := by
  simp only [sphericalExcess]
  rw [sphericalAngle_comm m w v u, sphericalAngle_comm m v u w, sphericalAngle_comm m u w v]
  ring

/-! ## Girard's inequality: the angles of a spherical triangle add up to more than π -/

/-- A number whose square is at most 1 is between -1 and 1. -/
theorem bounds_of_sq_add_sq (t u : ℝ) (h : t ^ 2 + u ^ 2 = 1) : -1 ≤ t ∧ t ≤ 1 := by
  constructor
  · nlinarith [sq_nonneg (t + 1), sq_nonneg u]
  · nlinarith [sq_nonneg (t - 1), sq_nonneg u]

/-- Girard's inequality in coordinates: with `x`, `y`, `z` the three inner products of three
unit vectors, `sx`, `sy`, `sz` the sines of the sides and `g` the triple product, the three
angles add up to more than `π`. -/
theorem girard_alg (x y z sx sy sz g : ℝ) (hsx : 0 < sx) (hsy : 0 < sy) (hsz : 0 < sz)
    (hg : 0 < g) (hx2 : sx ^ 2 = 1 - x ^ 2) (hy2 : sy ^ 2 = 1 - y ^ 2)
    (hz2 : sz ^ 2 = 1 - z ^ 2)
    (hg2 : g ^ 2 = 1 - x ^ 2 - y ^ 2 - z ^ 2 + 2 * x * y * z) :
    Real.pi < Real.arccos ((x - y * z) / (sy * sz)) +
      Real.arccos ((y - z * x) / (sz * sx)) + Real.arccos ((z - x * y) / (sx * sy)) := by
  have hz1 : z < 1 := by
    have : 0 < sz ^ 2 := by positivity
    by_contra h
    push_neg at h
    nlinarith
  have pyz : 0 < sy * sz := mul_pos hsy hsz
  have pzx : 0 < sz * sx := mul_pos hsz hsx
  have pxy : 0 < sx * sy := mul_pos hsx hsy
  have hA : ((x - y * z) / (sy * sz)) ^ 2 + (g / (sy * sz)) ^ 2 = 1 := by
    rw [div_pow, div_pow, ← add_div, div_eq_one_iff_eq (pow_ne_zero 2 pyz.ne.symm), mul_pow,
      hy2, hz2, hg2]
    ring
  have hB : ((y - z * x) / (sz * sx)) ^ 2 + (g / (sz * sx)) ^ 2 = 1 := by
    rw [div_pow, div_pow, ← add_div, div_eq_one_iff_eq (pow_ne_zero 2 pzx.ne.symm), mul_pow,
      hz2, hx2, hg2]
    ring
  have hC : ((z - x * y) / (sx * sy)) ^ 2 + (g / (sx * sy)) ^ 2 = 1 := by
    rw [div_pow, div_pow, ← add_div, div_eq_one_iff_eq (pow_ne_zero 2 pxy.ne.symm), mul_pow,
      hx2, hy2, hg2]
    ring
  have gA : 0 < g / (sy * sz) := div_pos hg pyz
  have gB : 0 < g / (sz * sx) := div_pos hg pzx
  have gC : 0 < g / (sx * sy) := div_pos hg pxy
  have sA : Real.sin (Real.arccos ((x - y * z) / (sy * sz))) = g / (sy * sz) := by
    rw [Real.sin_arccos, show 1 - ((x - y * z) / (sy * sz)) ^ 2 = (g / (sy * sz)) ^ 2 by
      linarith, Real.sqrt_sq gA.le]
  have sB : Real.sin (Real.arccos ((y - z * x) / (sz * sx))) = g / (sz * sx) := by
    rw [Real.sin_arccos, show 1 - ((y - z * x) / (sz * sx)) ^ 2 = (g / (sz * sx)) ^ 2 by
      linarith, Real.sqrt_sq gB.le]
  have cA : Real.cos (Real.arccos ((x - y * z) / (sy * sz))) = (x - y * z) / (sy * sz) :=
    Real.cos_arccos (bounds_of_sq_add_sq _ _ hA).1 (bounds_of_sq_add_sq _ _ hA).2
  have cB : Real.cos (Real.arccos ((y - z * x) / (sz * sx))) = (y - z * x) / (sz * sx) :=
    Real.cos_arccos (bounds_of_sq_add_sq _ _ hB).1 (bounds_of_sq_add_sq _ _ hB).2
  have cC : Real.cos (Real.arccos ((z - x * y) / (sx * sy))) = (z - x * y) / (sx * sy) :=
    Real.cos_arccos (bounds_of_sq_add_sq _ _ hC).1 (bounds_of_sq_add_sq _ _ hC).2
  have key : (x - y * z) / (sy * sz) * ((y - z * x) / (sz * sx)) +
      (z - x * y) / (sx * sy) = z * (g / (sy * sz) * (g / (sz * sx))) := by
    have e1 : (z - x * y) / (sx * sy) = (z - x * y) * sz ^ 2 / (sy * sz * (sz * sx)) := by
      field_simp
      ring
    have e2 : z * (g / (sy * sz) * (g / (sz * sx))) = z * g ^ 2 / (sy * sz * (sz * sx)) := by
      rw [div_mul_div_comm, ← mul_div_assoc, ← sq]
    rw [e1, e2, div_mul_div_comm, ← add_div, hz2, hg2]
    congr 1
    ring
  have hcos : Real.cos (Real.arccos ((x - y * z) / (sy * sz)) +
      Real.arccos ((y - z * x) / (sz * sx))) <
      Real.cos (Real.pi - Real.arccos ((z - x * y) / (sx * sy))) := by
    rw [Real.cos_add, Real.cos_pi_sub, sA, sB, cA, cB, cC]
    have hpos : 0 < (1 - z) * (g / (sy * sz) * (g / (sz * sx))) :=
      mul_pos (by linarith) (mul_pos gA gB)
    linarith
  by_contra hle
  have h1 : Real.arccos ((x - y * z) / (sy * sz)) + Real.arccos ((y - z * x) / (sz * sx)) ≤
      Real.pi - Real.arccos ((z - x * y) / (sx * sy)) := by linarith
  have h2 := Real.cos_le_cos_of_nonneg_of_le_pi
    (add_nonneg (Real.arccos_nonneg _) (Real.arccos_nonneg _))
    (by linarith [Real.arccos_nonneg ((z - x * y) / (sx * sy))]) h1
  linarith

/-- Girard's inequality for the modelled angles: three unit vectors that are not on one
great circle span a triangle with a positive spherical excess. -/
theorem sphericalExcess_pos (a b c : ℝ × ℝ × ℝ) (ha : dot3 a a = 1) (hb : dot3 b b = 1)
    (hc : dot3 c c = 1) (hdet : det3 a b c ≠ 0) :
    0 < sphericalExcess ⟨Real.sin, Real.cos, Real.arccos, Real.sqrt, Real.pi⟩ a b c := by
  have pab : dot3 a b ^ 2 < 1 := dot3_sq_lt a b c ha hb hc hdet
  have pbc : dot3 b c ^ 2 < 1 :=
    dot3_sq_lt b c a hb hc ha (by rw [det3_rotate a b c]; exact hdet)
  have pca : dot3 c a ^ 2 < 1 :=
    dot3_sq_lt c a b hc ha hb (by rw [det3_rotate b c a, det3_rotate a b c]; exact hdet)
  have hG := det3_sq a b c ha hb hc
  have hdp : 0 < det3 a b c ^ 2 := by positivity
  simp only [sphericalExcess]
  rw [sphericalAngle_unit a b c ha hb hc, sphericalAngle_unit b c a hb hc ha,
    sphericalAngle_unit c a b hc ha hb, dot3_comm c a, dot3_comm c b, dot3_comm b a]
  have h := girard_alg (dot3 b c) (dot3 a c) (dot3 a b) (Real.sqrt (1 - dot3 b c ^ 2))
    (Real.sqrt (1 - dot3 a c ^ 2)) (Real.sqrt (1 - dot3 a b ^ 2)) (|det3 a b c|)
    (Real.sqrt_pos.2 (by linarith))
    (Real.sqrt_pos.2 (by rw [dot3_comm a c]; linarith))
    (Real.sqrt_pos.2 (by linarith)) (abs_pos.2 hdet)
    (Real.sq_sqrt (by linarith))
    (Real.sq_sqrt (by rw [dot3_comm a c]; linarith))
    (Real.sq_sqrt (by linarith))
    (by rw [sq_abs, hG]; ring)
  show 0 < _ + _ + _ - Real.pi
  linarith

/-! ## Polygon area: Girard's theorem on the code -/

/-- The spherical excess of a triangle with a right angle at `a` and two sides of 30
degrees from `a`: it is at most `π / 6`. -/
theorem sphericalExcess_le (a b c : ℝ × ℝ × ℝ) (s : ℝ) (ua : dot3 a a = 1)
    (ub : dot3 b b = 1) (uc : dot3 c c = 1) (hs : s * s = 3) (h0 : 0 < s)
    (hab : dot3 a b = s / 2) (hbc : dot3 b c = 3 / 4) (hca : dot3 c a = s / 2) :
    sphericalExcess ⟨Real.sin, Real.cos, Real.arccos, Real.sqrt, Real.pi⟩ a b c ≤
      Real.pi / 6 := by
  have key : ∀ p q r : ℝ, p = Real.pi / 2 → q ≤ Real.pi / 3 → r ≤ Real.pi / 3 →
      p + q + r - Real.pi ≤ Real.pi / 6 := by
    intro p q r hp hq hr
    linarith
  simp only [sphericalExcess]
  rw [sphericalAngle_unit a b c ua ub uc, sphericalAngle_unit b c a ub uc ua,
    sphericalAngle_unit c a b uc ua ub, dot3_comm a c, dot3_comm b a, dot3_comm c b, hab, hbc,
    hca]
  apply key
  · rw [Real.arccos_eq_pi_div_two, div_eq_zero_iff]
    left
    linear_combination (-1 / 4 : ℝ) * hs
  · apply arccos_ratio_le
    · linarith
    · nlinarith
    · norm_num
    · nlinarith
  · apply arccos_ratio_le
    · linarith
    · norm_num
    · nlinarith
    · nlinarith

/-- The triangle with the vertices (lng 0, lat 0), (lng 30, lat 0) and (lng 0, lat 30): its
vertices are pairwise less than 90 degrees apart and not on one great circle, and its
spherical excess is below 1. -/
theorem rightTriangle_facts :
    0 < dot3 (cartesian ⟨Real.sin, Real.cos, Real.arccos, Real.sqrt, Real.pi⟩ ⟨0, 0⟩)
        (cartesian ⟨Real.sin, Real.cos, Real.arccos, Real.sqrt, Real.pi⟩ ⟨30, 0⟩) ∧
      0 < dot3 (cartesian ⟨Real.sin, Real.cos, Real.arccos, Real.sqrt, Real.pi⟩ ⟨30, 0⟩)
        (cartesian ⟨Real.sin, Real.cos, Real.arccos, Real.sqrt, Real.pi⟩ ⟨0, 30⟩) ∧
      0 < dot3 (cartesian ⟨Real.sin, Real.cos, Real.arccos, Real.sqrt, Real.pi⟩ ⟨0, 30⟩)
        (cartesian ⟨Real.sin, Real.cos, Real.arccos, Real.sqrt, Real.pi⟩ ⟨0, 0⟩) ∧
      det3 (cartesian ⟨Real.sin, Real.cos, Real.arccos, Real.sqrt, Real.pi⟩ ⟨0, 0⟩)
        (cartesian ⟨Real.sin, Real.cos, Real.arccos, Real.sqrt, Real.pi⟩ ⟨30, 0⟩)
        (cartesian ⟨Real.sin, Real.cos, Real.arccos, Real.sqrt, Real.pi⟩ ⟨0, 30⟩) ≠ 0 ∧
      sphericalExcess ⟨Real.sin, Real.cos, Real.arccos, Real.sqrt, Real.pi⟩
        (cartesian ⟨Real.sin, Real.cos, Real.arccos, Real.sqrt, Real.pi⟩ ⟨0, 0⟩)
        (cartesian ⟨Real.sin, Real.cos, Real.arccos, Real.sqrt, Real.pi⟩ ⟨30, 0⟩)
        (cartesian ⟨Real.sin, Real.cos, Real.arccos, Real.sqrt, Real.pi⟩ ⟨0, 30⟩) < 1 := by
  have ua := cartesian_unit ⟨0, 0⟩
  have ub := cartesian_unit ⟨30, 0⟩
  have uc := cartesian_unit ⟨0, 30⟩
  have hs : Real.sqrt 3 * Real.sqrt 3 = 3 := Real.mul_self_sqrt (by norm_num)
  have h0 : 0 < Real.sqrt 3 := Real.sqrt_pos.2 (by norm_num)
  have hab : dot3 (cartesian ⟨Real.sin, Real.cos, Real.arccos, Real.sqrt, Real.pi⟩ ⟨0, 0⟩)
      (cartesian ⟨Real.sin, Real.cos, Real.arccos, Real.sqrt, Real.pi⟩ ⟨30, 0⟩) =
      Real.sqrt 3 / 2 := by
    rw [cartesian_origin, cartesian_east]
    simp only [dot3]
    ring
  have hbc : dot3 (cartesian ⟨Real.sin, Real.cos, Real.arccos, Real.sqrt, Real.pi⟩ ⟨30, 0⟩)
      (cartesian ⟨Real.sin, Real.cos, Real.arccos, Real.sqrt, Real.pi⟩ ⟨0, 30⟩) = 3 / 4 := by
    rw [cartesian_east, cartesian_north]
    simp only [dot3]
    linear_combination (1 / 4 : ℝ) * hs
  have hca : dot3 (cartesian ⟨Real.sin, Real.cos, Real.arccos, Real.sqrt, Real.pi⟩ ⟨0, 30⟩)
      (cartesian ⟨Real.sin, Real.cos, Real.arccos, Real.sqrt, Real.pi⟩ ⟨0, 0⟩) =
      Real.sqrt 3 / 2 := by
    rw [cartesian_origin, cartesian_north]
    simp only [dot3]
    ring
  have hdet : det3 (cartesian ⟨Real.sin, Real.cos, Real.arccos, Real.sqrt, Real.pi⟩ ⟨0, 0⟩)
      (cartesian ⟨Real.sin, Real.cos, Real.arccos, Real.sqrt, Real.pi⟩ ⟨30, 0⟩)
      (cartesian ⟨Real.sin, Real.cos, Real.arccos, Real.sqrt, Real.pi⟩ ⟨0, 30⟩) = 1 / 4 := by
    rw [cartesian_origin, cartesian_east, cartesian_north]
    simp only [det3]
    ring
  refine ⟨by rw [hab]; positivity, by rw [hbc]; norm_num, by rw [hca]; positivity,
    by rw [hdet]; norm_num, ?_⟩
  have h := sphericalExcess_le _ _ _ _ ua ub uc hs h0 hab hbc hca
  have hpi := Real.pi_le_four
  linarith

/-- In exact real arithmetic: for every triangle whose vertices are pairwise less than 90
degrees apart on the sphere (positive inner products) and not on one great circle (triple
product not 0), and whose interior angles satisfy `a + b + c - π < 1`, `GetPolygonArea` over the reals returns
`(a + b + c - π) * EARTHRADIUS ^ 2`, for the vertex order `A, B, C` and for the reverse order
`C, B, A`. -/
theorem GetPolygonArea_girard (A B C : Point ℝ)
    (hab : 0 < dot3 (cartesian ⟨Real.sin, Real.cos, Real.arccos, Real.sqrt, Real.pi⟩ A)
      (cartesian ⟨Real.sin, Real.cos, Real.arccos, Real.sqrt, Real.pi⟩ B))
    (hbc : 0 < dot3 (cartesian ⟨Real.sin, Real.cos, Real.arccos, Real.sqrt, Real.pi⟩ B)
      (cartesian ⟨Real.sin, Real.cos, Real.arccos, Real.sqrt, Real.pi⟩ C))
    (hca : 0 < dot3 (cartesian ⟨Real.sin, Real.cos, Real.arccos, Real.sqrt, Real.pi⟩ C)
      (cartesian ⟨Real.sin, Real.cos, Real.arccos, Real.sqrt, Real.pi⟩ A))
    (hdet : det3 (cartesian ⟨Real.sin, Real.cos, Real.arccos, Real.sqrt, Real.pi⟩ A)
      (cartesian ⟨Real.sin, Real.cos, Real.arccos, Real.sqrt, Real.pi⟩ B)
      (cartesian ⟨Real.sin, Real.cos, Real.arccos, Real.sqrt, Real.pi⟩ C) ≠ 0)
    (hex : sphericalExcess ⟨Real.sin, Real.cos, Real.arccos, Real.sqrt, Real.pi⟩
      (cartesian ⟨Real.sin, Real.cos, Real.arccos, Real.sqrt, Real.pi⟩ A)
      (cartesian ⟨Real.sin, Real.cos, Real.arccos, Real.sqrt, Real.pi⟩ B)
      (cartesian ⟨Real.sin, Real.cos, Real.arccos, Real.sqrt, Real.pi⟩ C) < 1) :
    GetPolygonArea ⟨Real.sin, Real.cos, Real.arccos, Real.sqrt, Real.pi⟩ ⟨[A, B, C]⟩ =
        .ok (some (sphericalExcess ⟨Real.sin, Real.cos, Real.arccos, Real.sqrt, Real.pi⟩
          (cartesian ⟨Real.sin, Real.cos, Real.arccos, Real.sqrt, Real.pi⟩ A)
          (cartesian ⟨Real.sin, Real.cos, Real.arccos, Real.sqrt, Real.pi⟩ B)
          (cartesian ⟨Real.sin, Real.cos, Real.arccos, Real.sqrt, Real.pi⟩ C) *
          EARTHRADIUS ^ 2)) ∧
      GetPolygonArea ⟨Real.sin, Real.cos, Real.arccos, Real.sqrt, Real.pi⟩ ⟨[C, B, A]⟩ =
        .ok (some (sphericalExcess ⟨Real.sin, Real.cos, Real.arccos, Real.sqrt, Real.pi⟩
          (cartesian ⟨Real.sin, Real.cos, Real.arccos, Real.sqrt, Real.pi⟩ A)
          (cartesian ⟨Real.sin, Real.cos, Real.arccos, Real.sqrt, Real.pi⟩ B)
          (cartesian ⟨Real.sin, Real.cos, Real.arccos, Real.sqrt, Real.pi⟩ C) *
          EARTHRADIUS ^ 2)) := by
  constructor
  · rw [GetPolygonArea.triangle A B C hab hbc hca hdet hex, sq, mul_assoc]
  · rw [GetPolygonArea.triangle C B A (by rw [dot3_comm]; exact hbc)
      (by rw [dot3_comm]; exact hab) (by rw [dot3_comm]; exact hca)
      (by rw [det3_swap]; exact neg_ne_zero.mpr hdet)
      (by rw [sphericalExcess_swap]; exact hex), sphericalExcess_swap, sq, mul_assoc]

/-- In exact real arithmetic: the triangle (lng 0, lat 0), (lng 30, lat 0), (lng 0, lat 30). -/
theorem GetPolygonArea_girard_witness :
    GetPolygonArea ⟨Real.sin, Real.cos, Real.arccos, Real.sqrt, Real.pi⟩
        ⟨[⟨0, 0⟩, ⟨30, 0⟩, ⟨0, 30⟩]⟩ =
        .ok (some (sphericalExcess ⟨Real.sin, Real.cos, Real.arccos, Real.sqrt, Real.pi⟩
          (cartesian ⟨Real.sin, Real.cos, Real.arccos, Real.sqrt, Real.pi⟩ ⟨0, 0⟩)
          (cartesian ⟨Real.sin, Real.cos, Real.arccos, Real.sqrt, Real.pi⟩ ⟨30, 0⟩)
          (cartesian ⟨Real.sin, Real.cos, Real.arccos, Real.sqrt, Real.pi⟩ ⟨0, 30⟩) *
          EARTHRADIUS ^ 2)) ∧
      GetPolygonArea ⟨Real.sin, Real.cos, Real.arccos, Real.sqrt, Real.pi⟩
        ⟨[⟨0, 30⟩, ⟨30, 0⟩, ⟨0, 0⟩]⟩ =
        .ok (some (sphericalExcess ⟨Real.sin, Real.cos, Real.arccos, Real.sqrt, Real.pi⟩
          (cartesian ⟨Real.sin, Real.cos, Real.arccos, Real.sqrt, Real.pi⟩ ⟨0, 0⟩)
          (cartesian ⟨Real.sin, Real.cos, Real.arccos, Real.sqrt, Real.pi⟩ ⟨30, 0⟩)
          (cartesian ⟨Real.sin, Real.cos, Real.arccos, Real.sqrt, Real.pi⟩ ⟨0, 30⟩) *
          EARTHRADIUS ^ 2)) :=
  GetPolygonArea_girard ⟨0, 0⟩ ⟨30, 0⟩ ⟨0, 30⟩ rightTriangle_facts.1
    rightTriangle_facts.2.1 rightTriangle_facts.2.2.1 rightTriangle_facts.2.2.2.1
    rightTriangle_facts.2.2.2.2

/-- The three vertex computations of `GetPolygonArea` on a triangle whose vertices are
pairwise less than 90 degrees apart and not on one great circle: the angles are the
spherical angles, and every `OrientationValue` is the triple product of the vertices
divided by a positive number. -/
theorem GetPolygonArea.triangle_vertices (A B C : Point ℝ)
    (hab : 0 < dot3 (cartesian ⟨Real.sin, Real.cos, Real.arccos, Real.sqrt, Real.pi⟩ A)
      (cartesian ⟨Real.sin, Real.cos, Real.arccos, Real.sqrt, Real.pi⟩ B))
    (hbc : 0 < dot3 (cartesian ⟨Real.sin, Real.cos, Real.arccos, Real.sqrt, Real.pi⟩ B)
      (cartesian ⟨Real.sin, Real.cos, Real.arccos, Real.sqrt, Real.pi⟩ C))
    (hca : 0 < dot3 (cartesian ⟨Real.sin, Real.cos, Real.arccos, Real.sqrt, Real.pi⟩ C)
      (cartesian ⟨Real.sin, Real.cos, Real.arccos, Real.sqrt, Real.pi⟩ A))
    (hdet : det3 (cartesian ⟨Real.sin, Real.cos, Real.arccos, Real.sqrt, Real.pi⟩ A)
      (cartesian ⟨Real.sin, Real.cos, Real.arccos, Real.sqrt, Real.pi⟩ B)
      (cartesian ⟨Real.sin, Real.cos, Real.arccos, Real.sqrt, Real.pi⟩ C) ≠ 0) :
    ∃ a1 a2 a3 p1 p2 p3 : ℝ, 0 < p1 ∧ 0 < p2 ∧ 0 < p3 ∧
      Real.pi < a1 + a2 + a3 ∧
      GetPolygonArea.vertex ⟨Real.sin, Real.cos, Real.arccos, Real.sqrt, Real.pi⟩ C A B =
        some (a1, det3 (cartesian ⟨Real.sin, Real.cos, Real.arccos, Real.sqrt, Real.pi⟩ A)
          (cartesian ⟨Real.sin, Real.cos, Real.arccos, Real.sqrt, Real.pi⟩ B)
          (cartesian ⟨Real.sin, Real.cos, Real.arccos, Real.sqrt, Real.pi⟩ C) / p1) ∧
      GetPolygonArea.vertex ⟨Real.sin, Real.cos, Real.arccos, Real.sqrt, Real.pi⟩ A B C =
        some (a2, det3 (cartesian ⟨Real.sin, Real.cos, Real.arccos, Real.sqrt, Real.pi⟩ A)
          (cartesian ⟨Real.sin, Real.cos, Real.arccos, Real.sqrt, Real.pi⟩ B)
          (cartesian ⟨Real.sin, Real.cos, Real.arccos, Real.sqrt, Real.pi⟩ C) / p2) ∧
      GetPolygonArea.vertex ⟨Real.sin, Real.cos, Real.arccos, Real.sqrt, Real.pi⟩ B C A =
        some (a3, det3 (cartesian ⟨Real.sin, Real.cos, Real.arccos, Real.sqrt, Real.pi⟩ A)
          (cartesian ⟨Real.sin, Real.cos, Real.arccos, Real.sqrt, Real.pi⟩ B)
          (cartesian ⟨Real.sin, Real.cos, Real.arccos, Real.sqrt, Real.pi⟩ C) / p3) := by
  have uA := cartesian_unit A
  have uB := cartesian_unit B
  have uC := cartesian_unit C
  have hpos := sphericalExcess_pos _ _ _ uA uB uC hdet
  set a := cartesian ⟨Real.sin, Real.cos, Real.arccos, Real.sqrt, Real.pi⟩ A with ha
  set b := cartesian ⟨Real.sin, Real.cos, Real.arccos, Real.sqrt, Real.pi⟩ B with hb
  set c := cartesian ⟨Real.sin, Real.cos, Real.arccos, Real.sqrt, Real.pi⟩ C with hc
  have hba : 0 < dot3 b a := by rw [dot3_comm]; exact hab
  have hcb : 0 < dot3 c b := by rw [dot3_comm]; exact hbc
  have hac : 0 < dot3 a c := by rw [dot3_comm]; exact hca
  have pab : dot3 a b ^ 2 < 1 := dot3_sq_lt a b c uA uB uC hdet
  have pbc : dot3 b c ^ 2 < 1 :=
    dot3_sq_lt b c a uB uC uA (by rw [det3_rotate a b c]; exact hdet)
  have pca : dot3 c a ^ 2 < 1 :=
    dot3_sq_lt c a b uC uA uB (by rw [det3_rotate b c a, det3_rotate a b c]; exact hdet)
  have pba : dot3 b a ^ 2 < 1 := by rw [dot3_comm]; exact pab
  have pcb : dot3 c b ^ 2 < 1 := by rw [dot3_comm]; exact pbc
  have pac : dot3 a c ^ 2 < 1 := by rw [dot3_comm]; exact pca
  have v1 := GetPolygonArea.vertex_unit C A B hac hab pac pab
  have v2 := GetPolygonArea.vertex_unit A B C hba hbc pba pbc
  have v3 := GetPolygonArea.vertex_unit B C A hcb hca pcb pca
  rw [← ha, ← hb, ← hc] at v1 v2 v3
  rw [det3_rotate b c a, det3_rotate a b c] at v3
  rw [det3_rotate a b c] at v2
  refine ⟨_, _, _, _, _, _, mul_pos hab hac, mul_pos hbc hba, mul_pos hca hcb, ?_, v1, v2, v3⟩
  simp only [sphericalExcess] at hpos
  rw [sphericalAngle_comm _ a c b, sphericalAngle_comm _ b a c, sphericalAngle_comm _ c b a]
  linarith

/-- On a triangle whose vertices are pairwise less than 90 degrees apart and not on one great
circle, no vertex has `OrientationValue` 0 and the two angle sums differ. -/
theorem GetPolygonArea.triangle_regular (A B C : Point ℝ)
    (hab : 0 < dot3 (cartesian ⟨Real.sin, Real.cos, Real.arccos, Real.sqrt, Real.pi⟩ A)
      (cartesian ⟨Real.sin, Real.cos, Real.arccos, Real.sqrt, Real.pi⟩ B))
    (hbc : 0 < dot3 (cartesian ⟨Real.sin, Real.cos, Real.arccos, Real.sqrt, Real.pi⟩ B)
      (cartesian ⟨Real.sin, Real.cos, Real.arccos, Real.sqrt, Real.pi⟩ C))
    (hca : 0 < dot3 (cartesian ⟨Real.sin, Real.cos, Real.arccos, Real.sqrt, Real.pi⟩ C)
      (cartesian ⟨Real.sin, Real.cos, Real.arccos, Real.sqrt, Real.pi⟩ A))
    (hdet : det3 (cartesian ⟨Real.sin, Real.cos, Real.arccos, Real.sqrt, Real.pi⟩ A)
      (cartesian ⟨Real.sin, Real.cos, Real.arccos, Real.sqrt, Real.pi⟩ B)
      (cartesian ⟨Real.sin, Real.cos, Real.arccos, Real.sqrt, Real.pi⟩ C) ≠ 0) :
    (∀ t ∈ GetPolygonArea.triples [A, B, C], ∀ a o,
        GetPolygonArea.vertex ⟨Real.sin, Real.cos, Real.arccos, Real.sqrt, Real.pi⟩
          t.1 t.2.1 t.2.2 = some (a, o) → o ≠ 0) ∧
      ∀ S1 C1 S2 C2,
        GetPolygonArea.sums ⟨Real.sin, Real.cos, Real.arccos, Real.sqrt, Real.pi⟩
          [A, B, C] = some (S1, C1, S2, C2) → S1 ≠ S2 := by
  obtain ⟨a1, a2, a3, p1, p2, p3, hp1, hp2, hp3, hsum, v1, v2, v3⟩ :=
    GetPolygonArea.triangle_vertices A B C hab hbc hca hdet
  have hpi := Real.pi_pos
  constructor
  · intro t ht a o hv
    rw [GetPolygonArea.triples_three] at ht
    simp only [List.mem_cons, List.mem_singleton, List.not_mem_nil, or_false] at ht
    rcases ht with rfl | rfl | rfl
    · rw [show GetPolygonArea.vertex _ (C, A, B).1 (C, A, B).2.1 (C, A, B).2.2 =
        GetPolygonArea.vertex _ C A B from rfl, v1] at hv
      rw [← (Prod.mk.inj (Option.some.inj hv)).2]
      exact div_ne_zero hdet hp1.ne.symm
    · rw [show GetPolygonArea.vertex _ (A, B, C).1 (A, B, C).2.1 (A, B, C).2.2 =
        GetPolygonArea.vertex _ A B C from rfl, v2] at hv
      rw [← (Prod.mk.inj (Option.some.inj hv)).2]
      exact div_ne_zero hdet hp2.ne.symm
    · rw [show GetPolygonArea.vertex _ (B, C, A).1 (B, C, A).2.1 (B, C, A).2.2 =
        GetPolygonArea.vertex _ B C A from rfl, v3] at hv
      rw [← (Prod.mk.inj (Option.some.inj hv)).2]
      exact div_ne_zero hdet hp3.ne.symm
  · intro S1 C1 S2 C2 h
    rcases lt_or_gt_of_ne hdet with hneg | hpos
    · rw [GetPolygonArea.sums_three_neg _ A B C _ _ _ _ _ _ v1 v2 v3
        (not_lt.mpr (div_nonpos_of_nonpos_of_nonneg hneg.le hp1.le))
        (not_lt.mpr (div_nonpos_of_nonpos_of_nonneg hneg.le hp2.le))
        (not_lt.mpr (div_nonpos_of_nonpos_of_nonneg hneg.le hp3.le))] at h
      have h' := Prod.mk.inj (Option.some.inj h)
      have h'' := Prod.mk.inj (Prod.mk.inj h'.2).2
      rw [← h'.1, ← h''.1]
      intro hc
      linarith
    · rw [GetPolygonArea.sums_three_pos _ A B C _ _ _ _ _ _ v1 v2 v3
        (div_pos hpos hp1) (div_pos hpos hp2) (div_pos hpos hp3)] at h
      have h' := Prod.mk.inj (Option.some.inj h)
      have h'' := Prod.mk.inj (Prod.mk.inj h'.2).2
      rw [← h'.1, ← h''.1]
      intro hc
      linarith

/-- The Earth radius of the code is positive. -/
theorem EARTHRADIUS_pos {K : Type} [LinearOrderedField K] : (0 : K) < EARTHRADIUS := by
  unfold EARTHRADIUS
  norm_num

/-! ## Polygon area: a repeated vertex and three points of the equator -/

/-- The square of the square root of 3. -/
theorem sqrt3_mul_self : Real.sqrt 3 * Real.sqrt 3 = 3 := Real.mul_self_sqrt (by norm_num)

/-- The point at longitude -30 and latitude 0. -/
theorem cartesian_west :
    cartesian ⟨Real.sin, Real.cos, Real.arccos, Real.sqrt, Real.pi⟩ (⟨-30, 0⟩ : Point ℝ) =
      (Real.sqrt 3 / 2, -(1 / 2), 0) := by
  have h : -((30 : ℝ) * Real.pi) / 180 = -(Real.pi / 6) := by ring
  simp [cartesian, h]

/-- Inner product of the points the origin (lng 0, lat 0) and (lng 30, lat 0). -/
theorem dot3_origin_east :
    dot3 (cartesian ⟨Real.sin, Real.cos, Real.arccos, Real.sqrt, Real.pi⟩ ⟨0, 0⟩)
      (cartesian ⟨Real.sin, Real.cos, Real.arccos, Real.sqrt, Real.pi⟩ ⟨30, 0⟩) = Real.sqrt 3 / 2 :=
          by
  rw [cartesian_origin, cartesian_east]
  simp only [dot3]
  linear_combination (0 : ℝ) * sqrt3_mul_self

/-- Inner product of the points the origin (lng 0, lat 0) and (lng 0, lat 30). -/
theorem dot3_origin_north :
    dot3 (cartesian ⟨Real.sin, Real.cos, Real.arccos, Real.sqrt, Real.pi⟩ ⟨0, 0⟩)
      (cartesian ⟨Real.sin, Real.cos, Real.arccos, Real.sqrt, Real.pi⟩ ⟨0, 30⟩) = Real.sqrt 3 / 2 :=
          by
  rw [cartesian_origin, cartesian_north]
  simp only [dot3]
  linear_combination (0 : ℝ) * sqrt3_mul_self

/-- Inner product of the points the origin (lng 0, lat 0) and (lng 0, lat -30). -/
theorem dot3_origin_south :
    dot3 (cartesian ⟨Real.sin, Real.cos, Real.arccos, Real.sqrt, Real.pi⟩ ⟨0, 0⟩)
      (cartesian ⟨Real.sin, Real.cos, Real.arccos, Real.sqrt, Real.pi⟩ ⟨0, -30⟩) = Real.sqrt 3 / 2
          := by
  rw [cartesian_origin, cartesian_south]
  simp only [dot3]
  linear_combination (0 : ℝ) * sqrt3_mul_self

/-- Inner product of the points the origin (lng 0, lat 0) and (lng -30, lat 0). -/
theorem dot3_origin_west :
    dot3 (cartesian ⟨Real.sin, Real.cos, Real.arccos, Real.sqrt, Real.pi⟩ ⟨0, 0⟩)
      (cartesian ⟨Real.sin, Real.cos, Real.arccos, Real.sqrt, Real.pi⟩ ⟨-30, 0⟩) = Real.sqrt 3 / 2
          := by
  rw [cartesian_origin, cartesian_west]
  simp only [dot3]
  linear_combination (0 : ℝ) * sqrt3_mul_self

/-- Inner product of the points (lng 30, lat 0) and (lng 0, lat 30). -/
theorem dot3_east_north :
    dot3 (cartesian ⟨Real.sin, Real.cos, Real.arccos, Real.sqrt, Real.pi⟩ ⟨30, 0⟩)
      (cartesian ⟨Real.sin, Real.cos, Real.arccos, Real.sqrt, Real.pi⟩ ⟨0, 30⟩) = 3 / 4 := by
  rw [cartesian_east, cartesian_north]
  simp only [dot3]
  linear_combination (1 / 4 : ℝ) * sqrt3_mul_self

/-- Inner product of the points (lng 30, lat 0) and (lng 0, lat -30). -/
theorem dot3_east_south :
    dot3 (cartesian ⟨Real.sin, Real.cos, Real.arccos, Real.sqrt, Real.pi⟩ ⟨30, 0⟩)
      (cartesian ⟨Real.sin, Real.cos, Real.arccos, Real.sqrt, Real.pi⟩ ⟨0, -30⟩) = 3 / 4 := by
  rw [cartesian_east, cartesian_south]
  simp only [dot3]
  linear_combination (1 / 4 : ℝ) * sqrt3_mul_self

/-- Inner product of the points (lng 30, lat 0) and (lng -30, lat 0). -/
theorem dot3_east_west :
    dot3 (cartesian ⟨Real.sin, Real.cos, Real.arccos, Real.sqrt, Real.pi⟩ ⟨30, 0⟩)
      (cartesian ⟨Real.sin, Real.cos, Real.arccos, Real.sqrt, Real.pi⟩ ⟨-30, 0⟩) = 1 / 2 := by
  rw [cartesian_east, cartesian_west]
  simp only [dot3]
  linear_combination (1 / 4 : ℝ) * sqrt3_mul_self

/-- Inner product of the points (lng 0, lat 30) and (lng 0, lat -30). -/
theorem dot3_north_south :
    dot3 (cartesian ⟨Real.sin, Real.cos, Real.arccos, Real.sqrt, Real.pi⟩ ⟨0, 30⟩)
      (cartesian ⟨Real.sin, Real.cos, Real.arccos, Real.sqrt, Real.pi⟩ ⟨0, -30⟩) = 1 / 2 := by
  rw [cartesian_north, cartesian_south]
  simp only [dot3]
  linear_combination (1 / 4 : ℝ) * sqrt3_mul_self

/-- The arc cosine of a quotient `n / (√P * √Q)` is 0 when `0 ≤ n` and `P * Q ≤ n ^ 2`. -/
theorem arccos_ratio_zero (n P Q : ℝ) (hn : 0 ≤ n) (hP : 0 < P) (hQ : 0 < Q)
    (h : P * Q ≤ n ^ 2) : Real.arccos (n / (Real.sqrt P * Real.sqrt Q)) = 0 := by
  have hden : 0 < Real.sqrt P * Real.sqrt Q :=
    mul_pos (Real.sqrt_pos.2 hP) (Real.sqrt_pos.2 hQ)
  have h1 : Real.sqrt P * Real.sqrt Q ≤ n := by
    rw [← Real.sqrt_mul hP.le]
    calc Real.sqrt (P * Q) ≤ Real.sqrt (n ^ 2) := Real.sqrt_le_sqrt h
      _ = n := Real.sqrt_sq hn
  rw [Real.arccos_eq_zero, le_div_iff₀ hden]
  linarith

/-- The arc cosine of a quotient `n / (√P * √Q)` is `π` when `n ≤ 0` and
`P * Q ≤ n ^ 2`. -/
theorem arccos_ratio_pi (n P Q : ℝ) (hn : n ≤ 0) (hP : 0 < P) (hQ : 0 < Q)
    (h : P * Q ≤ n ^ 2) : Real.arccos (n / (Real.sqrt P * Real.sqrt Q)) = Real.pi := by
  have hden : 0 < Real.sqrt P * Real.sqrt Q :=
    mul_pos (Real.sqrt_pos.2 hP) (Real.sqrt_pos.2 hQ)
  have h1 : Real.sqrt P * Real.sqrt Q ≤ -n := by
    rw [← Real.sqrt_mul hP.le]
    calc Real.sqrt (P * Q) ≤ Real.sqrt ((-n) ^ 2) := Real.sqrt_le_sqrt (by rw [neg_sq]; exact h)
      _ = -n := Real.sqrt_sq (by linarith)
  rw [Real.arccos_eq_pi, div_le_iff₀ hden]
  linarith

/-- The vertex computation of `GetPolygonArea` with the real functions in terms of the three
inner products `zl = M · L`, `zh = M · H` and `x = L · H`. -/
theorem GetPolygonArea.vertex_dots (Low Middle High : Point ℝ) (zl zh x : ℝ)
    (hzl : dot3 (cartesian ⟨Real.sin, Real.cos, Real.arccos, Real.sqrt, Real.pi⟩ Middle) (cartesian
        ⟨Real.sin, Real.cos, Real.arccos, Real.sqrt, Real.pi⟩ Low) = zl)
    (hzh : dot3 (cartesian ⟨Real.sin, Real.cos, Real.arccos, Real.sqrt, Real.pi⟩ Middle) (cartesian
        ⟨Real.sin, Real.cos, Real.arccos, Real.sqrt, Real.pi⟩ High) = zh)
    (hx : dot3 (cartesian ⟨Real.sin, Real.cos, Real.arccos, Real.sqrt, Real.pi⟩ Low) (cartesian
        ⟨Real.sin, Real.cos, Real.arccos, Real.sqrt, Real.pi⟩ High) = x)
    (pl : 0 < zl) (ph : 0 < zh) (ql : zl ^ 2 < 1) (qh : zh ^ 2 < 1) :
    GetPolygonArea.vertex ⟨Real.sin, Real.cos, Real.arccos, Real.sqrt, Real.pi⟩ Low Middle High =
      some (Real.arccos ((x - zh * zl) / (Real.sqrt (1 - zh ^ 2) * Real.sqrt (1 - zl ^ 2))),
        det3 (cartesian ⟨Real.sin, Real.cos, Real.arccos, Real.sqrt, Real.pi⟩ Middle) (cartesian
            ⟨Real.sin, Real.cos, Real.arccos, Real.sqrt, Real.pi⟩ High) (cartesian
            ⟨Real.sin, Real.cos, Real.arccos, Real.sqrt, Real.pi⟩ Low) / (zh * zl)) := by
  subst hzl hzh hx
  rw [GetPolygonArea.vertex_unit Low Middle High pl ph ql qh,
    sphericalAngle_unit _ _ _ (cartesian_unit Middle) (cartesian_unit Low)
      (cartesian_unit High)]

/-- Once a NaN has entered the sums of `GetPolygonArea`, it stays. -/
theorem GetPolygonArea.foldl_none {K : Type} [LinearOrderedField K]
    (vs : List (Option (K × K))) :
    vs.foldl GetPolygonArea.accumulate none = none := by
  induction vs with
  | nil => rfl
  | cons v vs ih =>
    rw [List.foldl_cons]
    exact ih

/-- The sums of `GetPolygonArea` on a triangle whose first vertex gives NaN. -/
theorem GetPolygonArea.sums_three_none {K : Type} [LinearOrderedField K] (m : MathPkg K)
    (A B C : Point K) (v1 : GetPolygonArea.vertex m C A B = none) :
    GetPolygonArea.sums m [A, B, C] = none := by
  have h : ∀ v : Option (K × K), GetPolygonArea.accumulate none v = none := fun _ => rfl
  simp only [GetPolygonArea.sums, GetPolygonArea.triples_three, List.map_cons, List.map_nil,
    List.foldl_cons, List.foldl_nil, v1, GetPolygonArea.accumulate_none, h]

/-- The vertex (lng 0, lat 0) between (lng 30, lat 0) and a second copy of itself: the
tangent towards the copy is the zero vector, and the angle is `0 / 0`. -/
theorem GetPolygonArea.vertex_repeated :
    GetPolygonArea.vertex ⟨Real.sin, Real.cos, Real.arccos, Real.sqrt, Real.pi⟩ ⟨30, 0⟩ ⟨0, 0⟩
        ⟨0, 0⟩ = none := by
  have h3 : Real.sqrt 3 ≠ 0 := (Real.sqrt_pos.2 (by norm_num)).ne.symm
  rw [vertex_eq_tangent, cartesian_origin, cartesian_east]
  simp [GetPolygonArea.tangent, h3]

/-- The three vertex computations of `GetPolygonArea` on the three points (lng -30, lat 0),
(lng 0, lat 0), (lng 30, lat 0) of the equator: the angles are 0, `π` and 0, and every
`OrientationValue` is 0. -/
theorem GetPolygonArea.vertex_equator :
    GetPolygonArea.vertex ⟨Real.sin, Real.cos, Real.arccos, Real.sqrt, Real.pi⟩ ⟨30, 0⟩ ⟨-30, 0⟩
        ⟨0, 0⟩ = some (0, 0) ∧
      GetPolygonArea.vertex ⟨Real.sin, Real.cos, Real.arccos, Real.sqrt, Real.pi⟩ ⟨-30, 0⟩ ⟨0, 0⟩
          ⟨30, 0⟩ = some (Real.pi, 0) ∧
      GetPolygonArea.vertex ⟨Real.sin, Real.cos, Real.arccos, Real.sqrt, Real.pi⟩ ⟨0, 0⟩ ⟨30, 0⟩
          ⟨-30, 0⟩ = some (0, 0) := by
  have hs := sqrt3_mul_self
  have h0 : 0 < Real.sqrt 3 := Real.sqrt_pos.2 (by norm_num)
  have d1 : det3 (cartesian ⟨Real.sin, Real.cos, Real.arccos, Real.sqrt, Real.pi⟩ ⟨-30, 0⟩)
      (cartesian ⟨Real.sin, Real.cos, Real.arccos, Real.sqrt, Real.pi⟩ ⟨0, 0⟩) (cartesian
          ⟨Real.sin, Real.cos, Real.arccos, Real.sqrt, Real.pi⟩ ⟨30, 0⟩) = 0 := by
    rw [cartesian_origin, cartesian_east, cartesian_west]
    simp only [det3]
    ring
  have d2 : det3 (cartesian ⟨Real.sin, Real.cos, Real.arccos, Real.sqrt, Real.pi⟩ ⟨0, 0⟩) (cartesian
      ⟨Real.sin, Real.cos, Real.arccos, Real.sqrt, Real.pi⟩ ⟨30, 0⟩) (cartesian
      ⟨Real.sin, Real.cos, Real.arccos, Real.sqrt, Real.pi⟩ ⟨-30, 0⟩) = 0 := by
    rw [cartesian_origin, cartesian_east, cartesian_west]
    simp only [det3]
    ring
  have d3 : det3 (cartesian ⟨Real.sin, Real.cos, Real.arccos, Real.sqrt, Real.pi⟩ ⟨30, 0⟩)
      (cartesian ⟨Real.sin, Real.cos, Real.arccos, Real.sqrt, Real.pi⟩ ⟨-30, 0⟩) (cartesian
          ⟨Real.sin, Real.cos, Real.arccos, Real.sqrt, Real.pi⟩ ⟨0, 0⟩) = 0 := by
    rw [cartesian_origin, cartesian_east, cartesian_west]
    simp only [det3]
    ring
  refine ⟨?_, ?_, ?_⟩
  · rw [GetPolygonArea.vertex_dots ⟨30, 0⟩ ⟨-30, 0⟩ ⟨0, 0⟩ (1 / 2) (Real.sqrt 3 / 2)
      (Real.sqrt 3 / 2) (by rw [dot3_comm]; exact dot3_east_west)
      (by rw [dot3_comm]; exact dot3_origin_west) (by rw [dot3_comm]; exact dot3_origin_east)
      (by norm_num) (by positivity) (by norm_num) (by nlinarith), d1, zero_div,
      arccos_ratio_zero _ _ _ (by nlinarith) (by nlinarith) (by norm_num) (by nlinarith)]
  · rw [GetPolygonArea.vertex_dots ⟨-30, 0⟩ ⟨0, 0⟩ ⟨30, 0⟩ (Real.sqrt 3 / 2) (Real.sqrt 3 / 2)
      (1 / 2) dot3_origin_west dot3_origin_east (by rw [dot3_comm]; exact dot3_east_west)
      (by positivity) (by positivity) (by nlinarith) (by nlinarith), d2, zero_div,
      arccos_ratio_pi _ _ _ (by nlinarith) (by nlinarith) (by nlinarith) (by nlinarith)]
  · rw [GetPolygonArea.vertex_dots ⟨0, 0⟩ ⟨30, 0⟩ ⟨-30, 0⟩ (Real.sqrt 3 / 2) (1 / 2)
      (Real.sqrt 3 / 2) (by rw [dot3_comm]; exact dot3_origin_east) dot3_east_west
      dot3_origin_west (by positivity) (by norm_num) (by nlinarith) (by norm_num), d3,
      zero_div,
      arccos_ratio_zero _ _ _ (by nlinarith) (by norm_num) (by nlinarith) (by nlinarith)]

/-- In exact real arithmetic not every polygon with at least 3 vertices gets a positive area:
with a vertex listed twice, (lng 0, lat 0), (lng 0, lat 0), (lng 30, lat 0),
`GetPolygonArea` returns NaN; on three points of the equator, (lng -30, lat 0),
(lng 0, lat 0), (lng 30, lat 0), it returns 0. -/
theorem GetPolygonArea_not_pos :
    GetPolygonArea ⟨Real.sin, Real.cos, Real.arccos, Real.sqrt, Real.pi⟩ ⟨[⟨0, 0⟩, ⟨0, 0⟩, ⟨30, 0⟩]⟩
        = .ok none ∧
      GetPolygonArea ⟨Real.sin, Real.cos, Real.arccos, Real.sqrt, Real.pi⟩
          ⟨[⟨-30, 0⟩, ⟨0, 0⟩, ⟨30, 0⟩]⟩ = .ok (some 0) := by
  constructor
  · rw [GetPolygonArea_eq _ _ (by simp),
      GetPolygonArea.sums_three_none _ _ _ _ GetPolygonArea.vertex_repeated]
    rfl
  · obtain ⟨v1, v2, v3⟩ := GetPolygonArea.vertex_equator
    have hlen : ([⟨-30, 0⟩, ⟨0, 0⟩, ⟨30, 0⟩] : List (Point ℝ)).length = 3 := rfl
    have hsel := (GetPolygonArea.select_triangle (0 + Real.pi + 0)
      (by linarith [Real.pi_pos]) (by linarith)).2
    rw [GetPolygonArea_eq _ _ (by simp),
      GetPolygonArea.sums_three_neg _ _ _ _ _ _ _ _ _ _ v1 v2 v3 (lt_irrefl 0) (lt_irrefl 0)
        (lt_irrefl 0), Option.map_some', hlen, hsel]
    congr 2
    ring

/-! ## Polygon area: a quadrilateral with a spike and its reverse -/

/-- The sums of `GetPolygonArea` on a quadrilateral whose second and third vertex have a
positive `OrientationValue` and whose first and fourth have not. -/
theorem GetPolygonArea.sums_four {K : Type} [LinearOrderedField K] (m : MathPkg K)
    (A B C D : Point K) (a1 o1 a2 o2 a3 o3 a4 o4 : K)
    (v1 : GetPolygonArea.vertex m D A B = some (a1, o1))
    (v2 : GetPolygonArea.vertex m A B C = some (a2, o2))
    (v3 : GetPolygonArea.vertex m B C D = some (a3, o3))
    (v4 : GetPolygonArea.vertex m C D A = some (a4, o4))
    (h1 : ¬ o1 > 0) (h2 : o2 > 0) (h3 : o3 > 0) (h4 : ¬ o4 > 0) :
    GetPolygonArea.sums m [A, B, C, D] = some (a2 + a3, 2, a1 + a4, 2) := by
  have c2 : (1 : K) + 1 = 2 := by norm_num
  simp only [GetPolygonArea.sums, GetPolygonArea.triples_four, List.map_cons, List.map_nil,
    List.foldl_cons, List.foldl_nil, v1, v2, v3, v4, GetPolygonArea.accumulate, h1, h2, h3, h4,
    if_true, if_false, c2, zero_add]

/-- The sums of `GetPolygonArea` on the reverse of a quadrilateral whose first vertex has a
negative `OrientationValue`, whose second and third have a positive one and whose fourth
has `OrientationValue` 0. -/
theorem GetPolygonArea.sums_four_reverse {K : Type} [LinearOrderedField K] (m : MathPkg K)
    (A B C D : Point K) (a1 o1 a2 o2 a3 o3 a4 : K)
    (v1 : GetPolygonArea.vertex m D A B = some (a1, o1))
    (v2 : GetPolygonArea.vertex m A B C = some (a2, o2))
    (v3 : GetPolygonArea.vertex m B C D = some (a3, o3))
    (v4 : GetPolygonArea.vertex m C D A = some (a4, 0))
    (h1 : o1 < 0) (h2 : o2 > 0) (h3 : o3 > 0) :
    GetPolygonArea.sums m [D, C, B, A] = some (a1, 1, a4 + a3 + a2, 3) := by
  have c3 : (1 : K) + 1 + 1 = 3 := by norm_num
  have n1 : -o1 > 0 := neg_pos.mpr h1
  have n2 : ¬ -o2 > 0 := not_lt.mpr (neg_nonpos.mpr h2.le)
  have n3 : ¬ -o3 > 0 := not_lt.mpr (neg_nonpos.mpr h3.le)
  have n4 : ¬ (-0 : K) > 0 := by rw [neg_zero]; exact lt_irrefl 0
  have w1 := GetPolygonArea.vertex_swap m D A B
  have w2 := GetPolygonArea.vertex_swap m A B C
  have w3 := GetPolygonArea.vertex_swap m B C D
  have w4 := GetPolygonArea.vertex_swap m C D A
  rw [v1, Option.map_some'] at w1
  rw [v2, Option.map_some'] at w2
  rw [v3, Option.map_some'] at w3
  rw [v4, Option.map_some'] at w4
  simp only [GetPolygonArea.sums, GetPolygonArea.triples_four, List.map_cons, List.map_nil,
    List.foldl_cons, List.foldl_nil, w1, w2, w3, w4, GetPolygonArea.accumulate, n1, n2, n3, n4,
    if_true, if_false, c3, zero_add]

/-- The choice of `GetPolygonArea` on the sums of the quadrilateral with a spike and on the
sums of its reverse: the two areas differ. -/
theorem GetPolygonArea.select_spike (a2 a3 : ℝ) (l2 : Real.pi / 4 < a2)
    (u2 : a2 ≤ Real.pi / 3) (l3 : Real.pi / 4 < a3) (u3 : a3 ≤ Real.pi / 3) :
    GetPolygonArea.select ⟨Real.sin, Real.cos, Real.arccos, Real.sqrt, Real.pi⟩ 4 (Real.pi / 2, 1, 0
        + a3 + a2, 3) <
      GetPolygonArea.select ⟨Real.sin, Real.cos, Real.arccos, Real.sqrt, Real.pi⟩ 4 (a2 + a3, 2,
          Real.pi / 2 + 0, 2) := by
  have hpi := Real.pi_gt_three
  have hpi4 := Real.pi_le_four
  have c2 : ((4 - 2 : ℕ) : ℝ) = 2 := by norm_num
  have hR : (0 : ℝ) < EARTHRADIUS := EARTHRADIUS_pos
  have e1 : GetPolygonArea.select ⟨Real.sin, Real.cos, Real.arccos, Real.sqrt, Real.pi⟩ 4 (Real.pi /
      2, 1, 0 + a3 + a2, 3) =
      (2 * Real.pi * 1 - Real.pi / 2 + (0 + a3 + a2) - 2 * Real.pi) * EARTHRADIUS *
        EARTHRADIUS := by
    simp only [GetPolygonArea.select, c2]
    split_ifs <;> first | rfl | (exfalso; linarith)
  have e2 : GetPolygonArea.select ⟨Real.sin, Real.cos, Real.arccos, Real.sqrt, Real.pi⟩ 4 (a2 + a3,
      2, Real.pi / 2 + 0, 2) =
      (2 * Real.pi * 2 - (a2 + a3) + (Real.pi / 2 + 0) - 2 * Real.pi) * EARTHRADIUS *
        EARTHRADIUS := by
    simp only [GetPolygonArea.select, c2]
    split_ifs <;> first | rfl | (exfalso; linarith)
  rw [e1, e2]
  have hRR : 0 < EARTHRADIUS * (EARTHRADIUS : ℝ) := mul_pos hR hR
  rw [mul_assoc _ (EARTHRADIUS : ℝ) EARTHRADIUS, mul_assoc _ (EARTHRADIUS : ℝ) EARTHRADIUS]
  have hlt : 2 * Real.pi * 1 - Real.pi / 2 + (0 + a3 + a2) - 2 * Real.pi <
      2 * Real.pi * 2 - (a2 + a3) + (Real.pi / 2 + 0) - 2 * Real.pi := by linarith
  exact mul_lt_mul_of_pos_right hlt hRR

/-- The four vertex computations of `GetPolygonArea` on the quadrilateral (lng 0, lat 0),
(lng 30, lat 0), (lng 0, lat 30), (lng 0, lat -30), whose last vertex is a spike: the edge
that enters it and the edge that leaves it run along the same meridian.  The first angle is
`π / 2` with a negative `OrientationValue`, the second and third are between `π / 4` and
`π / 3` with a positive one, and the fourth is 0 with `OrientationValue` 0. -/
theorem GetPolygonArea.vertex_spike :
    ∃ a2 a3 o1 o2 o3 : ℝ, o1 < 0 ∧ 0 < o2 ∧ 0 < o3 ∧
      Real.pi / 4 < a2 ∧ a2 ≤ Real.pi / 3 ∧ Real.pi / 4 < a3 ∧ a3 ≤ Real.pi / 3 ∧
      GetPolygonArea.vertex ⟨Real.sin, Real.cos, Real.arccos, Real.sqrt, Real.pi⟩ ⟨0, -30⟩ ⟨0, 0⟩
          ⟨30, 0⟩ = some (Real.pi / 2, o1) ∧
      GetPolygonArea.vertex ⟨Real.sin, Real.cos, Real.arccos, Real.sqrt, Real.pi⟩ ⟨0, 0⟩ ⟨30, 0⟩
          ⟨0, 30⟩ = some (a2, o2) ∧
      GetPolygonArea.vertex ⟨Real.sin, Real.cos, Real.arccos, Real.sqrt, Real.pi⟩ ⟨30, 0⟩ ⟨0, 30⟩
          ⟨0, -30⟩ = some (a3, o3) ∧
      GetPolygonArea.vertex ⟨Real.sin, Real.cos, Real.arccos, Real.sqrt, Real.pi⟩ ⟨0, 30⟩ ⟨0, -30⟩
          ⟨0, 0⟩ = some (0, 0) := by
  have hs := sqrt3_mul_self
  have h0 : 0 < Real.sqrt 3 := Real.sqrt_pos.2 (by norm_num)
  have d1 : det3 (cartesian ⟨Real.sin, Real.cos, Real.arccos, Real.sqrt, Real.pi⟩ ⟨0, 0⟩) (cartesian
      ⟨Real.sin, Real.cos, Real.arccos, Real.sqrt, Real.pi⟩ ⟨30, 0⟩) (cartesian
      ⟨Real.sin, Real.cos, Real.arccos, Real.sqrt, Real.pi⟩ ⟨0, -30⟩) =
      -(1 / 4) := by
    rw [cartesian_origin, cartesian_east, cartesian_south]
    simp only [det3]
    ring
  have d2 : det3 (cartesian ⟨Real.sin, Real.cos, Real.arccos, Real.sqrt, Real.pi⟩ ⟨30, 0⟩)
      (cartesian ⟨Real.sin, Real.cos, Real.arccos, Real.sqrt, Real.pi⟩ ⟨0, 30⟩) (cartesian
          ⟨Real.sin, Real.cos, Real.arccos, Real.sqrt, Real.pi⟩ ⟨0, 0⟩) =
      1 / 4 := by
    rw [cartesian_origin, cartesian_east, cartesian_north]
    simp only [det3]
    ring
  have d3 : det3 (cartesian ⟨Real.sin, Real.cos, Real.arccos, Real.sqrt, Real.pi⟩ ⟨0, 30⟩)
      (cartesian ⟨Real.sin, Real.cos, Real.arccos, Real.sqrt, Real.pi⟩ ⟨0, -30⟩) (cartesian
          ⟨Real.sin, Real.cos, Real.arccos, Real.sqrt, Real.pi⟩ ⟨30, 0⟩) =
      Real.sqrt 3 / 4 := by
    rw [cartesian_north, cartesian_east, cartesian_south]
    simp only [det3]
    ring
  have d4 : det3 (cartesian ⟨Real.sin, Real.cos, Real.arccos, Real.sqrt, Real.pi⟩ ⟨0, -30⟩)
      (cartesian ⟨Real.sin, Real.cos, Real.arccos, Real.sqrt, Real.pi⟩ ⟨0, 0⟩) (cartesian
          ⟨Real.sin, Real.cos, Real.arccos, Real.sqrt, Real.pi⟩ ⟨0, 30⟩) = 0 := by
    rw [cartesian_origin, cartesian_north, cartesian_south]
    simp only [det3]
    ring
  have v1 := GetPolygonArea.vertex_dots ⟨0, -30⟩ ⟨0, 0⟩ ⟨30, 0⟩ (Real.sqrt 3 / 2)
    (Real.sqrt 3 / 2) (3 / 4) dot3_origin_south dot3_origin_east
    (by rw [dot3_comm]; exact dot3_east_south) (by positivity) (by positivity) (by nlinarith)
    (by nlinarith)
  have v2 := GetPolygonArea.vertex_dots ⟨0, 0⟩ ⟨30, 0⟩ ⟨0, 30⟩ (Real.sqrt 3 / 2) (3 / 4)
    (Real.sqrt 3 / 2) (by rw [dot3_comm]; exact dot3_origin_east) dot3_east_north
    dot3_origin_north (by positivity) (by norm_num) (by nlinarith) (by norm_num)
  have v3 := GetPolygonArea.vertex_dots ⟨30, 0⟩ ⟨0, 30⟩ ⟨0, -30⟩ (3 / 4) (1 / 2) (3 / 4)
    (by rw [dot3_comm]; exact dot3_east_north) dot3_north_south dot3_east_south (by norm_num)
    (by norm_num) (by norm_num) (by norm_num)
  have v4 := GetPolygonArea.vertex_dots ⟨0, 30⟩ ⟨0, -30⟩ ⟨0, 0⟩ (1 / 2) (Real.sqrt 3 / 2)
    (Real.sqrt 3 / 2) (by rw [dot3_comm]; exact dot3_north_south)
    (by rw [dot3_comm]; exact dot3_origin_south) (by rw [dot3_comm]; exact dot3_origin_north)
    (by norm_num) (by positivity) (by norm_num) (by nlinarith)
  rw [d1] at v1
  rw [d2] at v2
  rw [d3] at v3
  rw [d4, zero_div,
    arccos_ratio_zero _ _ _ (by nlinarith) (by nlinarith) (by norm_num) (by nlinarith)] at v4
  have hA : Real.arccos ((3 / 4 - Real.sqrt 3 / 2 * (Real.sqrt 3 / 2)) /
      (Real.sqrt (1 - (Real.sqrt 3 / 2) ^ 2) * Real.sqrt (1 - (Real.sqrt 3 / 2) ^ 2))) =
      Real.pi / 2 := by
    rw [Real.arccos_eq_pi_div_two, div_eq_zero_iff]
    left
    linear_combination (-1 / 4 : ℝ) * hs
  rw [hA] at v1
  refine ⟨_, _, _, _, _, ?_, ?_, ?_, ?_, ?_, ?_, ?_, v1, v2, v3, v4⟩
  · exact div_neg_of_neg_of_pos (by norm_num) (by positivity)
  · exact div_pos (by norm_num) (by positivity)
  · exact div_pos (by positivity) (by norm_num)
  · exact arccos_ratio_gt _ _ _ (by norm_num) (by nlinarith) (by nlinarith)
  · exact arccos_ratio_le _ _ _ (by nlinarith) (by norm_num) (by nlinarith) (by nlinarith)
  · exact arccos_ratio_gt _ _ _ (by norm_num) (by norm_num) (by norm_num)
  · exact arccos_ratio_le _ _ _ (by norm_num) (by norm_num) (by norm_num) (by norm_num)

/-- In exact real arithmetic, on the self-overlapping quadrilateral (lng 0, lat 0),
(lng 30, lat 0), (lng 0, lat 30), (lng 0, lat -30) `GetPolygonArea` returns a number `v`, on the reversed list
it returns a number `w`, and `w < v`. -/
theorem GetPolygonArea_spike_reversed :
    ∃ v w : ℝ,
      GetPolygonArea ⟨Real.sin, Real.cos, Real.arccos, Real.sqrt, Real.pi⟩
          ⟨[⟨0, 0⟩, ⟨30, 0⟩, ⟨0, 30⟩, ⟨0, -30⟩]⟩ = .ok (some v) ∧
      GetPolygonArea ⟨Real.sin, Real.cos, Real.arccos, Real.sqrt, Real.pi⟩
          ⟨([⟨0, 0⟩, ⟨30, 0⟩, ⟨0, 30⟩, ⟨0, -30⟩] : List (Point ℝ)).reverse⟩ =
        .ok (some w) ∧
      w < v := by
  obtain ⟨a2, a3, o1, o2, o3, h1, h2, h3, l2, u2, l3, u3, v1, v2, v3, v4⟩ :=
    GetPolygonArea.vertex_spike
  have hr : ([⟨0, 0⟩, ⟨30, 0⟩, ⟨0, 30⟩, ⟨0, -30⟩] : List (Point ℝ)).reverse =
      [⟨0, -30⟩, ⟨0, 30⟩, ⟨30, 0⟩, ⟨0, 0⟩] := rfl
  have hlen : ([⟨0, 0⟩, ⟨30, 0⟩, ⟨0, 30⟩, ⟨0, -30⟩] : List (Point ℝ)).length = 4 := rfl
  have hlen2 : ([⟨0, -30⟩, ⟨0, 30⟩, ⟨30, 0⟩, ⟨0, 0⟩] : List (Point ℝ)).length = 4 := rfl
  refine ⟨_, _, ?_, ?_, GetPolygonArea.select_spike a2 a3 l2 u2 l3 u3⟩
  · rw [GetPolygonArea_eq _ _ (by simp),
      GetPolygonArea.sums_four _ _ _ _ _ _ _ _ _ _ _ _ _ v1 v2 v3 v4 (not_lt.mpr h1.le) h2 h3
        (lt_irrefl 0), Option.map_some', hlen]
  · rw [hr, GetPolygonArea_eq _ _ (by simp),
      GetPolygonArea.sums_four_reverse _ _ _ _ _ _ _ _ _ _ _ _ v1 v2 v3 v4 h1 h2 h3,
      Option.map_some', hlen2]

/-! ## Polygon area: sign of the result and reversal of the vertex list -/

/-- In exact real arithmetic: for every triangle whose vertices are pairwise less than 90
degrees apart on the sphere and not on one great circle, and whose spherical excess is below 1,
`GetPolygonArea` over the reals returns a positive value, the same for the vertex order
`A, B, C` and for the reverse order `C, B, A`. -/
theorem GetPolygonArea_pos (A B C : Point ℝ)
    (hab : 0 < dot3 (cartesian ⟨Real.sin, Real.cos, Real.arccos, Real.sqrt, Real.pi⟩ A)
      (cartesian ⟨Real.sin, Real.cos, Real.arccos, Real.sqrt, Real.pi⟩ B))
    (hbc : 0 < dot3 (cartesian ⟨Real.sin, Real.cos, Real.arccos, Real.sqrt, Real.pi⟩ B)
      (cartesian ⟨Real.sin, Real.cos, Real.arccos, Real.sqrt, Real.pi⟩ C))
    (hca : 0 < dot3 (cartesian ⟨Real.sin, Real.cos, Real.arccos, Real.sqrt, Real.pi⟩ C)
      (cartesian ⟨Real.sin, Real.cos, Real.arccos, Real.sqrt, Real.pi⟩ A))
    (hdet : det3 (cartesian ⟨Real.sin, Real.cos, Real.arccos, Real.sqrt, Real.pi⟩ A)
      (cartesian ⟨Real.sin, Real.cos, Real.arccos, Real.sqrt, Real.pi⟩ B)
      (cartesian ⟨Real.sin, Real.cos, Real.arccos, Real.sqrt, Real.pi⟩ C) ≠ 0)
    (hex : sphericalExcess ⟨Real.sin, Real.cos, Real.arccos, Real.sqrt, Real.pi⟩
      (cartesian ⟨Real.sin, Real.cos, Real.arccos, Real.sqrt, Real.pi⟩ A)
      (cartesian ⟨Real.sin, Real.cos, Real.arccos, Real.sqrt, Real.pi⟩ B)
      (cartesian ⟨Real.sin, Real.cos, Real.arccos, Real.sqrt, Real.pi⟩ C) < 1) :
    ∃ v : ℝ, 0 < v ∧
      GetPolygonArea ⟨Real.sin, Real.cos, Real.arccos, Real.sqrt, Real.pi⟩ ⟨[A, B, C]⟩ =
        .ok (some v) ∧
      GetPolygonArea ⟨Real.sin, Real.cos, Real.arccos, Real.sqrt, Real.pi⟩ ⟨[C, B, A]⟩ =
        .ok (some v) := by
  refine ⟨_, ?_, GetPolygonArea.triangle A B C hab hbc hca hdet hex, ?_⟩
  · exact mul_pos (mul_pos (sphericalExcess_pos _ _ _ (cartesian_unit A) (cartesian_unit B)
      (cartesian_unit C) hdet) EARTHRADIUS_pos) EARTHRADIUS_pos
  · rw [GetPolygonArea.triangle C B A (by rw [dot3_comm]; exact hbc)
      (by rw [dot3_comm]; exact hab) (by rw [dot3_comm]; exact hca)
      (by rw [det3_swap]; exact neg_ne_zero.mpr hdet)
      (by rw [sphericalExcess_swap]; exact hex), sphericalExcess_swap]

/-- In exact real arithmetic: the triangle (lng 0, lat 0), (lng 30, lat 0),
(lng 0, lat 30). -/
theorem GetPolygonArea_pos_witness :
    ∃ v : ℝ, 0 < v ∧
      GetPolygonArea ⟨Real.sin, Real.cos, Real.arccos, Real.sqrt, Real.pi⟩
        ⟨[⟨0, 0⟩, ⟨30, 0⟩, ⟨0, 30⟩]⟩ = .ok (some v) ∧
      GetPolygonArea ⟨Real.sin, Real.cos, Real.arccos, Real.sqrt, Real.pi⟩
        ⟨[⟨0, 30⟩, ⟨30, 0⟩, ⟨0, 0⟩]⟩ = .ok (some v) :=
  GetPolygonArea_pos ⟨0, 0⟩ ⟨30, 0⟩ ⟨0, 30⟩ rightTriangle_facts.1
    rightTriangle_facts.2.1 rightTriangle_facts.2.2.1 rightTriangle_facts.2.2.2.1
    rightTriangle_facts.2.2.2.2

/-- In exact arithmetic `GetPolygonArea` of the reversed vertex list equals `GetPolygonArea` of
the list, for every point list on which no vertex has `OrientationValue` 0 and the two angle
sums `Sum1` and `Sum2` differ (a result that is NaN stays NaN). -/
theorem GetPolygonArea_reverse (K : Type) [LinearOrderedField K] (m : MathPkg K)
    (pts : List (Point K))
    (ho : ∀ t ∈ GetPolygonArea.triples pts, ∀ a o,
      GetPolygonArea.vertex m t.1 t.2.1 t.2.2 = some (a, o) → o ≠ 0)
    (hs : ∀ S1 C1 S2 C2, GetPolygonArea.sums m pts = some (S1, C1, S2, C2) → S1 ≠ S2) :
    GetPolygonArea m ⟨pts.reverse⟩ = GetPolygonArea m ⟨pts⟩ := by
  by_cases hN : pts.length < 3
  · rw [GetPolygonArea_short m pts hN,
      GetPolygonArea_short m pts.reverse (by rw [List.length_reverse]; exact hN)]
  · rw [GetPolygonArea_eq m pts (by omega),
      GetPolygonArea_eq m pts.reverse (by rw [List.length_reverse]; omega),
      GetPolygonArea.sums_reverse m pts (by omega) ho, List.length_reverse, Option.map_map]
    congr 1
    rcases hsum : GetPolygonArea.sums m pts with _ | ⟨S1, C1, S2, C2⟩
    · rfl
    · exact congrArg some (GetPolygonArea.select_swap m pts.length S1 C1 S2 C2
        (hs S1 C1 S2 C2 hsum))

/-- In exact real arithmetic: the triangle (lng 0, lat 0), (lng 30, lat 0),
(lng 0, lat 30) over the reals. -/
theorem GetPolygonArea_reverse_witness :
    GetPolygonArea ⟨Real.sin, Real.cos, Real.arccos, Real.sqrt, Real.pi⟩
        ⟨([⟨0, 0⟩, ⟨30, 0⟩, ⟨0, 30⟩] : List (Point ℝ)).reverse⟩ =
      GetPolygonArea ⟨Real.sin, Real.cos, Real.arccos, Real.sqrt, Real.pi⟩
        ⟨[⟨0, 0⟩, ⟨30, 0⟩, ⟨0, 30⟩]⟩ :=
  GetPolygonArea_reverse ℝ ⟨Real.sin, Real.cos, Real.arccos, Real.sqrt, Real.pi⟩
    [⟨0, 0⟩, ⟨30, 0⟩, ⟨0, 30⟩]
    (GetPolygonArea.triangle_regular ⟨0, 0⟩ ⟨30, 0⟩ ⟨0, 30⟩ rightTriangle_facts.1
      rightTriangle_facts.2.1 rightTriangle_facts.2.2.1 rightTriangle_facts.2.2.2.1).1
    (GetPolygonArea.triangle_regular ⟨0, 0⟩ ⟨30, 0⟩ ⟨0, 30⟩ rightTriangle_facts.1
      rightTriangle_facts.2.1 rightTriangle_facts.2.2.1 rightTriangle_facts.2.2.2.1).2


open F64

/-! ## Runs of the binary64 code -/

/-- A longitude that needs no wrap passes both loops of `getLoop` at once. -/
theorem Binary64.getLoop_inRange (fuel : Nat) (v a b : F64) (h1 : F64.gt v b = false)
    (h2 : F64.lt v a = false) : Binary64.getLoop (fuel + 1) v a b = some v := by
  simp [Binary64.getLoop, Binary64.getLoop.down, Binary64.getLoop.up, h1, h2]

/-- On two points whose longitudes need no wrap, `GetDistance` at any positive fuel is the run
with fuel 1. -/
theorem Binary64.GetDistance_fuel (fuel : Nat) (p q : Point F64)
    (hp1 : F64.gt p.Lng (ofNat 180) = false) (hp2 : F64.lt p.Lng (ofFrac true 180 1) = false)
    (hq1 : F64.gt q.Lng (ofNat 180) = false) (hq2 : F64.lt q.Lng (ofFrac true 180 1) = false) :
    Binary64.GetDistance (fuel + 1) p q = Binary64.GetDistance 1 p q := by
  simp only [Binary64.GetDistance, Binary64.getLoop_inRange _ _ _ _ hp1 hp2,
    Binary64.getLoop_inRange _ _ _ _ hq1 hq2]

set_option maxRecDepth 100000 in
/-- C9 (fails on the code): on the two points of `TestGetDistance`, both with longitude 82
and latitude 22, the binary64 run of `GetDistance` returns `0.13425871923878038`, which is
greater than `0`, at every positive fuel; on two points with longitude 82 and latitude 10 it
returns NaN. -/
theorem GetDistance_same_point :
    (∀ fuel, (Binary64.GetDistance (fuel + 1) ⟨ofNat 82, ofNat 22⟩ ⟨ofNat 82, ofNat 22⟩).map
        Prod.fst = some (ofFrac false 13425871923878038 (10 ^ 17))) ∧
      F64.gt (ofFrac false 13425871923878038 (10 ^ 17)) (ofNat 0) = true ∧
      (∀ fuel, (Binary64.GetDistance (fuel + 1) ⟨ofNat 82, ofNat 10⟩ ⟨ofNat 82, ofNat 10⟩).map
        Prod.fst = some F64.nan) := by
  refine ⟨fun fuel => ?_, by decide!, fun fuel => ?_⟩
  · rw [Binary64.GetDistance_fuel fuel _ _ (by decide!) (by decide!) (by decide!) (by decide!)]
    decide!
  · rw [Binary64.GetDistance_fuel fuel _ _ (by decide!) (by decide!) (by decide!) (by decide!)]
    decide!

set_option maxRecDepth 100000 in
/-- C10 (fails on the code): for two points with the same longitude 82 the binary64 run of
`GetDistance` returns NaN when both latitudes are 10, and `0` for the latitudes 10 and
10.0000001, where `EARTHRADIUS * (pi/180) * |c(lat1) - c(lat2)|` is `0` and about `0.0111`.
On the example of the claim, latitudes 102 and 22, it returns `5782133.290364891` and leaves
the first point with the latitude 74. -/
theorem GetDistance_same_longitude_binary64 :
    (∀ fuel, (Binary64.GetDistance (fuel + 1) ⟨ofNat 82, ofNat 10⟩ ⟨ofNat 82, ofNat 10⟩).map
        Prod.fst = some F64.nan) ∧
      (∀ fuel, (Binary64.GetDistance (fuel + 1) ⟨ofNat 82, ofNat 10⟩
        ⟨ofNat 82, ofFrac false 100000001 (10 ^ 7)⟩).map Prod.fst = some (ofNat 0)) ∧
      (∀ fuel, Binary64.GetDistance (fuel + 1) ⟨ofNat 82, ofNat 102⟩ ⟨ofNat 82, ofNat 22⟩ =
        some (ofFrac false 5782133290364891 (10 ^ 9), ⟨ofNat 82, ofNat 74⟩,
          ⟨ofNat 82, ofNat 22⟩)) := by
  refine ⟨fun fuel => ?_, fun fuel => ?_, fun fuel => ?_⟩
  · rw [Binary64.GetDistance_fuel fuel _ _ (by decide!) (by decide!) (by decide!) (by decide!)]
    decide!
  · rw [Binary64.GetDistance_fuel fuel _ _ (by decide!) (by decide!) (by decide!) (by decide!)]
    decide!
  · rw [Binary64.GetDistance_fuel fuel _ _ (by decide!) (by decide!) (by decide!) (by decide!)]
    decide!

/-- On a point and a circle whose longitudes need no wrap, `IsPointInCircle` at any positive
fuel is the run with fuel 1. -/
theorem Binary64.IsPointInCircle_fuel (fuel : Nat) (p : Point F64) (c : Circle F64)
    (hp1 : F64.gt p.Lng (ofNat 180) = false) (hp2 : F64.lt p.Lng (ofFrac true 180 1) = false)
    (hq1 : F64.gt c.Center.Lng (ofNat 180) = false)
    (hq2 : F64.lt c.Center.Lng (ofFrac true 180 1) = false) :
    Binary64.IsPointInCircle (fuel + 1) p c = Binary64.IsPointInCircle 1 p c := by
  simp only [Binary64.IsPointInCircle, Binary64.GetDistance_fuel fuel _ _ hp1 hp2 hq1 hq2]

set_option maxRecDepth 100000 in
/-- C17 (fails on the code): the binary64 run of `IsPointInCircle` on the centre of a circle
returns false for the centre with longitude 0 and latitude 10 and radius 100 (the distance is
NaN), and for the centre of `TestIsPointInCircle`, longitude 80 and latitude 22, with radius
0 (the distance is `0.13425871923878038`); with the radius 100 of the test it returns true. -/
theorem IsPointInCircle_center_binary64 :
    (∀ fuel, (Binary64.IsPointInCircle (fuel + 1) ⟨ofNat 0, ofNat 10⟩
        ⟨⟨ofNat 0, ofNat 10⟩, ofNat 100⟩).map Prod.fst = some false) ∧
      (∀ fuel, (Binary64.IsPointInCircle (fuel + 1) ⟨ofNat 80, ofNat 22⟩
        ⟨⟨ofNat 80, ofNat 22⟩, ofNat 0⟩).map Prod.fst = some false) ∧
      (∀ fuel, (Binary64.IsPointInCircle (fuel + 1) ⟨ofNat 80, ofNat 22⟩
        ⟨⟨ofNat 80, ofNat 22⟩, ofNat 100⟩).map Prod.fst = some true) := by
  refine ⟨fun fuel => ?_, fun fuel => ?_, fun fuel => ?_⟩
  · rw [Binary64.IsPointInCircle_fuel fuel _ _ (by decide!) (by decide!) (by decide!)
      (by decide!)]
    decide!
  · rw [Binary64.IsPointInCircle_fuel fuel _ _ (by decide!) (by decide!) (by decide!)
      (by decide!)]
    decide!
  · rw [Binary64.IsPointInCircle_fuel fuel _ _ (by decide!) (by decide!) (by decide!)
      (by decide!)]
    decide!

set_option maxRecDepth 100000 in
/-- C15 (fails on the code): on the triangle `(116.395, 39.91)`, `(116.3951, 39.91)`,
`(116.395, 39.9101)`, with legs of about 8.5 m and 11 m, the binary64 run of `GetPolygonArea`
returns `-2063.728452314361`, a negative value, in both vertex orders. -/
theorem GetPolygonArea_smallTriangle :
    Binary64.GetPolygonArea ⟨Binary64.smallTriangle⟩ =
        .ok (some (ofFrac true 2063728452314361 (10 ^ 12))) ∧
      Binary64.GetPolygonArea ⟨Binary64.smallTriangle.reverse⟩ =
        .ok (some (ofFrac true 2063728452314361 (10 ^ 12))) ∧
      F64.lt (ofFrac true 2063728452314361 (10 ^ 12)) (ofNat 0) = true := by
  refine ⟨by decide!, by decide!, by decide!⟩

set_option maxRecDepth 100000 in
/-- C16 (fails on the code): on the triangle `(60, 0)`, `(90, 0)`, `(90, 30)`, whose spherical
excess times `EARTHRADIUS^2` is about `5.82e12`, the binary64 run of `GetPolygonArea` returns
`318789975703063.06`.  At the vertex `(90, 0)` the coordinate `AM` is
`6.123233995736757e-17`, not `0`, and `OrientationValue`, taken as `ANormalLine / AM`, is
`0`. -/
theorem GetPolygonArea_meridianTriangle :
    Binary64.GetPolygonArea ⟨Binary64.meridianTriangle⟩ =
        .ok (some (ofFrac false 31878997570306306 100)) ∧
      Binary64.GetPolygonArea.cartesian ⟨ofNat 90, ofNat 0⟩ =
        some (ofFrac false 6123233995736757 (10 ^ 32), ofNat 1, ofNat 0) ∧
      (Binary64.GetPolygonArea.vertex ⟨ofNat 60, ofNat 0⟩ ⟨ofNat 90, ofNat 0⟩
        ⟨ofNat 90, ofNat 30⟩).map Prod.snd = some (ofNat 0) := by
  refine ⟨by decide!, by decide!, by decide!⟩

set_option maxRecDepth 100000 in
/-- C20 (fails on the code): on the triangle `(60, 0)`, `(90, 0)`, `(90, 30)` the binary64 run
of `GetPolygonArea` returns `318789975703063.06` and on the reversed vertex list
`5818420533447.235`. -/
theorem GetPolygonArea_meridianTriangle_reverse :
    Binary64.GetPolygonArea ⟨Binary64.meridianTriangle⟩ =
        .ok (some (ofFrac false 31878997570306306 100)) ∧
      Binary64.GetPolygonArea ⟨Binary64.meridianTriangle.reverse⟩ =
        .ok (some (ofFrac false 5818420533447235 1000)) ∧
      Binary64.GetPolygonArea ⟨Binary64.meridianTriangle.reverse⟩ ≠
        Binary64.GetPolygonArea ⟨Binary64.meridianTriangle⟩ := by
  refine ⟨by decide!, by decide!, by decide!⟩

set_option maxRecDepth 100000 in
/-- C14, counterexample: the binary64 runs of `GetPolygonArea` on the polygon of
`TestGetPolygonArea` and on the same ring started at its second vertex return different
values (`810876.5279315191` and `810876.6000331333`). -/
theorem GetPolygonArea_testPolygon_rotate_ne :
    Binary64.GetPolygonArea ⟨Binary64.testPolygon.rotate 1⟩ ≠
      Binary64.GetPolygonArea ⟨Binary64.testPolygon⟩ := by
  decide!

/-! ## Binary64: exact additions -/

theorem F64.ilog2.go_spec (n : Nat) : ∀ (j lo : Nat), 2 ^ lo ≤ n → n < 2 ^ (lo + 2 ^ (j + 1)) →
    2 ^ F64.ilog2.go n (j + 2) lo (2 ^ j) ≤ n ∧
      n < 2 ^ (F64.ilog2.go n (j + 2) lo (2 ^ j) + 1) := by
  intro j
  induction j with
  | zero =>
    intro lo h1 h2
    have e : F64.ilog2.go n (0 + 2) lo (2 ^ 0) = if 2 ^ (lo + 1) ≤ n then lo + 1 else lo := by
      simp [F64.ilog2.go]
    rw [e]
    by_cases h : 2 ^ (lo + 1) ≤ n
    · rw [if_pos h]
      exact ⟨h, by simpa [Nat.add_assoc] using h2⟩
    · rw [if_neg h]
      exact ⟨h1, not_le.mp h⟩
  | succ j ih =>
    intro lo h1 h2
    have e : F64.ilog2.go n (j + 1 + 2) lo (2 ^ (j + 1)) =
        if 2 ^ (lo + 2 ^ (j + 1)) ≤ n then F64.ilog2.go n (j + 2) (lo + 2 ^ (j + 1)) (2 ^ j)
        else F64.ilog2.go n (j + 2) lo (2 ^ j) := by
      have h2j : 2 ^ (j + 1) / 2 = 2 ^ j := by
        rw [pow_succ]
        exact Nat.mul_div_cancel _ (by norm_num)
      rw [show j + 1 + 2 = (j + 2) + 1 from rfl, F64.ilog2.go, h2j]
    rw [e]
    by_cases h : 2 ^ (lo + 2 ^ (j + 1)) ≤ n
    · rw [if_pos h]
      apply ih _ h
      have : lo + 2 ^ (j + 1) + 2 ^ (j + 1) = lo + 2 ^ (j + 1 + 1) := by
        rw [pow_succ 2 (j + 1)]; omega
      rw [this]
      exact h2
    · rw [if_neg h]
      exact ih _ h1 (not_le.mp h)

/-- The leading bit: `2 ^ ilog2 n ≤ n < 2 ^ (ilog2 n + 1)` for `1 ≤ n < 2 ^ 4096`. -/
theorem F64.ilog2_spec (n : Nat) (h1 : 1 ≤ n) (h2 : n < 2 ^ 4096) :
    2 ^ F64.ilog2 n ≤ n ∧ n < 2 ^ (F64.ilog2 n + 1) := by
  have e : (4096 : Nat) = 0 + 2 ^ (11 + 1) := by norm_num
  rw [e] at h2
  exact F64.ilog2.go_spec n 11 0 h1 h2

theorem F64.ilog2_mono (n m : Nat) (h1 : 1 ≤ n) (hnm : n ≤ m) (h2 : m < 2 ^ 4096) :
    F64.ilog2 n ≤ F64.ilog2 m := by
  have hn := F64.ilog2_spec n h1 (lt_of_le_of_lt hnm h2)
  have hm := F64.ilog2_spec m (le_trans h1 hnm) h2
  have : 2 ^ F64.ilog2 n < 2 ^ (F64.ilog2 m + 1) :=
    lt_of_le_of_lt hn.1 (lt_of_le_of_lt hnm hm.2)
  have := (Nat.pow_lt_pow_iff_right (by norm_num : 1 < 2)).mp this
  omega

theorem F64.ilog2_lt (n k : Nat) (h1 : 1 ≤ n) (hk : n < 2 ^ k) (h2 : n < 2 ^ 4096) :
    F64.ilog2 n < k := by
  have hn := F64.ilog2_spec n h1 h2
  exact (Nat.pow_lt_pow_iff_right (by norm_num : 1 < 2)).mp (lt_of_le_of_lt hn.1 hk)

theorem F64.roundHalfEven_one (n : Nat) : F64.roundHalfEven n 1 = n := by
  simp [F64.roundHalfEven, Nat.mod_one]

theorem F64.roundHalfEven_dvd (n d : Nat) (hd : 0 < d) (h : d ∣ n) :
    F64.roundHalfEven n d * d = n := by
  obtain ⟨k, rfl⟩ := h
  simp [F64.roundHalfEven, Nat.mul_mod_right, hd, Nat.mul_div_cancel_left _ hd, Nat.mul_comm]

/-- A magnitude below `2^53` is its own rounding. -/
theorem F64.grid_of_lt (n : Nat) (h : n < 2 ^ 53) : F64.grid n 1 = n := by
  rw [F64.grid, Nat.div_one, if_pos h, F64.roundHalfEven_one]

/-- A magnitude that is a multiple of the unit in its last place is its own rounding. -/
theorem F64.grid_of_dvd (n : Nat) (h : 2 ^ (F64.ilog2 n - 52) ∣ n) : F64.grid n 1 = n := by
  by_cases h0 : n < 2 ^ 53
  · exact F64.grid_of_lt n h0
  · rw [F64.grid, Nat.div_one, if_neg h0, Nat.one_mul]
    exact F64.roundHalfEven_dvd n _ (by positivity) h

/-- A magnitude of `2^53` or more that is its own rounding is a multiple of the unit in its
last place. -/
theorem F64.dvd_of_grid (n : Nat) (h0 : 2 ^ 53 ≤ n) (h : F64.grid n 1 = n) :
    2 ^ (F64.ilog2 n - 52) ∣ n := by
  rw [F64.grid, Nat.div_one, if_neg (not_lt.mpr h0), Nat.one_mul] at h
  exact Dvd.intro_left _ h

/-- A smaller magnitude is its own rounding when it is a multiple of every power of two,
up to `2^1077`, that divides a given magnitude of at most `2^1130` which is its own
rounding. -/
theorem F64.grid_of_smaller (m n : Nat) (hm : F64.grid m 1 = m) (hmb : m ≤ 2 ^ 1130)
    (hn : n < m) (hc : ∀ s, s ≤ 1077 → 2 ^ s ∣ m → 2 ^ s ∣ n) : F64.grid n 1 = n := by
  by_cases h0 : n < 2 ^ 53
  · exact F64.grid_of_lt n h0
  · have h0' : 2 ^ 53 ≤ n := not_lt.mp h0
    have hn1 : 1 ≤ n := le_trans (Nat.one_le_two_pow) h0'
    have hm4 : m < 2 ^ 4096 := by
      apply lt_of_le_of_lt hmb
      apply Nat.pow_lt_pow_right <;> decide
    have hdm := F64.dvd_of_grid m (le_trans h0' hn.le) hm
    have hmono := F64.ilog2_mono n m hn1 hn.le hm4
    have hlt := F64.ilog2_lt n 1130 hn1 (lt_of_lt_of_le hn hmb) (lt_trans hn hm4)
    apply F64.grid_of_dvd
    apply hc _ (by omega)
    exact dvd_trans (pow_dvd_pow 2 (by omega)) hdm

/-- Rounding a magnitude that is its own rounding and below `2^1024`. -/
theorem F64.round_of_grid (s : Bool) (n : Nat) (h : F64.grid n 1 = n) (hb : n < 2 ^ 2098) :
    F64.round s n 1 = fin s n := by
  rw [F64.round, h, if_pos hb]

theorem F64.pow_dvd_unit (s c : Nat) (hs : s ≤ 1077) : 2 ^ s ∣ 8 * c * 2 ^ 1074 := by
  have h : (2 : Nat) ^ s ∣ 2 ^ 1077 := pow_dvd_pow 2 hs
  have e : 8 * c * 2 ^ 1074 = c * 2 ^ 1077 := by
    rw [show (1077 : Nat) = 3 + 1074 from rfl, pow_add]
    ring
  rw [e]
  exact Dvd.dvd.mul_left h c

/-- The value of a finite binary64 number. -/
theorem F64.toRat_fin (s : Bool) (m : Nat) :
    F64.toRat (fin s m) = if s then -((m : ℚ) / 2 ^ 1074) else (m : ℚ) / 2 ^ 1074 := rfl

/-- The unit `2^-1074` of the magnitudes, as a rational number. -/
theorem F64.unit_cast : (((2 : ℕ) ^ 1074 : ℕ) : ℚ) = (2 : ℚ) ^ 1074 := by
  rw [Nat.cast_pow, Nat.cast_ofNat]

theorem F64.unit_pos : 0 < (2 : ℕ) ^ 1074 := by decide!

theorem F64.half_lt (U m : ℕ) (h : 180 * U < m) : 8 * 45 * U < 2 * m := by omega

/-- Subtracting a multiple `8 k` of eight from a positive binary64 number `x` of at most
`2^56`, with `8 k < 2 x`, is exact. -/
theorem F64.sub_exact (m k : Nat) (hm : F64.grid m 1 = m) (hmb : m ≤ 2 ^ 1130)
    (hk : 0 < k) (hlt : 8 * k * 2 ^ 1074 < 2 * m) :
    ∃ s1 m1, F64.sub (fin false m) (fin false (8 * k * 2 ^ 1074)) = fin s1 m1 ∧
      F64.grid m1 1 = m1 ∧ m1 ≤ 2 ^ 1130 ∧
      F64.toRat (fin s1 m1) = F64.toRat (fin false m) - 8 * k := by
  have hu : (0 : ℚ) < 2 ^ 1074 := by positivity
  have h8 : 0 < 8 * k := Nat.mul_pos (by decide) hk
  have hcpos : 0 < 8 * k * 2 ^ 1074 := by
    have hU := F64.unit_pos
    generalize (2 : ℕ) ^ 1074 = U at hU ⊢
    exact Nat.mul_pos h8 hU
  generalize hc : 8 * k * 2 ^ 1074 = c at hlt hcpos
  have hcq : (c : ℚ) = 8 * k * 2 ^ 1074 := by
    rw [← hc, Nat.cast_mul, Nat.cast_mul, Nat.cast_ofNat, F64.unit_cast]
  have hdvd : ∀ s, s ≤ 1077 → 2 ^ s ∣ c := fun s hs => hc ▸ F64.pow_dvd_unit s k hs
  have hb2 : (2 : Nat) ^ 1130 < 2 ^ 2098 := by decide!
  have e : F64.sub (fin false m) (fin false c) =
      if m = c then fin false 0
      else if c < m then F64.round false (m - c) 1 else F64.round true (c - m) 1 := by
    simp [F64.sub, F64.neg, F64.add]
  rw [e]
  by_cases h1 : m = c
  · rw [if_pos h1]
    refine ⟨false, 0, rfl, F64.grid_of_lt 0 (by positivity), Nat.zero_le _, ?_⟩
    rw [F64.toRat_fin, F64.toRat_fin, h1, hcq]
    simp only [Bool.false_eq_true, if_false, Nat.cast_zero, zero_div]
    field_simp
  · rw [if_neg h1]
    by_cases h2 : c < m
    · rw [if_pos h2]
      have hg : F64.grid (m - c) 1 = m - c :=
        F64.grid_of_smaller m (m - c) hm hmb (by omega)
          (fun s hs hd => Nat.dvd_sub' hd (hdvd s hs))
      refine ⟨false, m - c, F64.round_of_grid _ _ hg (by omega), hg, by omega, ?_⟩
      rw [F64.toRat_fin, F64.toRat_fin, Nat.cast_sub h2.le, hcq]
      simp only [Bool.false_eq_true, if_false]
      field_simp
      ring
    · rw [if_neg h2]
      have h3 : m < c := by omega
      have hg : F64.grid (c - m) 1 = c - m :=
        F64.grid_of_smaller m (c - m) hm hmb (by omega)
          (fun s hs hd => Nat.dvd_sub' (hdvd s hs) hd)
      refine ⟨true, c - m, F64.round_of_grid _ _ hg (by omega), hg, by omega, ?_⟩
      rw [F64.toRat_fin, F64.toRat_fin, Nat.cast_sub h3.le, hcq]
      simp only [Bool.false_eq_true, if_false, if_true]
      field_simp
      ring

/-- Adding a multiple `8 k` of eight to a negative binary64 number `-x` of at least `-2^56`,
with `8 k < 2 x`, is exact. -/
theorem F64.add_exact (m k : Nat) (hm : F64.grid m 1 = m) (hmb : m ≤ 2 ^ 1130)
    (hk : 0 < k) (hlt : 8 * k * 2 ^ 1074 < 2 * m) :
    ∃ s1 m1, F64.add (fin true m) (fin false (8 * k * 2 ^ 1074)) = fin s1 m1 ∧
      F64.grid m1 1 = m1 ∧ m1 ≤ 2 ^ 1130 ∧
      F64.toRat (fin s1 m1) = F64.toRat (fin true m) + 8 * k := by
  have hu : (0 : ℚ) < 2 ^ 1074 := by positivity
  have h8 : 0 < 8 * k := Nat.mul_pos (by decide) hk
  have hcpos : 0 < 8 * k * 2 ^ 1074 := by
    have hU := F64.unit_pos
    generalize (2 : ℕ) ^ 1074 = U at hU ⊢
    exact Nat.mul_pos h8 hU
  generalize hc : 8 * k * 2 ^ 1074 = c at hlt hcpos
  have hcq : (c : ℚ) = 8 * k * 2 ^ 1074 := by
    rw [← hc, Nat.cast_mul, Nat.cast_mul, Nat.cast_ofNat, F64.unit_cast]
  have hdvd : ∀ s, s ≤ 1077 → 2 ^ s ∣ c := fun s hs => hc ▸ F64.pow_dvd_unit s k hs
  have hb2 : (2 : Nat) ^ 1130 < 2 ^ 2098 := by decide!
  have e : F64.add (fin true m) (fin false c) =
      if m = c then fin false 0
      else if c < m then F64.round true (m - c) 1 else F64.round false (c - m) 1 := by
    simp [F64.add]
  rw [e]
  by_cases h1 : m = c
  · rw [if_pos h1]
    refine ⟨false, 0, rfl, F64.grid_of_lt 0 (by positivity), Nat.zero_le _, ?_⟩
    rw [F64.toRat_fin, F64.toRat_fin, h1, hcq]
    simp only [Bool.false_eq_true, if_false, if_true, Nat.cast_zero, zero_div]
    field_simp
  · rw [if_neg h1]
    by_cases h2 : c < m
    · rw [if_pos h2]
      have hg : F64.grid (m - c) 1 = m - c :=
        F64.grid_of_smaller m (m - c) hm hmb (by omega)
          (fun s hs hd => Nat.dvd_sub' hd (hdvd s hs))
      refine ⟨true, m - c, F64.round_of_grid _ _ hg (by omega), hg, by omega, ?_⟩
      rw [F64.toRat_fin, F64.toRat_fin, Nat.cast_sub h2.le, hcq]
      simp only [if_true]
      field_simp
      ring
    · rw [if_neg h2]
      have h3 : m < c := by omega
      have hg : F64.grid (c - m) 1 = c - m :=
        F64.grid_of_smaller m (c - m) hm hmb (by omega)
          (fun s hs hd => Nat.dvd_sub' (hdvd s hs) hd)
      refine ⟨false, c - m, F64.round_of_grid _ _ hg (by omega), hg, by omega, ?_⟩
      rw [F64.toRat_fin, F64.toRat_fin, Nat.cast_sub h3.le, hcq]
      simp only [Bool.false_eq_true, if_false, if_true]
      field_simp
      ring

/-- The test `v > c` of a finite binary64 number against a non-negative number. -/
theorem F64.gt_iff (s : Bool) (m n : Nat) :
    F64.gt (fin s m) (fin false n) = true ↔ s = false ∧ n < m := by
  cases s <;> simp [F64.gt, F64.lt]

/-- The test `v < -c` of a finite binary64 number against a non-positive number. -/
theorem F64.lt_iff (s : Bool) (m n : Nat) :
    F64.lt (fin s m) (fin true n) = true ↔ s = true ∧ n < m := by
  cases s <;> simp [F64.lt]

theorem F64.toRat_gt_iff (s : Bool) (m c : Nat) :
    F64.toRat (fin s m) > c ↔ s = false ∧ c * 2 ^ 1074 < m := by
  rw [F64.toRat_fin, ← F64.unit_cast]
  have hU := F64.unit_pos
  generalize (2 : ℕ) ^ 1074 = U at hU ⊢
  have hu : (0 : ℚ) < U := by exact_mod_cast hU
  cases s
  · simp only [Bool.false_eq_true, if_false, true_and, gt_iff_lt]
    rw [lt_div_iff₀ hu]
    exact_mod_cast Iff.rfl
  · simp only [if_true, Bool.true_eq_false, false_and, iff_false, gt_iff_lt, not_lt]
    have h1 : (0 : ℚ) ≤ (m : ℚ) / U := by positivity
    have h2 : (0 : ℚ) ≤ c := by positivity
    linarith

theorem F64.toRat_lt_iff (s : Bool) (m c : Nat) :
    F64.toRat (fin s m) < -(c : ℚ) ↔ s = true ∧ c * 2 ^ 1074 < m := by
  rw [F64.toRat_fin, ← F64.unit_cast]
  have hU := F64.unit_pos
  generalize (2 : ℕ) ^ 1074 = U at hU ⊢
  have hu : (0 : ℚ) < U := by exact_mod_cast hU
  cases s
  · simp only [Bool.false_eq_true, if_false, false_and, iff_false, not_lt]
    have h1 : (0 : ℚ) ≤ (m : ℚ) / U := by positivity
    have h2 : (0 : ℚ) ≤ c := by positivity
    linarith
  · simp only [if_true, true_and, neg_lt_neg_iff]
    rw [lt_div_iff₀ hu]
    exact_mod_cast Iff.rfl

set_option maxRecDepth 100000 in
/-- The bounds `-180` and `180` of the longitude wrap and their difference in binary64. -/
theorem Binary64.wrap_constants :
    ofFrac true 180 1 = fin true (180 * 2 ^ 1074) ∧ ofNat 180 = fin false (180 * 2 ^ 1074) ∧
      F64.sub (fin false (180 * 2 ^ 1074)) (fin true (180 * 2 ^ 1074)) =
        fin false (8 * 45 * 2 ^ 1074) := by
  decide!

/-- The first loop of the binary64 `getLoop` between `-180` and `180`, on a finite number of
magnitude at most `2^56`, follows the loop of exact arithmetic step by step. -/
theorem Binary64.getLoop.down_sim : ∀ (fuel : Nat) (s : Bool) (m : Nat) (r : ℚ),
    F64.grid m 1 = m → m ≤ 2 ^ 1130 →
    Geo.getLoop.down (-180 : ℚ) 180 fuel (F64.toRat (fin s m)) = some r →
    ∃ s1 m1, Binary64.getLoop.down (fin true (180 * 2 ^ 1074)) (fin false (180 * 2 ^ 1074))
        fuel (fin s m) =
        some (fin s1 m1) ∧ F64.grid m1 1 = m1 ∧ m1 ≤ 2 ^ 1130 ∧
      F64.toRat (fin s1 m1) = r := by
  intro fuel
  induction fuel with
  | zero =>
    intro s m r _ _ h
    simp [Geo.getLoop.down] at h
  | succ fuel ih =>
    intro s m r hm hmb h
    rw [Geo.getLoop.down_succ] at h
    rw [Binary64.getLoop.down, Binary64.wrap_constants.2.2]
    by_cases hgt : F64.toRat (fin s m) > 180
    · rw [if_pos hgt] at h
      have hc := (F64.toRat_gt_iff s m 180).mp (by exact_mod_cast hgt)
      obtain ⟨rfl, hlt⟩ := hc
      rw [if_pos ((F64.gt_iff false m _).mpr ⟨rfl, hlt⟩)]
      obtain ⟨s1, m1, e1, hg1, hb1, hr1⟩ := F64.sub_exact m 45 hm hmb (by decide) (F64.half_lt _ m hlt)
      rw [e1]
      apply ih s1 m1 r hg1 hb1
      rw [hr1]
      rw [← h]
      norm_num
    · rw [if_neg hgt] at h
      have hng : ¬ (F64.gt (fin s m) (fin false (180 * 2 ^ 1074)) = true) := by
        rw [F64.gt_iff, ← F64.toRat_gt_iff]
        exact_mod_cast hgt
      rw [if_neg hng]
      exact ⟨s, m, rfl, hm, hmb, Option.some.inj h⟩

/-- The second loop of the binary64 `getLoop` between `-180` and `180`, on a finite number of
magnitude at most `2^56`, follows the loop of exact arithmetic step by step. -/
theorem Binary64.getLoop.up_sim : ∀ (fuel : Nat) (s : Bool) (m : Nat) (r : ℚ),
    F64.grid m 1 = m → m ≤ 2 ^ 1130 →
    Geo.getLoop.up (-180 : ℚ) 180 fuel (F64.toRat (fin s m)) = some r →
    ∃ s1 m1, Binary64.getLoop.up (fin true (180 * 2 ^ 1074)) (fin false (180 * 2 ^ 1074))
        fuel (fin s m) =
        some (fin s1 m1) ∧ F64.grid m1 1 = m1 ∧ m1 ≤ 2 ^ 1130 ∧
      F64.toRat (fin s1 m1) = r := by
  intro fuel
  induction fuel with
  | zero =>
    intro s m r _ _ h
    simp [Geo.getLoop.up] at h
  | succ fuel ih =>
    intro s m r hm hmb h
    rw [Geo.getLoop.up_succ] at h
    rw [Binary64.getLoop.up, Binary64.wrap_constants.2.2]
    by_cases hlt : F64.toRat (fin s m) < -180
    · rw [if_pos hlt] at h
      have hc := (F64.toRat_lt_iff s m 180).mp (by exact_mod_cast hlt)
      obtain ⟨rfl, hlt2⟩ := hc
      rw [if_pos ((F64.lt_iff true m _).mpr ⟨rfl, hlt2⟩)]
      obtain ⟨s1, m1, e1, hg1, hb1, hr1⟩ := F64.add_exact m 45 hm hmb (by decide) (F64.half_lt _ m hlt2)
      rw [e1]
      apply ih s1 m1 r hg1 hb1
      rw [hr1]
      rw [← h]
      norm_num
    · rw [if_neg hlt] at h
      have hng : ¬ (F64.lt (fin s m) (fin true (180 * 2 ^ 1074)) = true) := by
        rw [F64.lt_iff, ← F64.toRat_lt_iff]
        exact_mod_cast hlt
      rw [if_neg hng]
      exact ⟨s, m, rfl, hm, hmb, Option.some.inj h⟩

theorem Binary64.getLoop.down_step (a b : F64) (fuel : Nat) (v : F64) :
    Binary64.getLoop.down a b (fuel + 1) v =
      if F64.gt v b then Binary64.getLoop.down a b fuel (F64.sub v (F64.sub b a))
      else some v := rfl

theorem Binary64.getLoop.up_step (a b : F64) (fuel : Nat) (v : F64) :
    Binary64.getLoop.up a b (fuel + 1) v =
      if F64.lt v a then Binary64.getLoop.up a b fuel (F64.add v (F64.sub b a))
      else some v := rfl

/-- More fuel does not change the result of the first loop. -/
theorem Binary64.getLoop.down_mono (a b : F64) : ∀ (fuel k : Nat) (v w : F64),
    Binary64.getLoop.down a b fuel v = some w →
      Binary64.getLoop.down a b (fuel + k) v = some w := by
  intro fuel
  induction fuel with
  | zero =>
    intro k v w h
    simp [Binary64.getLoop.down] at h
  | succ fuel ih =>
    intro k v w h
    rw [show fuel + 1 + k = (fuel + k) + 1 by omega, Binary64.getLoop.down_step]
    rw [Binary64.getLoop.down_step] at h
    by_cases hg : F64.gt v b = true
    · rw [if_pos hg] at h ⊢
      exact ih k _ _ h
    · rw [if_neg hg] at h ⊢
      exact h

/-- More fuel does not change the result of the second loop. -/
theorem Binary64.getLoop.up_mono (a b : F64) : ∀ (fuel k : Nat) (v w : F64),
    Binary64.getLoop.up a b fuel v = some w →
      Binary64.getLoop.up a b (fuel + k) v = some w := by
  intro fuel
  induction fuel with
  | zero =>
    intro k v w h
    simp [Binary64.getLoop.up] at h
  | succ fuel ih =>
    intro k v w h
    rw [show fuel + 1 + k = (fuel + k) + 1 by omega, Binary64.getLoop.up_step]
    rw [Binary64.getLoop.up_step] at h
    by_cases hg : F64.lt v a = true
    · rw [if_pos hg] at h ⊢
      exact ih k _ _ h
    · rw [if_neg hg] at h ⊢
      exact h

/-- The binary64 `getLoop` in terms of its two loops. -/
theorem Binary64.getLoop_eq_some (fuel : Nat) (v a b w1 w : F64)
    (h1 : Binary64.getLoop.down a b fuel v = some w1)
    (h2 : Binary64.getLoop.up a b fuel w1 = some w) :
    Binary64.getLoop fuel v a b = some w := by
  simp [Binary64.getLoop, h1, h2]

/-- A first loop whose test holds and whose subtraction leaves `v` unchanged never ends. -/
theorem Binary64.getLoop.down_stuck (a b v : F64) (h1 : F64.gt v b = true)
    (h2 : F64.sub v (F64.sub b a) = v) : ∀ fuel, Binary64.getLoop.down a b fuel v = none := by
  intro fuel
  induction fuel with
  | zero => rfl
  | succ fuel ih => rw [Binary64.getLoop.down_step, if_pos h1, h2, ih]

/-- The value of a signed integer. -/
theorem F64.toRat_of_unit (s : Bool) (c : ℕ) :
    F64.toRat (fin s (c * 2 ^ 1074)) = if s then -(c : ℚ) else c := by
  rw [F64.toRat_fin, ← F64.unit_cast]
  have hU := F64.unit_pos
  generalize (2 : ℕ) ^ 1074 = U at hU ⊢
  have hu : (U : ℚ) ≠ 0 := by exact_mod_cast hU.ne.symm
  rw [Nat.cast_mul, mul_div_assoc, div_self hu, mul_one]

/-- A finite number of magnitude at most `2^56` in terms of its representation. -/
theorem F64.bound_of_abs (s : Bool) (m : ℕ) (h : |F64.toRat (fin s m)| ≤ 2 ^ 56) :
    m ≤ 2 ^ 1130 := by
  have e : (2 : ℕ) ^ 1130 = 2 ^ 56 * 2 ^ 1074 := by decide!
  rw [e]
  clear e
  rw [F64.toRat_fin, ← F64.unit_cast] at h
  have hU := F64.unit_pos
  generalize (2 : ℕ) ^ 1074 = U at hU h ⊢
  have hu : (0 : ℚ) < U := by exact_mod_cast hU
  have h0 : (0 : ℚ) ≤ (m : ℚ) / U := div_nonneg (Nat.cast_nonneg m) hu.le
  have h1 : (m : ℚ) / U ≤ 2 ^ 56 := by
    cases s
    · simpa [abs_of_nonneg h0] using h
    · simpa [abs_of_nonneg h0] using h
  rw [div_le_iff₀ hu] at h1
  exact_mod_cast h1

/-! ## Longitude wrap on binary64 -/

set_option maxRecDepth 100000 in
/-- C12, counterexample: the longitude `1e19` is a finite binary64 number above `180` that
the subtraction of `180 - (-180)` leaves unchanged, so the first loop of `getLoop` never ends
on it: the binary64 run of `getLoop(1e19, -180, 180)` returns no value, whatever the fuel. -/
theorem getLoop_1e19 :
    F64.isFinite (ofFrac false (10 ^ 19) 1) = true ∧
      F64.gt (ofFrac false (10 ^ 19) 1) (ofNat 180) = true ∧
      F64.sub (ofFrac false (10 ^ 19) 1) (F64.sub (ofNat 180) (ofFrac true 180 1)) =
        ofFrac false (10 ^ 19) 1 ∧
      ∀ fuel, Binary64.getLoop fuel (ofFrac false (10 ^ 19) 1) (ofFrac true 180 1) (ofNat 180) =
        none := by
  have h1 : F64.gt (ofFrac false (10 ^ 19) 1) (ofNat 180) = true := by decide!
  have h2 : F64.sub (ofFrac false (10 ^ 19) 1) (F64.sub (ofNat 180) (ofFrac true 180 1)) =
      ofFrac false (10 ^ 19) 1 := by decide!
  refine ⟨by decide!, h1, h2, fun fuel => ?_⟩
  rw [Binary64.getLoop, Binary64.getLoop.down_stuck _ _ _ h1 h2 fuel]
  rfl

/-- C12 (amended): for every finite binary64 longitude `v` with `|v| ≤ 2^56`, the binary64
run of `getLoop(v, -180, 180)` returns, from some amount of fuel on, one finite value `w` with
`-180 ≤ w ≤ 180` and `w - v` an integer multiple of 360 (every subtraction and addition of
the loops is exact); a `v` of `[-180, 180]` is returned unchanged. -/
theorem getLoop_wraps_binary64 (v : F64) (hf : F64.isFinite v = true)
    (hb : |F64.toRat v| ≤ 2 ^ 56) :
    ∃ (N : Nat) (w : F64),
      (∀ fuel, N ≤ fuel →
        Binary64.getLoop fuel v (ofFrac true 180 1) (ofNat 180) = some w) ∧
      F64.isFinite w = true ∧ -180 ≤ F64.toRat w ∧ F64.toRat w ≤ 180 ∧
      (∃ z : Int, F64.toRat w - F64.toRat v = z * 360) ∧
      (-180 ≤ F64.toRat v → F64.toRat v ≤ 180 → w = v) := by
  rcases v with ⟨s, m⟩ | _ | _
  · simp only [F64.isFinite, decide_eq_true_eq] at hf
    have hm := hf.1
    have hmb := F64.bound_of_abs s m hb
    obtain ⟨N, r, hN, h1, h2, ⟨z, hz⟩, h3⟩ :=
      getLoop_spec (-180 : ℚ) 180 (by norm_num) (F64.toRat (fin s m))
    have hNN := hN N le_rfl
    obtain ⟨r1, hd, hu⟩ : ∃ r1, getLoop.down (-180 : ℚ) 180 N (F64.toRat (fin s m)) = some r1 ∧
        getLoop.up (-180 : ℚ) 180 N r1 = some r := by
      simpa [getLoop, Option.bind_eq_some] using hNN
    obtain ⟨s1, m1, e1, hg1, hb1, hr1⟩ := Binary64.getLoop.down_sim N s m r1 hm hmb hd
    rw [← hr1] at hu
    obtain ⟨s2, m2, e2, hg2, hb2, hr2⟩ := Binary64.getLoop.up_sim N s1 m1 r hg1 hb1 hu
    have hlt : (2 : ℕ) ^ 1130 < 2 ^ 2098 := by decide!
    rw [Binary64.wrap_constants.1, Binary64.wrap_constants.2.1]
    have hrun : ∀ fuel, N ≤ fuel → Binary64.getLoop fuel (fin s m) (fin true (180 * 2 ^ 1074))
        (fin false (180 * 2 ^ 1074)) = some (fin s2 m2) := by
      intro fuel hfuel
      obtain ⟨k, rfl⟩ := Nat.exists_eq_add_of_le hfuel
      exact Binary64.getLoop_eq_some _ _ _ _ _ _
        (Binary64.getLoop.down_mono _ _ N k _ _ e1) (Binary64.getLoop.up_mono _ _ N k _ _ e2)
    refine ⟨N, fin s2 m2, hrun, ?_, ?_, ?_, ⟨z, ?_⟩, ?_⟩
    · simp only [F64.isFinite, decide_eq_true_eq]
      exact ⟨hg2, lt_of_le_of_lt hb2 hlt⟩
    · rw [hr2]; exact h1
    · rw [hr2]; exact h2
    · rw [hr2, hz]; ring
    · intro ha hb'
      have hg : F64.gt (fin s m) (fin false (180 * 2 ^ 1074)) = false := by
        rw [Bool.eq_false_iff, Ne, F64.gt_iff, ← F64.toRat_gt_iff]
        push_cast
        exact not_lt.mpr hb'
      have hl : F64.lt (fin s m) (fin true (180 * 2 ^ 1074)) = false := by
        rw [Bool.eq_false_iff, Ne, F64.lt_iff, ← F64.toRat_lt_iff]
        push_cast
        exact not_lt.mpr ha
      have h5 := hrun (N + 1) (Nat.le_succ N)
      rw [Binary64.getLoop_inRange N _ _ _ hg hl] at h5
      exact (Option.some.inj h5).symm
  · simp [F64.isFinite] at hf
  · simp [F64.isFinite] at hf

set_option maxRecDepth 100000 in
/-- Witness for C12 (amended): the longitude `1000` is a finite binary64 number of magnitude
at most `2^56`; the binary64 `getLoop` wraps it. -/
theorem getLoop_wraps_binary64_witness :
    F64.isFinite (fin false (1000 * 2 ^ 1074)) = true ∧
      |F64.toRat (fin false (1000 * 2 ^ 1074))| ≤ 2 ^ 56 ∧
      ∃ (N : Nat) (w : F64),
        (∀ fuel, N ≤ fuel → Binary64.getLoop fuel (fin false (1000 * 2 ^ 1074))
          (ofFrac true 180 1) (ofNat 180) = some w) ∧
        F64.isFinite w = true ∧ -180 ≤ F64.toRat w ∧ F64.toRat w ≤ 180 ∧
        (∃ z : Int, F64.toRat w - F64.toRat (fin false (1000 * 2 ^ 1074)) = z * 360) ∧
        (-180 ≤ F64.toRat (fin false (1000 * 2 ^ 1074)) →
          F64.toRat (fin false (1000 * 2 ^ 1074)) ≤ 180 → w = fin false (1000 * 2 ^ 1074)) := by
  have h1 : F64.isFinite (fin false (1000 * 2 ^ 1074)) = true := by decide!
  have h2 : |F64.toRat (fin false (1000 * 2 ^ 1074))| ≤ 2 ^ 56 := by
    rw [F64.toRat_of_unit]
    norm_num
  exact ⟨h1, h2, getLoop_wraps_binary64 _ h1 h2⟩

/-! ## Polygon area on binary64: the loop as a sum over the ring -/

/-- The binary64 loop of `GetPolygonArea` from the index `i` is the accumulation over the
triples of the ring from `i` on. -/
theorem Binary64.GetPolygonArea.loop_sums (pts : List (Point F64)) (hN : 2 ≤ pts.length)
    (k : Nat) :
    ∀ (i : Nat) (s : F64 × F64 × F64 × F64), i + k = pts.length →
      Binary64.GetPolygonArea.loop pts pts.length k i s =
        .ok (Binary64.GetPolygonArea.sums ((GetPolygonArea.triples pts).drop i) s) := by
  induction k with
  | zero =>
    intro i s hik
    have : (GetPolygonArea.triples pts).drop i = [] := by
      apply List.drop_of_length_le
      rw [GetPolygonArea.length_triples]; omega
    rw [this]
    rfl
  | succ k ih =>
    intro i s hik
    have hi : i < pts.length := by omega
    obtain ⟨Middle, hM⟩ : ∃ p, pts[i]? = some p := ⟨pts[i], List.getElem?_eq_getElem hi⟩
    obtain ⟨Low, hL⟩ : ∃ p, pts[(i + (pts.length - 1)) % pts.length]? = some p :=
      ⟨_, List.getElem?_eq_getElem (Nat.mod_lt _ (by omega))⟩
    obtain ⟨High, hH⟩ : ∃ p, pts[(i + 1) % pts.length]? = some p :=
      ⟨_, List.getElem?_eq_getElem (Nat.mod_lt _ (by omega))⟩
    have ht := GetPolygonArea.triples_getElem? pts i Low Middle High hi hL hM hH
    have hd : (GetPolygonArea.triples pts).drop i =
        (Low, Middle, High) :: (GetPolygonArea.triples pts).drop (i + 1) := by
      have hi2 : i < (GetPolygonArea.triples pts).length := by
        rw [GetPolygonArea.length_triples]; exact hi
      rw [List.drop_eq_getElem_cons hi2]
      congr 1
      rw [List.getElem?_eq_getElem hi2] at ht
      exact Option.some.inj ht
    have step : Binary64.GetPolygonArea.loop pts pts.length (k + 1) i s =
        match Binary64.GetPolygonArea.vertex Low Middle High with
        | none => .ok none
        | some v => Binary64.GetPolygonArea.loop pts pts.length k (i + 1)
            (Binary64.GetPolygonArea.accumulate s v) := by
      rw [Binary64.GetPolygonArea.loop]
      by_cases h0 : i = 0
      · subst h0
        have e1 : (0 + (pts.length - 1)) % pts.length = pts.length - 1 := by
          rw [Nat.zero_add]; exact Nat.mod_eq_of_lt (by omega)
        have e2 : (0 + 1) % pts.length = 1 := Nat.mod_eq_of_lt (by omega)
        rw [e1] at hL
        rw [e2] at hH
        simp only [if_true, bind, Except.bind, pure, Except.pure,
          index_of_getElem? pts _ _ hL, index_of_getElem? pts _ _ hM,
          index_of_getElem? pts _ _ hH]
      · by_cases h1 : i = pts.length - 1
        · have e1 : (i + (pts.length - 1)) % pts.length = pts.length - 2 := by
            rw [h1]
            have : pts.length - 1 + (pts.length - 1) = pts.length - 2 + pts.length := by omega
            rw [this, Nat.add_mod_right]
            exact Nat.mod_eq_of_lt (by omega)
          have e2 : (i + 1) % pts.length = 0 := by
            rw [h1]
            have : pts.length - 1 + 1 = pts.length := by omega
            rw [this, Nat.mod_self]
          rw [e1] at hL
          rw [e2] at hH
          rw [h1] at hM
          have h0' : ¬ (pts.length - 1 = 0) := by omega
          simp only [h0', h1, if_true, if_false, bind, Except.bind, pure, Except.pure,
            index_of_getElem? pts _ _ hL, index_of_getElem? pts _ _ hM,
            index_of_getElem? pts _ _ hH]
        · have e1 : (i + (pts.length - 1)) % pts.length = i - 1 := by
            have : i + (pts.length - 1) = i - 1 + pts.length := by omega
            rw [this, Nat.add_mod_right]
            exact Nat.mod_eq_of_lt (by omega)
          have e2 : (i + 1) % pts.length = i + 1 := Nat.mod_eq_of_lt (by omega)
          rw [e1] at hL
          rw [e2] at hH
          simp only [h0, h1, if_false, bind, Except.bind, pure, Except.pure,
            index_of_getElem? pts _ _ hL, index_of_getElem? pts _ _ hM,
            index_of_getElem? pts _ _ hH]
    rw [step, hd, Binary64.GetPolygonArea.sums]
    cases hv : Binary64.GetPolygonArea.vertex Low Middle High with
    | none => rfl
    | some v => exact ih (i + 1) _ (by omega)

/-- The binary64 run of `GetPolygonArea` on at least 3 points: the selection applied to the
sums accumulated over the triples of the ring, in the order of the list. -/
theorem Binary64.GetPolygonArea_sums (pts : List (Point F64)) (hN : 3 ≤ pts.length) :
    Binary64.GetPolygonArea ⟨pts⟩ =
      .ok ((Binary64.GetPolygonArea.sums (GetPolygonArea.triples pts)
        (ofNat 0, ofNat 0, ofNat 0, ofNat 0)).map (Binary64.GetPolygonArea.select pts.length)) := by
  have hlt : ¬ pts.length < 3 := by omega
  simp only [Binary64.GetPolygonArea, hlt, if_false, bind, Except.bind, pure, Except.pure,
    Binary64.GetPolygonArea.loop_sums pts (by omega) pts.length 0 _ (Nat.zero_add _),
    List.drop_zero]

/-- The binary64 run of `GetPolygonArea` on fewer than 3 points returns exactly `0`. -/
theorem Binary64.GetPolygonArea_few (pts : List (Point F64)) (hN : pts.length < 3) :
    Binary64.GetPolygonArea ⟨pts⟩ = .ok (some (ofNat 0)) := by
  simp only [Binary64.GetPolygonArea, hN, if_true, bind, Except.bind, pure, Except.pure]

set_option maxRecDepth 100000 in
/-- C14 (amended): in binary64, `GetPolygonArea` of a point list rotated by `k` positions is
exactly `0` when the list has fewer than 3 points, as it is for the list itself; otherwise it
is the selection applied to the sums accumulated over the same triples `(Low, Middle, High)`
as for the list, taken in the rotated order, so that only the order of the additions
differs.  On the polygon of `TestGetPolygonArea` the rotations by 0, 2, 3 and 4 positions
give `810876.5279315191` and the rotation by 1 position gives `810876.6000331333`, both
within `0.1` of `810876.60`. -/
theorem GetPolygonArea_rotate_binary64 (pts : List (Point F64)) (k : Nat) :
    Binary64.GetPolygonArea ⟨pts.rotate k⟩ =
        (if pts.length < 3 then .ok (some (ofNat 0))
          else .ok ((Binary64.GetPolygonArea.sums ((GetPolygonArea.triples pts).rotate k)
            (ofNat 0, ofNat 0, ofNat 0, ofNat 0)).map
              (Binary64.GetPolygonArea.select pts.length))) ∧
      Binary64.GetPolygonArea ⟨pts⟩ =
        (if pts.length < 3 then .ok (some (ofNat 0))
          else .ok ((Binary64.GetPolygonArea.sums (GetPolygonArea.triples pts)
            (ofNat 0, ofNat 0, ofNat 0, ofNat 0)).map
              (Binary64.GetPolygonArea.select pts.length))) ∧
      Binary64.GetPolygonArea ⟨Binary64.testPolygon.rotate 0⟩ =
        .ok (some (ofFrac false 8108765279315191 (10 ^ 10))) ∧
      Binary64.GetPolygonArea ⟨Binary64.testPolygon.rotate 1⟩ =
        .ok (some (ofFrac false 8108766000331333 (10 ^ 10))) ∧
      Binary64.GetPolygonArea ⟨Binary64.testPolygon.rotate 2⟩ =
        .ok (some (ofFrac false 8108765279315191 (10 ^ 10))) ∧
      Binary64.GetPolygonArea ⟨Binary64.testPolygon.rotate 3⟩ =
        .ok (some (ofFrac false 8108765279315191 (10 ^ 10))) ∧
      Binary64.GetPolygonArea ⟨Binary64.testPolygon.rotate 4⟩ =
        .ok (some (ofFrac false 8108765279315191 (10 ^ 10))) ∧
      F64.le (GoMath.Abs (sub (ofFrac false 8108765279315191 (10 ^ 10))
        (ofFrac false 81087660 100))) (ofFrac false 1 10) = true ∧
      F64.le (GoMath.Abs (sub (ofFrac false 8108766000331333 (10 ^ 10))
        (ofFrac false 81087660 100))) (ofFrac false 1 10) = true := by
  refine ⟨?_, ?_, by decide!, by decide!, by decide!, by decide!, by decide!, by decide!,
    by decide!⟩
  · by_cases hN : pts.length < 3
    · rw [if_pos hN]
      exact Binary64.GetPolygonArea_few _ (by rw [List.length_rotate]; exact hN)
    · rw [if_neg hN, Binary64.GetPolygonArea_sums _ (by rw [List.length_rotate]; omega),
        GetPolygonArea.triples_rotate, List.length_rotate]
  · by_cases hN : pts.length < 3
    · rw [if_pos hN]
      exact Binary64.GetPolygonArea_few _ hN
    · rw [if_neg hN, Binary64.GetPolygonArea_sums _ (by omega)]

end Geo
